import Mathlib

/-!
# Cranberry procedural VM: chunk allocator, linker, interpreter and mesh operations

A shallow embedding of `Source/cranberry_procedural.h`.

Conventions of the embedding.

* Memory is a total map from byte addresses to bytes.  Multi-byte integers are
  little-endian (`load`, `store`).
* Machine integers are naturals reduced modulo `2 ^ w` at every place where the
  C type truncates; `intptr_t` values are integers obtained with `toIntptr`.
* Pointers are 64-bit addresses; pointer arithmetic is `cranp_advance`, addition
  modulo `2 ^ 64`.
* A `cranp_assert` that fails (the build of `main.c` defines `CRANBERRY_DEBUG`)
  is `Fault.assertion`; C undefined behaviour that the code can reach (division
  by zero, an out-of-bounds table read) is `Fault.undefined`.
* A function that writes memory returns the new memory.
* A loop whose exit is not a plain count (`while (ops != opEnd)`, a `float` counter, a
  16-bit counter against a 32-bit bound) takes `fuel` and yields `none` when the fuel
  runs out; the theorems show that enough fuel gives a result, or that no fuel does.
* A `float` is its binary32 bit pattern; the arithmetic on patterns is a parameter
  (`FloatModel`), of which only exactness on small naturals is assumed
  (`FloatModel.Exact`).
* The interpreter calls operations through function pointers; what a call does is a
  parameter (`Machine`).  The `recorder` machine logs the calls and leaves memory alone.
-/

namespace Cranp

/-- How a run stops without a result. -/
inductive Fault where
  | assertion
  | undefined
  deriving DecidableEq, Repr

deriving instance DecidableEq for Except

/-- Byte-addressed memory. -/
abbrev Mem := Nat → Nat

/-- Little-endian read of `n` bytes at address `a`. -/
def load (m : Mem) (a : Nat) : Nat → Nat
  | 0 => 0
  | n + 1 => m a % 256 + 256 * load m (a + 1) n

/-- Little-endian write of the `n` low bytes of `v` at address `a`. -/
def store (m : Mem) (a n v : Nat) : Mem :=
  fun x => if a ≤ x ∧ x < a + n then v / 256 ^ (x - a) % 256 else m x

/-- The value of a 64-bit pattern read as `intptr_t` (two's complement). -/
def toIntptr (a : Nat) : Int :=
  if a % 2 ^ 64 < 2 ^ 63 then ((a % 2 ^ 64 : Nat) : Int) else ((a % 2 ^ 64 : Nat) : Int) - 2 ^ 64

/-- The 64-bit pattern of an `intptr_t` value, as a pointer. -/
def ofIntptr (z : Int) : Nat := (z % 2 ^ 64).toNat

/-- `#define cranp_alignment 16`. -/
def cranp_alignment : Nat := 16

/-- `sizeof(uint64_t)`. -/
def sizeof_uint64_t : Nat := 8

/-- `sizeof(uint32_t)`. -/
def sizeof_uint32_t : Nat := 4

/-- `cranp_allocator_t`: the header of an arena, viewed. -/
structure cranp_allocator_t where
  allocChunkCount : Nat
  allocChunkSize : Nat
  buffer : Nat
  deriving DecidableEq, Repr

/-- `cranp_advance`: `(uint8_t*)ptr + offset` on a 64-bit address. -/
def cranp_advance (ptr offset : Nat) : Nat := (ptr + offset) % 2 ^ 64

/-- `cranp_allocator_buffer_size`.  `memorySize / chunkCount` is undefined for
`chunkCount = 0`; `cranp_alignment * chunkCount` is an `int` times a `uint32_t`,
hence computed in 32 bits, the rest in 64 bits. -/
def cranp_allocator_buffer_size (memorySize chunkCount : Nat) : Except Fault Nat :=
  if chunkCount = 0 then .error .undefined
  else
    let chunkSize := memorySize / chunkCount
    .ok ((sizeof_uint64_t * 2 + chunkSize * chunkCount % 2 ^ 64
          + cranp_alignment * chunkCount % 2 ^ 32) % 2 ^ 64)

/-- `cranp_allocator_buffer_create`: writes the two header words. -/
def cranp_allocator_buffer_create (m : Mem) (buffer memorySize maxActiveBuffers : Nat) :
    Except Fault Mem :=
  let m := store m buffer 8 maxActiveBuffers
  if maxActiveBuffers = 0 then .error .undefined
  else .ok (store m (cranp_advance buffer sizeof_uint64_t) 8 (memorySize / maxActiveBuffers))

/-- `cranp_view_as_allocator`: reads the two header words. -/
def cranp_view_as_allocator (m : Mem) (buffer : Nat) : cranp_allocator_t :=
  { allocChunkCount := load m buffer 8
    allocChunkSize := load m (cranp_advance buffer sizeof_uint64_t) 8
    buffer := cranp_advance buffer (sizeof_uint64_t * 2) }

/-- `cranp_allocator_get_chunk`. -/
def cranp_allocator_get_chunk (allocator : cranp_allocator_t) (slotId : Nat) : Except Fault Nat :=
  if slotId < allocator.allocChunkCount then
    let chunkAddress : Int :=
      toIntptr (cranp_advance allocator.buffer (slotId * allocator.allocChunkSize % 2 ^ 64))
    let chunkAddress : Int :=
      chunkAddress + ((cranp_alignment : Int) - chunkAddress.tmod (cranp_alignment : Int))
    .ok (ofIntptr chunkAddress)
  else .error .assertion

/-- `cranp_vm_get_allocator`. -/
def cranp_vm_get_allocator (m : Mem) (vm : Nat) : cranp_allocator_t :=
  cranp_view_as_allocator m vm

/-- `cranp_vm_buffer_size`. -/
def cranp_vm_buffer_size (memorySize maxActiveBuffers : Nat) : Except Fault Nat :=
  if memorySize % cranp_alignment = 0 then
    cranp_allocator_buffer_size memorySize maxActiveBuffers
  else .error .assertion

/-- `cranp_vm_buffer_create`: returns the handle (the buffer itself) and the memory. -/
def cranp_vm_buffer_create (m : Mem) (buffer memorySize maxActiveBuffers : Nat) :
    Except Fault (Nat × Mem) :=
  match cranp_allocator_buffer_create m buffer memorySize maxActiveBuffers with
  | .ok m => .ok (buffer, m)
  | .error f => .error f

/-- `cranp_vm_alloc_chunk`: returns the chunk address; it stores nothing, so the
memory it hands back is the one it was given. -/
def cranp_vm_alloc_chunk (m : Mem) (vm slotId chunkSize : Nat) : Except Fault (Nat × Mem) :=
  let allocator := cranp_vm_get_allocator m vm
  if chunkSize ≤ allocator.allocChunkSize then
    match cranp_allocator_get_chunk allocator slotId with
    | .ok p => .ok (p, m)
    | .error f => .error f
  else .error .assertion

/-- `cranp_vm_get_chunk`. -/
def cranp_vm_get_chunk (m : Mem) (vm slotId : Nat) : Except Fault Nat :=
  let allocator := cranp_vm_get_allocator m vm
  cranp_allocator_get_chunk allocator slotId

/-- The address `cranp_vm_get_chunk` returns for `slot` in the arena that
`cranp_vm_buffer_create` sets up in `buffer`. -/
def chunkAfterCreate (m : Mem) (buffer memorySize chunkCount slot : Nat) : Except Fault Nat :=
  match cranp_vm_buffer_create m buffer memorySize chunkCount with
  | .ok (vm, m) => cranp_vm_get_chunk m vm slot
  | .error f => .error f

/-- Two byte ranges `[a, a + n)` and `[b, b + n)` have no byte in common. -/
def disjointRanges (a b n : Nat) : Prop := a + n ≤ b ∨ b + n ≤ a

instance (a b n : Nat) : Decidable (disjointRanges a b n) := by
  unfold disjointRanges; infer_instance

/-- The all-zero memory. -/
def zeroMem : Mem := fun _ => 0

/-- The memory after `cranp_vm_buffer_create` on the all-zero memory. -/
def arenaOf (buffer memorySize chunkCount : Nat) : Mem :=
  match cranp_vm_buffer_create zeroMem buffer memorySize chunkCount with
  | .ok (_, m) => m
  | .error _ => zeroMem

/-! ## Linking -/

/-- `cranp_op_id_circle`. -/
def cranp_op_id_circle : Nat := 0

/-- `cranp_op_id_translate`. -/
def cranp_op_id_translate : Nat := 1

/-- `cranp_op_id_max`. -/
def cranp_op_id_max : Nat := 2

/-- `sizeof(cranp_opf_t)`: a function pointer on the 64-bit target. -/
def sizeof_cranp_opf_t : Nat := 8

/-- The addresses of the two operation functions, fixed when the program is built. -/
structure OpFuncs where
  cranp_op_circle : Nat
  cranp_op_translate : Nat
  deriving DecidableEq, Repr

/-- `cranp_op_table` before `cranp_init`: a zero-initialised static array. -/
def cranp_op_table_initial : List Nat := List.replicate cranp_op_id_max 0

/-- `cranp_register_ops`: fills the two entries of `cranp_op_table`. -/
def cranp_register_ops (f : OpFuncs) (cranp_op_table : List Nat) : List Nat :=
  (cranp_op_table.set cranp_op_id_circle f.cranp_op_circle).set
    cranp_op_id_translate f.cranp_op_translate

/-- `cranp_init`. -/
def cranp_init (f : OpFuncs) : List Nat := cranp_register_ops f cranp_op_table_initial

/-- The body of the loop of `cranp_init_script`, run for `i`, `i + 1`, ... as long as
`remaining` iterations are left (`remaining = opCount - i`).  The entry is read as an
`intptr_t`; the assertion is `opId < cranp_op_id_max` only, and a negative `opId` that
passes it indexes `cranp_op_table` out of bounds. -/
def cranp_init_script_loop (cranp_op_table : List Nat) (ops : Nat) :
    Nat → Nat → Mem → Except Fault Mem
  | 0, _, m => .ok m
  | remaining + 1, i, m =>
    let opId : Int := toIntptr (load m (cranp_advance ops (i * sizeof_cranp_opf_t)) 8)
    if opId < (cranp_op_id_max : Int) then
      if 0 ≤ opId then
        let m := store m (cranp_advance ops (i * sizeof_cranp_opf_t)) 8
          (cranp_op_table.getD opId.toNat 0)
        cranp_init_script_loop cranp_op_table ops remaining (i + 1) m
      else .error .undefined
    else .error .assertion

/-- `cranp_init_script`. -/
def cranp_init_script (cranp_op_table : List Nat) (m : Mem) (script : Nat) : Except Fault Mem :=
  let opCount := load m script 4
  let ops := cranp_advance script sizeof_uint32_t
  cranp_init_script_loop cranp_op_table ops opCount 0 m

/-- Function addresses used in examples. -/
def exampleFuncs : OpFuncs := { cranp_op_circle := 4198400, cranp_op_translate := 4202496 }

/-- A program of one operation whose entry is `0xFFFFFFFFFFFFFFFF`, that is `-1` as an
`intptr_t`, at address 8192. -/
def negativeIdProgram : Mem := store (store zeroMem 8192 4 1) 8196 8 18446744073709551615

/-! ## Interpreter -/

/-- One call through a `cranp_opf_t`: the callable and the five arguments. -/
structure Invocation where
  op : Nat
  vm : Nat
  slotId : Nat
  inputBuffers : Nat
  inputBufferCount : Nat
  params : Nat
  deriving DecidableEq, Repr

/-- What the interpreter needs to know of the world it runs in: the memory of a state
and the effect of a call through a function pointer. -/
structure Machine (σ : Type) where
  mem : σ → Mem
  call : Invocation → σ → Except Fault σ

/-- The four cursors of `cranp_vm_execute_script`. -/
structure Cursors where
  ops : Nat
  slotIds : Nat
  inputs : Nat
  params : Nat
  deriving DecidableEq, Repr

/-- The first loop of `cranp_vm_execute_script` ("process first few ops"), run `count`
times: call, then step all four cursors. -/
def execPrologue {σ : Type} (M : Machine σ) (vm : Nat) :
    Nat → Cursors → σ → Except Fault (Cursors × σ)
  | 0, c, s => .ok (c, s)
  | count + 1, c, s =>
    let inputSlotCount := load (M.mem s) c.inputs 4
    match M.call
        { op := load (M.mem s) c.ops 8, vm := vm, slotId := load (M.mem s) c.slotIds 4,
          inputBuffers := cranp_advance c.inputs 4, inputBufferCount := inputSlotCount,
          params := cranp_advance c.params 4 } s with
    | .error f => .error f
    | .ok s =>
      let paramSize := load (M.mem s) c.params 4
      execPrologue M vm count
        { ops := cranp_advance c.ops sizeof_cranp_opf_t
          slotIds := cranp_advance c.slotIds sizeof_uint32_t
          params := cranp_advance c.params paramSize
          inputs := cranp_advance c.inputs ((inputSlotCount + 1) % 2 ^ 32 * sizeof_uint32_t) } s

/-- One call of the unrolled loop: `ops[k]` and `slotIds[k]` with the current input and
parameter cursors; afterwards the input cursor is advanced and the next count is read. -/
def execBatchCall {σ : Type} (M : Machine σ) (vm : Nat) (c : Cursors) (k : Nat)
    (inputs inputSlotCount params : Nat) (s : σ) : Except Fault (Nat × Nat × σ) :=
  match M.call
      { op := load (M.mem s) (cranp_advance c.ops (k * sizeof_cranp_opf_t)) 8, vm := vm,
        slotId := load (M.mem s) (cranp_advance c.slotIds (k * sizeof_uint32_t)) 4,
        inputBuffers := cranp_advance inputs 4, inputBufferCount := inputSlotCount,
        params := cranp_advance params 4 } s with
  | .error f => .error f
  | .ok s =>
    let inputs := cranp_advance inputs (sizeof_uint32_t * ((inputSlotCount + 1) % 2 ^ 32))
    let inputSlotCount := load (M.mem s) inputs 4
    .ok (inputs, inputSlotCount, s)

/-- The body of the `while (ops != opEnd)` loop: four calls. -/
def execBatch {σ : Type} (M : Machine σ) (vm : Nat) (c : Cursors) (s : σ) :
    Except Fault (Cursors × σ) :=
  let inputs := c.inputs
  let params := c.params
  let inputSlotCount := load (M.mem s) inputs 4
  let paramSize := load (M.mem s) params 4
  match execBatchCall M vm c 0 inputs inputSlotCount params s with
  | .error f => .error f
  | .ok (inputs, inputSlotCount, s) =>
    let params := cranp_advance params paramSize
    let paramSize := load (M.mem s) params 4
    match execBatchCall M vm c 1 inputs inputSlotCount params s with
    | .error f => .error f
    | .ok (inputs, inputSlotCount, s) =>
      let params := cranp_advance params paramSize
      let paramSize := load (M.mem s) params 4
      match execBatchCall M vm c 2 inputs inputSlotCount params s with
      | .error f => .error f
      | .ok (inputs, inputSlotCount, s) =>
        let params := cranp_advance params paramSize
        let paramSize := load (M.mem s) params 4
        match execBatchCall M vm c 3 inputs inputSlotCount params s with
        | .error f => .error f
        | .ok (inputs, _, s) =>
          let params := cranp_advance params paramSize
          .ok ({ ops := cranp_advance c.ops (4 * sizeof_cranp_opf_t)
                 slotIds := cranp_advance c.slotIds (4 * sizeof_uint32_t)
                 inputs := inputs
                 params := params }, s)

/-- The loop `while (ops != opEnd)`, with `fuel` bounding the number of iterations:
`none` when the fuel runs out before `ops` reaches `opEnd`. -/
def execLoop {σ : Type} (M : Machine σ) (vm opEnd : Nat) :
    Nat → Cursors → σ → Option (Except Fault σ)
  | 0, c, s => if c.ops = opEnd then some (.ok s) else none
  | fuel + 1, c, s =>
    if c.ops = opEnd then some (.ok s)
    else
      match execBatch M vm c s with
      | .error f => some (.error f)
      | .ok (c, s) => execLoop M vm opEnd fuel c s

/-- `cranp_vm_execute_script`. -/
def cranp_vm_execute_script {σ : Type} (M : Machine σ) (fuel : Nat) (s : σ) (vm script : Nat) :
    Option (Except Fault σ) :=
  let opCount := load (M.mem s) script 4
  let ops := cranp_advance script sizeof_uint32_t
  let opEnd := cranp_advance ops (opCount * sizeof_cranp_opf_t)
  let slotIds := cranp_advance script (sizeof_uint32_t + opCount * sizeof_cranp_opf_t)
  let inputs := cranp_advance script
    (sizeof_uint32_t + opCount * sizeof_cranp_opf_t + opCount * sizeof_uint32_t)
  let inputSize := load (M.mem s) inputs 4
  let inputs := cranp_advance inputs sizeof_uint32_t
  let params := cranp_advance script
    (sizeof_uint32_t + opCount * sizeof_cranp_opf_t + opCount * sizeof_uint32_t + inputSize)
  match execPrologue M vm (opCount % 4)
      { ops := ops, slotIds := slotIds, inputs := inputs, params := params } s with
  | .error f => some (.error f)
  | .ok (c, s) => execLoop M vm opEnd fuel c s

/-- The machine that leaves memory `m` alone and records every call. -/
def recorder (m : Mem) : Machine (List Invocation) :=
  { mem := fun _ => m
    call := fun inv calls => .ok (calls ++ [inv]) }

/-! ## The test parser's program assembly -/

/-- One operation of a program: the callable (or id), the output slot, the input slot
ids and the parameter payload bytes. -/
structure OpRecord where
  op : Nat
  outputSlot : Nat
  inputSlots : List Nat
  paramPayload : List Nat
  deriving DecidableEq, Repr

/-- The `n` little-endian bytes of `v`. -/
def leBytes : Nat → Nat → List Nat
  | 0, _ => []
  | n + 1, v => v % 256 :: leBytes n (v / 256)

/-- `memcpy(dst, bytes, bytes.length)` from a byte array held as a list. -/
def writeBytes (m : Mem) (dst : Nat) (bytes : List Nat) : Mem :=
  fun x => if dst ≤ x ∧ x < dst + bytes.length then bytes.getD (x - dst) 0 % 256 else m x

/-- The parser's `opChunk`: one `intptr_t` per operation (line 405). -/
def opChunkOf (records : List OpRecord) : List Nat := records.map (fun r => r.op)

/-- The parser's `opIdChunk`: one `uint32_t` output slot per operation (line 415). -/
def opIdChunkOf (records : List OpRecord) : List Nat := records.map (fun r => r.outputSlot)

/-- The parser's `inputChunk`, in `uint32_t` words: per operation the input count, then
the slot ids (lines 434 to 449). -/
def inputChunkOf : List OpRecord → List Nat
  | [] => []
  | r :: rs => (r.inputSlots.length :: r.inputSlots) ++ inputChunkOf rs

/-- The parser's `paramChunk`, in bytes: per operation the block size, which counts its
own four bytes, then the payload (lines 468 to 483). -/
def paramChunkOf : List OpRecord → List Nat
  | [] => []
  | r :: rs =>
    (leBytes 4 (r.paramPayload.length + sizeof_uint32_t) ++ r.paramPayload)
      ++ paramChunkOf rs

/-- The bytes of a list of `w`-byte words. -/
def wordBytes (w : Nat) : List Nat → List Nat
  | [] => []
  | v :: vs => leBytes w v ++ wordBytes w vs

/-- The tail of `cranp_test_parse_script` (lines 493 to 513): the four chunks are laid
out in `scriptBuffer`. -/
def cranp_test_assemble (m : Mem) (scriptBuffer : Nat)
    (opChunk opIdChunk inputChunk paramChunk : List Nat) : Mem :=
  let opCount := opChunk.length
  let inputWriteCount := inputChunk.length
  let compiledScript := scriptBuffer
  let m := store m compiledScript 4 opCount
  let compiledScript := compiledScript + sizeof_uint32_t
  let m := writeBytes m compiledScript (wordBytes sizeof_cranp_opf_t (opChunk.take opCount))
  let compiledScript := compiledScript + sizeof_cranp_opf_t * opCount
  let m := writeBytes m compiledScript (wordBytes sizeof_uint32_t (opIdChunk.take opCount))
  let compiledScript := compiledScript + sizeof_uint32_t * opCount
  let m := store m compiledScript 4 (inputWriteCount * sizeof_uint32_t + sizeof_uint32_t)
  let compiledScript := compiledScript + sizeof_uint32_t
  let m := writeBytes m compiledScript (wordBytes sizeof_uint32_t inputChunk)
  let compiledScript := compiledScript + sizeof_uint32_t * inputWriteCount
  writeBytes m compiledScript paramChunk

/-- The program buffer the test parser produces for a list of operation records. -/
def assembled (m : Mem) (scriptBuffer : Nat) (records : List OpRecord) : Mem :=
  cranp_test_assemble m scriptBuffer (opChunkOf records) (opIdChunkOf records)
    (inputChunkOf records) (paramChunkOf records)

/-- Reference for the interpreter: the calls the records ask for when the input stream
starts at `inputs` and the parameter stream at `params`: record by record, each with the
address just past its input count and the address just past its block size. -/
def callsFrom (vm : Nat) : Nat → Nat → List OpRecord → List Invocation
  | _, _, [] => []
  | inputs, params, r :: rs =>
    { op := r.op, vm := vm, slotId := r.outputSlot, inputBuffers := inputs + 4,
      inputBufferCount := r.inputSlots.length, params := params + 4 }
      :: callsFrom vm (inputs + 4 * (r.inputSlots.length + 1))
          (params + (r.paramPayload.length + 4)) rs

/-- Where the input stream of an assembled program starts (past `inputStreamByteSize`). -/
def inputStreamStart (script : Nat) (records : List OpRecord) : Nat :=
  script + 4 + 8 * records.length + 4 * records.length + 4

/-- Where the parameter stream of an assembled program starts. -/
def paramStreamStart (script : Nat) (records : List OpRecord) : Nat :=
  inputStreamStart script records + 4 * (inputChunkOf records).length

/-- An operation record fits the field widths of the format. -/
def OpRecord.fits (r : OpRecord) : Prop :=
  r.op < 2 ^ 64 ∧ r.outputSlot < 2 ^ 32 ∧ r.inputSlots.length + 1 < 2 ^ 32 ∧
    (∀ x ∈ r.inputSlots, x < 2 ^ 32) ∧ r.paramPayload.length + 4 < 2 ^ 32 ∧
    (∀ b ∈ r.paramPayload, b < 256)

instance (r : OpRecord) : Decidable r.fits := by
  unfold OpRecord.fits; infer_instance

/-- The two operations of `cranp_test_script_basic`, `circle 0 [] [10000.0,10.0]` and
`translate 1 [0] [10.0,10.0,10.0,0.0f]`, with `circle` and `translate` standing for the
entries of the operation section (ids before linking, callables after).  The payloads
are the binary32 encodings `0x461C4000` of 10000.0, `0x41200000` of 10.0 and 0 of 0.0. -/
def testScriptRecords (circle translate : Nat) : List OpRecord :=
  [ { op := circle, outputSlot := 0, inputSlots := [],
      paramPayload := [0, 64, 28, 70, 0, 0, 32, 65] },
    { op := translate, outputSlot := 1, inputSlots := [0],
      paramPayload := [0, 0, 32, 65, 0, 0, 32, 65, 0, 0, 32, 65, 0, 0, 0, 0] } ]

/-- The test program three times over: six operations, so that the interpreter runs two
operations in its first loop and four in one pass of the unrolled loop. -/
def sixOpRecords : List OpRecord :=
  testScriptRecords 4198400 4202496 ++ testScriptRecords 4198400 4202496
    ++ testScriptRecords 4198400 4202496

/-- The parsed, not yet linked test program at address 8192. -/
def parsedTestProgram : Mem :=
  assembled zeroMem 8192 (testScriptRecords cranp_op_id_circle cranp_op_id_translate)

/-- Memory `m` holds the bytes `bs` from address `a` on. -/
def bytesAt (m : Mem) (a : Nat) (bs : List Nat) : Prop :=
  ∀ k, k < bs.length → m (a + k) = bs.getD k 0

/-- Reference for the program format: memory `m` holds, at the four cursors, the four
streams of the records `rs`: callable, output slot, input count with the slot ids behind
it, block size with the payload behind it, each stream continuing with the next record;
and no cursor leaves the address space. -/
def Holds (m : Mem) : Cursors → List OpRecord → Prop
  | _, [] => True
  | c, r :: rs =>
    load m c.ops 8 = r.op ∧ load m c.slotIds 4 = r.outputSlot ∧
    load m c.inputs 4 = r.inputSlots.length ∧
    (∀ j, j < r.inputSlots.length → load m (c.inputs + 4 + 4 * j) 4 = r.inputSlots.getD j 0) ∧
    load m c.params 4 = r.paramPayload.length + 4 ∧
    bytesAt m (c.params + 4) r.paramPayload ∧
    r.inputSlots.length + 1 < 2 ^ 32 ∧
    c.ops + 8 < 2 ^ 64 ∧ c.slotIds + 4 < 2 ^ 64 ∧
    c.inputs + 4 * (r.inputSlots.length + 1) < 2 ^ 64 ∧
    c.params + (r.paramPayload.length + 4) < 2 ^ 64 ∧
    Holds m
      { ops := c.ops + 8, slotIds := c.slotIds + 4,
        inputs := c.inputs + 4 * (r.inputSlots.length + 1),
        params := c.params + (r.paramPayload.length + 4) } rs

/-- Reference for a call: `inv` hands the operation exactly what record `r` says: the
callable, the output slot, the input count, a pointer to the input slot ids (the count
sits in the four bytes before it) and a pointer to the payload (the block size sits in
the four bytes before it). -/
def Receives (m : Mem) (vm : Nat) (inv : Invocation) (r : OpRecord) : Prop :=
  inv.op = r.op ∧ inv.vm = vm ∧ inv.slotId = r.outputSlot ∧
  inv.inputBufferCount = r.inputSlots.length ∧
  4 ≤ inv.inputBuffers ∧ load m (inv.inputBuffers - 4) 4 = r.inputSlots.length ∧
  (∀ j, j < r.inputSlots.length → load m (inv.inputBuffers + 4 * j) 4 = r.inputSlots.getD j 0) ∧
  4 ≤ inv.params ∧ load m (inv.params - 4) 4 = r.paramPayload.length + 4 ∧
  bytesAt m inv.params r.paramPayload

/-! ## Floating point -/

/-- The position of the leading bit of `n`, for `n < 2 ^ fuel`. -/
def floorLog2Aux : Nat → Nat → Nat
  | 0, _ => 0
  | fuel + 1, n => if n < 2 then 0 else floorLog2Aux fuel (n / 2) + 1

/-- The position of the leading bit of a number below `2 ^ 64`. -/
def floorLog2 (n : Nat) : Nat := floorLog2Aux 64 n

/-- The binary32 bit pattern of the natural number `n`: sign 0, biased exponent
`127 + floorLog2 n`, and the 23 fraction bits below the leading bit.  Exact for
`n ≤ 2 ^ 24`; above that the low bits are cut off. -/
def f32OfNat (n : Nat) : Nat :=
  if n = 0 then 0
  else if floorLog2 n ≤ 23 then
    (127 + floorLog2 n) * 2 ^ 23 + (n * 2 ^ (23 - floorLog2 n) - 2 ^ 23)
  else (127 + floorLog2 n) * 2 ^ 23 + (n / 2 ^ (floorLog2 n - 23) - 2 ^ 23)

/-- The natural number a binary32 bit pattern stands for, when it stands for one. -/
def natOfF32 (p : Nat) : Option Nat :=
  if p = 0 then some 0
  else if 127 ≤ p / 2 ^ 23 ∧ p / 2 ^ 23 ≤ 150 then
    if (2 ^ 23 + p % 2 ^ 23) % 2 ^ (150 - p / 2 ^ 23) = 0 then
      some ((2 ^ 23 + p % 2 ^ 23) / 2 ^ (150 - p / 2 ^ 23))
    else none
  else if 151 ≤ p / 2 ^ 23 ∧ p / 2 ^ 23 < 255 then
    some ((2 ^ 23 + p % 2 ^ 23) * 2 ^ (p / 2 ^ 23 - 150))
  else none

/-- The `float` arithmetic the operations use, on binary32 bit patterns.  The hardware
and `libm` provide it; the development relies only on the fact that binary32 addition,
comparison and conversion to `uint32_t` are exact on the naturals up to `2 ^ 24`.
`cranm_pi` comes from `cranberry_math.h`, which is not among the sources. -/
structure FloatModel where
  add : Nat → Nat → Nat
  mul : Nat → Nat → Nat
  div : Nat → Nat → Nat
  lt : Nat → Nat → Bool
  ge : Nat → Nat → Bool
  toUInt32 : Nat → Nat
  cosf : Nat → Nat
  sinf : Nat → Nat
  cranm_pi : Nat

/-- The float arithmetic is exact on the naturals up to `2 ^ 24`, as binary32 is:
sums that stay in that range, comparisons, and the conversion to `uint32_t`. -/
structure FloatModel.Exact (fm : FloatModel) : Prop where
  add_exact : ∀ a b, a + b ≤ 2 ^ 24 → fm.add (f32OfNat a) (f32OfNat b) = f32OfNat (a + b)
  lt_exact : ∀ a b, a ≤ 2 ^ 24 → b ≤ 2 ^ 24 →
    fm.lt (f32OfNat a) (f32OfNat b) = decide (a < b)
  ge_exact : ∀ a b, a ≤ 2 ^ 24 → b ≤ 2 ^ 24 →
    fm.ge (f32OfNat a) (f32OfNat b) = decide (b ≤ a)
  toUInt32_exact : ∀ a, a ≤ 2 ^ 24 → fm.toUInt32 (f32OfNat a) = a

/-! ## Operations -/

/-- Modelled from the spec: `cranm_vec_t` is declared in `cranberry_math.h`, which is not
among the sources; it is a 16-byte record of four binary32 lanes `x`, `y`, `z`, `w`. -/
def sizeof_cranm_vec_t : Nat := 16

/-- `sizeof(cranp_triangle_t)`: three `uint16_t`. -/
def sizeof_cranp_triangle_t : Nat := 6

/-- `*(cranm_vec_t*)p = (cranm_vec_t){ .x = x, .y = y, .z = z, .w = w }`. -/
def store_vec (m : Mem) (p x y z w : Nat) : Mem :=
  store (store (store (store m p 4 x) (p + 4) 4 y) (p + 8) 4 z) (p + 12) 4 w

/-- `*(cranp_triangle_t*)p = (cranp_triangle_t){ i0, i1, i2 }`. -/
def store_triangle (m : Mem) (p i0 i1 i2 : Nat) : Mem :=
  store (store (store m p 2 i0) (p + 2) 2 i1) (p + 4) 2 i2

/-- The vertex loop of `cranp_op_circle`:
`for (float segment = 0.0f; segment < segmentCount; segment += 1.0f)`, with `fuel`
bounding the number of iterations. -/
def circleVertices (fm : FloatModel) (segmentCount radius angleIncrement : Nat) :
    Nat → Nat → Mem → Nat → Option (Mem × Nat)
  | 0, segment, m, writeHead =>
    if fm.lt segment segmentCount then none else some (m, writeHead)
  | fuel + 1, segment, m, writeHead =>
    if fm.lt segment segmentCount then
      let m := store_vec m writeHead
        (fm.mul (fm.cosf (fm.mul angleIncrement segment)) radius)
        (fm.mul (fm.sinf (fm.mul angleIncrement segment)) radius) 0 0
      circleVertices fm segmentCount radius angleIncrement fuel
        (fm.add segment (f32OfNat 1)) m (cranp_advance writeHead sizeof_cranm_vec_t)
    else some (m, writeHead)

/-- The triangle loop of `cranp_op_circle`:
`for (uint16_t triangle = 0; triangle < triangleCount; triangle++)`, with `fuel`
bounding the number of iterations.  The counter and the stored indices are 16 bits wide. -/
def circleTriangles (triangleCount : Nat) : Nat → Nat → Mem → Nat → Option (Mem × Nat)
  | 0, triangle, m, writeHead =>
    if triangle < triangleCount then none else some (m, writeHead)
  | fuel + 1, triangle, m, writeHead =>
    if triangle < triangleCount then
      let m := store_triangle m writeHead 0 ((triangle + 1) % 2 ^ 16) ((triangle + 2) % 2 ^ 16)
      circleTriangles triangleCount fuel ((triangle + 1) % 2 ^ 16) m
        (cranp_advance writeHead sizeof_cranp_triangle_t)
    else some (m, writeHead)

/-- The size `cranp_op_circle` asks for: `(uint32_t)segmentCount + 1` is a 32-bit sum, the
products and the total are `size_t`, and the total is stored in a `uint32_t`. -/
def circleAllocSize (fm : FloatModel) (segmentCount : Nat) : Nat :=
  (sizeof_cranm_vec_t
    + (fm.toUInt32 segmentCount + 1) % 2 ^ 32 * sizeof_cranm_vec_t
    + fm.toUInt32 segmentCount * sizeof_cranp_triangle_t) % 2 ^ 64 % 2 ^ 32

set_option linter.unusedVariables false in
/-- `cranp_op_circle`.  `none` when a loop runs out of `fuel`. -/
def cranp_op_circle (fm : FloatModel) (fuel : Nat) (m : Mem)
    (vm slotId inputs inputCount params : Nat) : Option (Except Fault Mem) :=
  if inputCount = 0 then
    let segmentCount := load m params 4
    let radius := load m (cranp_advance params 4) 4
    if fm.ge segmentCount (f32OfNat 3) then
      let allocSize := circleAllocSize fm segmentCount
      match cranp_vm_alloc_chunk m vm slotId allocSize with
      | .error f => some (.error f)
      | .ok (writeHead, m) =>
        let m := store_vec m writeHead (fm.add segmentCount (f32OfNat 1)) segmentCount 0 0
        let writeHead := cranp_advance writeHead sizeof_cranm_vec_t
        let m := store_vec m writeHead 0 0 0 0
        let writeHead := cranp_advance writeHead sizeof_cranm_vec_t
        let angleIncrement := fm.div (fm.mul (f32OfNat 2) fm.cranm_pi) segmentCount
        match circleVertices fm segmentCount radius angleIncrement fuel 0 m writeHead with
        | none => none
        | some (m, writeHead) =>
          let triangleCount := fm.toUInt32 segmentCount
          match circleTriangles triangleCount fuel 0 m writeHead with
          | none => none
          | some (m, _) => some (.ok m)
    else some (.error .assertion)
  else some (.error .assertion)

/-- A model of binary32 that is exact on the naturals up to `2 ^ 24` and arbitrary
elsewhere (`cosf`, `sinf` and inexact results are 0). -/
def natFloats : FloatModel where
  add a b := match natOfF32 a, natOfF32 b with
    | some x, some y => f32OfNat (x + y)
    | _, _ => 0
  mul _ _ := 0
  div _ _ := 0
  lt a b := match natOfF32 a, natOfF32 b with
    | some x, some y => decide (x < y)
    | _, _ => false
  ge a b := match natOfF32 a, natOfF32 b with
    | some x, some y => decide (y ≤ x)
    | _, _ => false
  toUInt32 a := (natOfF32 a).getD 0
  cosf _ := 0
  sinf _ := 0
  cranm_pi := 1078530011

/-- Memory `m` holds the vector `(x, y, z, w)` at `p`, lane by lane. -/
def vecAt (m : Mem) (p x y z w : Nat) : Prop :=
  load m p 4 = x ∧ load m (p + 4) 4 = y ∧ load m (p + 8) 4 = z ∧ load m (p + 12) 4 = w

/-- Memory `m` holds the index triple `(i0, i1, i2)` at `p`. -/
def triangleAt (m : Mem) (p i0 i1 i2 : Nat) : Prop :=
  load m p 2 = i0 ∧ load m (p + 2) 2 = i1 ∧ load m (p + 4) 2 = i2

/-- An arena of `1 << 20` bytes in 4 chunks at address 4096, and at address 8192 the
parameters of a circle: `segmentCount = 4.0f`, `radius = 10.0f`. -/
def circleExampleMem : Mem :=
  store (store (arenaOf 4096 1048576 4) 8192 4 (f32OfNat 4)) 8196 4 1092616192

/-! ## Reference: the plain sequential interpreter loop -/

/-- Reference for the unrolled interpreter loop, after the specification: the plain
sequential loop that for `i = 0, ..., opCount - 1` calls operation `i` with
`(slot i, inputs + 1, *inputs, params + 1)` and then advances `inputs` by
`(inputCount + 1) * 4` bytes and `params` by the block's size field, in the source's
integer types.  `remaining` counts the iterations left. -/
def sequentialCalls (m : Mem) (vm ops slotIds : Nat) : Nat → Nat → Nat → Nat → List Invocation
  | 0, _, _, _ => []
  | remaining + 1, i, inputs, params =>
    { op := load m (cranp_advance ops (i * 8)) 8, vm := vm,
      slotId := load m (cranp_advance slotIds (i * 4)) 4,
      inputBuffers := cranp_advance inputs 4, inputBufferCount := load m inputs 4,
      params := cranp_advance params 4 }
      :: sequentialCalls m vm ops slotIds remaining (i + 1)
          (cranp_advance inputs ((load m inputs 4 + 1) % 2 ^ 32 * 4))
          (cranp_advance params (load m params 4))

/-- Reference: the calls of the plain sequential loop on the program at `script`, the
four sections being found as `cranp_vm_execute_script` finds them. -/
def sequentialProgramCalls (m : Mem) (vm script : Nat) : List Invocation :=
  let opCount := load m script 4
  let inputs := cranp_advance script (4 + opCount * 8 + opCount * 4)
  sequentialCalls m vm (cranp_advance script 4) (cranp_advance script (4 + opCount * 8))
    opCount 0 (cranp_advance inputs 4)
    (cranp_advance script (4 + opCount * 8 + opCount * 4 + load m inputs 4))

/-- The test program at address 8192 after one `cranp_init_script`. -/
def linkedTestProgram : Mem :=
  match cranp_init_script (cranp_init exampleFuncs) parsedTestProgram 8192 with
  | .ok m => m
  | .error _ => zeroMem

/-- The memory after `cranp_op_circle` on `circleExampleMem` (`segmentCount = 4.0f`,
output slot 0, chunk at 4128). -/
def circleExampleResult : Mem :=
  match cranp_op_circle natFloats 4 circleExampleMem 4096 0 0 0 8192 with
  | some (.ok m) => m
  | _ => zeroMem

/-! ## Translate -/

/-- Modelled from the spec: `cranm_vec_t` is declared in `cranberry_math.h`, which is not
among the sources: four binary32 lanes `x`, `y`, `z`, `w`, 16 bytes. -/
structure cranm_vec_t where
  x : Nat
  y : Nat
  z : Nat
  w : Nat
  deriving DecidableEq, Repr

/-- `*(cranm_vec_t*)p`, read lane by lane. -/
def load_vec (m : Mem) (p : Nat) : cranm_vec_t :=
  { x := load m p 4, y := load m (p + 4) 4, z := load m (p + 8) 4, w := load m (p + 12) 4 }

/-- Modelled from the spec: `cranm_add3` is declared in `cranberry_math.h`, which is not
among the sources.  It adds the `x`, `y` and `z` lanes; what it leaves in the fourth lane
is not known and is the parameter `lane4`. -/
def cranm_add3 (fm : FloatModel) (lane4 : Nat → Nat → Nat) (l r : cranm_vec_t) : cranm_vec_t :=
  { x := fm.add l.x r.x, y := fm.add l.y r.y, z := fm.add l.z r.z, w := lane4 l.w r.w }

/-- `memcpy(dst, src, n)`: the bytes are taken from the memory before the call (C leaves
overlapping copies undefined). -/
def memcpy (m : Mem) (dst src n : Nat) : Mem :=
  fun a => if dst ≤ a ∧ a < dst + n then m (src + (a - dst)) else m a

/-- The vertex loop of `cranp_op_translate`:
`for (uint32_t vert = 0; vert < vertCount; vert++)`, `remaining` iterations to go. -/
def translateVertices (fm : FloatModel) (lane4 : Nat → Nat → Nat) (translation : cranm_vec_t) :
    Nat → Mem → Nat → Nat → Mem × Nat × Nat
  | 0, m, writeHead, readHead => (m, writeHead, readHead)
  | remaining + 1, m, writeHead, readHead =>
    let v := cranm_add3 fm lane4 (load_vec m readHead) translation
    let m := store_vec m writeHead v.x v.y v.z v.w
    translateVertices fm lane4 translation remaining m
      (cranp_advance writeHead sizeof_cranm_vec_t) (cranp_advance readHead sizeof_cranm_vec_t)

/-- The size `cranp_op_translate` asks for: the counts are `uint32_t`, the sum is
`size_t`, and the total is stored in a `uint32_t`. -/
def translateAllocSize (fm : FloatModel) (counts : cranm_vec_t) : Nat :=
  (sizeof_cranm_vec_t + fm.toUInt32 counts.x % 2 ^ 32 * sizeof_cranm_vec_t
    + fm.toUInt32 counts.y % 2 ^ 32 * sizeof_cranp_triangle_t) % 2 ^ 64 % 2 ^ 32

/-- `cranp_op_translate`. -/
def cranp_op_translate (fm : FloatModel) (lane4 : Nat → Nat → Nat) (m : Mem)
    (vm slotId inputs inputCount params : Nat) : Except Fault Mem :=
  if inputCount = 1 then
    let translation := load_vec m params
    match cranp_vm_get_chunk m vm (load m inputs 4) with
    | .error f => .error f
    | .ok readHead =>
      let counts := load_vec m readHead
      let readHead := cranp_advance readHead sizeof_cranm_vec_t
      let vertCount := fm.toUInt32 counts.x % 2 ^ 32
      let triangleCount := fm.toUInt32 counts.y % 2 ^ 32
      let allocSize := translateAllocSize fm counts
      match cranp_vm_alloc_chunk m vm slotId allocSize with
      | .error f => .error f
      | .ok (writeHead, m) =>
        let m := store_vec m writeHead counts.x counts.y counts.z counts.w
        let writeHead := cranp_advance writeHead sizeof_cranm_vec_t
        match translateVertices fm lane4 translation vertCount m writeHead readHead with
        | (m, writeHead, readHead) =>
          .ok (memcpy m writeHead readHead (triangleCount % 2 ^ 32 * sizeof_cranp_triangle_t))
  else .error .assertion

/-- The circle example with a translation `(1, 2, 3, 0)` stored at address 8208; the four
bytes at 8200 hold the input slot id 0. -/
def translateExampleMem : Mem :=
  store_vec circleExampleResult 8208 (f32OfNat 1) (f32OfNat 2) (f32OfNat 3) 0

/-! ## Floating point: multiples of one half -/

/-- Twice the value of a binary32 bit pattern, when the pattern stands for a
non-negative multiple of 1/2. -/
def halvesOfF32 (p : Nat) : Option Nat :=
  if p = 0 then some 0
  else if 126 ≤ p / 2 ^ 23 ∧ p / 2 ^ 23 ≤ 149 then
    if (2 ^ 23 + p % 2 ^ 23) % 2 ^ (149 - p / 2 ^ 23) = 0 then
      some ((2 ^ 23 + p % 2 ^ 23) / 2 ^ (149 - p / 2 ^ 23))
    else none
  else if 150 ≤ p / 2 ^ 23 ∧ p / 2 ^ 23 < 255 then
    some ((2 ^ 23 + p % 2 ^ 23) * 2 ^ (p / 2 ^ 23 - 149))
  else none

/-- The binary32 bit pattern of `h / 2`, exact for `h ≤ 2 ^ 24`: the pattern of `h` with
the exponent lowered by one. -/
def f32OfHalves (h : Nat) : Nat :=
  if h = 0 then 0 else f32OfNat h - 2 ^ 23

/-- A model of binary32 that is exact on the naturals up to `2 ^ 24` and on the
non-negative multiples of 1/2 whose double is at most `2 ^ 24`; `cosf`, `sinf`, products,
quotients and everything else are 0. -/
def halfFloats : FloatModel where
  add a b := match natOfF32 a, natOfF32 b with
    | some x, some y => f32OfNat (x + y)
    | _, _ => match halvesOfF32 a, halvesOfF32 b with
      | some x, some y => f32OfHalves (x + y)
      | _, _ => 0
  mul _ _ := 0
  div _ _ := 0
  lt a b := match natOfF32 a, natOfF32 b with
    | some x, some y => decide (x < y)
    | _, _ => match halvesOfF32 a, halvesOfF32 b with
      | some x, some y => decide (x < y)
      | _, _ => false
  ge a b := match natOfF32 a, natOfF32 b with
    | some x, some y => decide (y ≤ x)
    | _, _ => match halvesOfF32 a, halvesOfF32 b with
      | some x, some y => decide (y ≤ x)
      | _, _ => false
  toUInt32 a := match natOfF32 a with
    | some x => x
    | none => (halvesOfF32 a).getD 0 / 2
  cosf _ := 0
  sinf _ := 0
  cranm_pi := 1078530011

/-- The arena of `1 << 20` bytes in 4 chunks at address 4096, and at address 8192 the
parameters of a circle with a non-integral segment count: `segmentCount = 3.5f`
(`0x40600000`), `radius = 10.0f`. -/
def circleHalfMem : Mem :=
  store (store (arenaOf 4096 1048576 4) 8192 4 1080033280) 8196 4 1092616192

/-- The memory after `cranp_op_circle` on `circleHalfMem`, output slot 0. -/
def circleHalfResult : Mem :=
  match cranp_op_circle halfFloats 5 circleHalfMem 4096 0 0 0 8192 with
  | some (.ok m) => m
  | _ => zeroMem

/-! ## Running a linked program on the operations -/

/-- The machine on which `cranp_vm_execute_script` runs a linked program: a call through
the address of `cranp_op_circle` or `cranp_op_translate` runs that operation; a call
through any other value is undefined.  A state is the memory, or `none` once an
operation has run out of `fuel` (it has not returned). -/
def opsMachine (fm : FloatModel) (lane4 : Nat → Nat → Nat) (f : OpFuncs) (fuel : Nat) :
    Machine (Option Mem) where
  mem s := s.getD zeroMem
  call inv s :=
    match s with
    | none => .ok none
    | some m =>
      if inv.op = f.cranp_op_circle then
        match cranp_op_circle fm fuel m inv.vm inv.slotId inv.inputBuffers
            inv.inputBufferCount inv.params with
        | none => .ok none
        | some (.ok m2) => .ok (some m2)
        | some (.error e) => .error e
      else if inv.op = f.cranp_op_translate then
        match cranp_op_translate fm lane4 m inv.vm inv.slotId inv.inputBuffers
            inv.inputBufferCount inv.params with
        | .ok m2 => .ok (some m2)
        | .error e => .error e
      else .error .undefined

/-- Reference for the two-operation program `[circle -> slot 0, translate(input = slot 0)
-> slot 1]` in the binary format at `script`: `opCount = 2`, the two entries of the
operation section, the output slots 0 and 1, an input stream of 16 bytes (count 0; count
1 and slot 0), and two parameter blocks of 12 and 20 bytes (two and four floats, at
`script + 48` and `script + 60`).  76 bytes in all. -/
def TwoOpProgramAt (m : Mem) (script circle translate : Nat) : Prop :=
  load m script 4 = 2 ∧ load m (script + 4) 8 = circle ∧ load m (script + 12) 8 = translate ∧
  load m (script + 20) 4 = 0 ∧ load m (script + 24) 4 = 1 ∧
  load m (script + 28) 4 = 16 ∧
  load m (script + 32) 4 = 0 ∧ load m (script + 36) 4 = 1 ∧ load m (script + 40) 4 = 0 ∧
  load m (script + 44) 4 = 12 ∧ load m (script + 56) 4 = 20

instance (m : Mem) (script circle translate : Nat) :
    Decidable (TwoOpProgramAt m script circle translate) := by
  unfold TwoOpProgramAt; infer_instance

/-! ## The two-operation program on small arenas -/

/-- The two operations `circle 0 [] [4.0,10.0]` and `translate 1 [0] [1.0,2.0,3.0,0.0]`,
with `circle` and `translate` standing for the entries of the operation section.  The
payloads are the binary32 encodings `0x40800000` of 4.0, `0x41200000` of 10.0,
`0x3F800000` of 1.0, `0x40000000` of 2.0, `0x40400000` of 3.0 and 0 of 0.0. -/
def fourSegmentRecords (circle translate : Nat) : List OpRecord :=
  [ { op := circle, outputSlot := 0, inputSlots := [],
      paramPayload := [0, 0, 128, 64, 0, 0, 32, 65] },
    { op := translate, outputSlot := 1, inputSlots := [0],
      paramPayload := [0, 0, 128, 63, 0, 0, 0, 64, 0, 0, 64, 64, 0, 0, 0, 0] } ]

/-- The four-segment program assembled at address 8192 and linked, next to an arena of
`memorySize` bytes in 2 chunks at address 4096. -/
def fourSegmentProgramMem (memorySize : Nat) : Mem :=
  match cranp_init_script (cranp_init exampleFuncs)
      (assembled (arenaOf 4096 memorySize 2) 8192
        (fourSegmentRecords cranp_op_id_circle cranp_op_id_translate)) 8192 with
  | .ok m => m
  | .error _ => zeroMem

/-- The memory after the circle of the four-segment program alone, run into slot 0. -/
def fourSegmentCircleAlone (memorySize : Nat) : Mem :=
  match cranp_op_circle natFloats 4 (fourSegmentProgramMem memorySize) 4096 0 8228 0 8240 with
  | some (.ok m) => m
  | _ => zeroMem

/-- The memory after `cranp_vm_execute_script` on the four-segment program. -/
def fourSegmentProgramResult (memorySize : Nat) : Mem :=
  match cranp_vm_execute_script (opsMachine natFloats (fun _ _ => 0) exampleFuncs 4) 0
      (some (fourSegmentProgramMem memorySize)) 4096 8192 with
  | some (.ok (some m)) => m
  | _ => zeroMem

/-! ## The test parser -/

/-- Modelled from the C standard: `isspace` in the "C" locale. -/
def isspace (c : Char) : Bool :=
  c = ' ' || c = '\t' || c = '\n' || c = Char.ofNat 11 || c = Char.ofNat 12 || c = '\r'

/-- Modelled from the C standard (`atoi` is a library function): the value of the decimal
digits at the start of the text, accumulated from the left. -/
def atoiDigits : List Char → Nat → Nat
  | [], acc => acc
  | c :: cs, acc =>
    if '0' ≤ c ∧ c ≤ '9' then atoiDigits cs (acc * 10 + (c.toNat - 48)) else acc

/-- Modelled from the C standard: `atoi` skips white space, takes an optional sign and
then the decimal digits; a value that is not an `int` is undefined. -/
def atoi (s : List Char) : Except Fault Int :=
  let v : Int :=
    match s.dropWhile isspace with
    | '-' :: cs => - (atoiDigits cs 0 : Int)
    | '+' :: cs => (atoiDigits cs 0 : Int)
    | cs => (atoiDigits cs 0 : Int)
  if - 2 ^ 31 ≤ v ∧ v < 2 ^ 31 then .ok v else .error .undefined

/-- The cast `(uint32_t)` of an `int`. -/
def toUInt32OfInt (v : Int) : Nat := (v % 2 ^ 32).toNat

/-- A model of `(float)atof` that is right on the decimal numerals `d...d` and
`d...d.0...0` with a value up to `2 ^ 24` (the result is the binary32 pattern of that
natural number) and arbitrary elsewhere (0 when the fraction has a digit other than 0). -/
def atofDecimal (s : List Char) : Nat :=
  match s.dropWhile (fun c => '0' ≤ c ∧ c ≤ '9') with
  | '.' :: frac =>
    if (frac.takeWhile (fun c => '0' ≤ c ∧ c ≤ '9')).all (fun c => c = '0') then
      f32OfNat (atoiDigits s 0)
    else 0
  | _ => f32OfNat (atoiDigits s 0)

/-- The states of the test parser. -/
inductive cranp_test_parser_state_e where
  | cranp_parse_op
  | cranp_parse_id
  | cranp_parse_inputs
  | cranp_parse_params
  deriving DecidableEq, Repr

/-- `cranp_test_script_ops`: the operation names, by id. -/
def cranp_test_script_ops : List (List Char) :=
  [['c', 'i', 'r', 'c', 'l', 'e'], ['t', 'r', 'a', 'n', 's', 'l', 'a', 't', 'e']]

/-- `cranp_test_script_basic`. -/
def cranp_test_script_basic : List Char :=
  "circle 0 [] [10000.0,10.0]\ntranslate 1 [0] [10.0,10.0,10.0,0.0f]\n".toList

/-- The variables of `cranp_test_parse_script`.  A C string is the list of its characters
before the terminating NUL, and a `const char*` into the script is the suffix it points
at (two such pointers are equal when the suffixes have the same length).  Each of the
four `malloc`ed arrays is the list of what has been written to it, up to its write
count: `opChunk` and `opIdChunk` in entries, `inputChunk` in `uint32_t` words,
`paramChunk` in bytes. -/
structure ParserVars where
  opChunk : List Nat
  opIdChunk : List Nat
  inputChunk : List Nat
  paramChunk : List Nat
  parserState : cranp_test_parser_state_e
  prevIter : List Char

/-- The comparison loop of the `cranp_parse_op` case (lines 384 to 390): returns `opIter`
and `parsedOpIter` as they are when the loop is left. -/
def matchOpName (iter : List Char) : List Char → List Char → List Char × List Char
  | [], parsedOpIter => ([], parsedOpIter)
  | c :: opIter, parsedOpIter =>
    if parsedOpIter.length ≠ iter.length then
      if c ≠ parsedOpIter.headD (Char.ofNat 0) then (c :: opIter, parsedOpIter)
      else matchOpName iter opIter parsedOpIter.tail
    else (c :: opIter, parsedOpIter)

/-- The search `for (uint32_t i = 0; i < cranp_op_id_max; i++)` of the `cranp_parse_op`
case, over the names from index `i` on: the id found, or `cranp_op_id_max`. -/
def findOp (prevIter iter : List Char) : List (List Char) → Nat → Nat
  | [], _ => cranp_op_id_max
  | name :: names, i =>
    let r := matchOpName iter name prevIter
    if r.1 = [] ∧ r.2.length = iter.length then i
    else findOp prevIter iter names (i + 1)

/-- The `while (1)` loop of the `cranp_parse_inputs` case (lines 427 to 442), from
`numberIter` on: the slot ids written behind the count.  The loop ends at `]` only; when
it reaches the end of the string it reads past it.  `inputChunk` has room for 201
words. -/
def scanInputs (inputWriteCount : Nat) :
    List Char → List Char → List Nat → Except Fault (List Nat)
  | [], _, _ => .error .undefined
  | c :: numberIter, lastNumberStart, ids =>
    if c = ',' ∨ (c = ']' ∧ lastNumberStart.headD (Char.ofNat 0) ≠ ']') then
      match atoi lastNumberStart with
      | .error f => .error f
      | .ok v =>
        if inputWriteCount + ids.length + 1 < 100 * 2 + 1 then
          if c = ']' then .ok (ids ++ [toUInt32OfInt v])
          else scanInputs inputWriteCount numberIter numberIter (ids ++ [toUInt32OfInt v])
        else .error .undefined
    else if c = ']' then .ok ids
    else scanInputs inputWriteCount numberIter lastNumberStart ids

/-- The `while (1)` loop of the `cranp_parse_params` case (lines 461 to 476), from
`numberIter` on: the payload bytes written behind the block size, four per number.
`paramChunk` has room for 800 bytes. -/
def scanParams (atof : List Char → Nat) (paramWriteSize : Nat) :
    List Char → List Char → List Nat → Except Fault (List Nat)
  | [], _, _ => .error .undefined
  | c :: numberIter, lastNumberStart, payload =>
    if c = ',' ∨ c = ']' then
      if paramWriteSize + payload.length + sizeof_uint32_t + 4 ≤ sizeof_uint32_t * 100 * 2 then
        if c = ']' then .ok (payload ++ leBytes 4 (atof lastNumberStart))
        else scanParams atof paramWriteSize numberIter numberIter
          (payload ++ leBytes 4 (atof lastNumberStart))
      else .error .undefined
    else scanParams atof paramWriteSize numberIter lastNumberStart payload

/-- The `switch (parserState)` of `cranp_test_parse_script` (lines 376 to 489), entered
when `*iter` is a blank or a newline.  `atof` stands for `(float)atof`, as a binary32
bit pattern.  Writing past one of the arrays is undefined. -/
def parseToken (atof : List Char → Nat) (iter : List Char) (v : ParserVars) :
    Except Fault ParserVars :=
  match v.parserState with
  | .cranp_parse_op =>
    let op := findOp v.prevIter iter cranp_test_script_ops 0
    if op ≠ cranp_op_id_max then
      if v.opChunk.length < 100 then
        .ok { v with opChunk := v.opChunk ++ [op], parserState := .cranp_parse_id,
                     prevIter := iter.tail }
      else .error .undefined
    else .error .assertion
  | .cranp_parse_id =>
    match atoi v.prevIter with
    | .error f => .error f
    | .ok id =>
      if v.opIdChunk.length < 100 then
        .ok { v with opIdChunk := v.opIdChunk ++ [toUInt32OfInt id],
                     parserState := .cranp_parse_inputs, prevIter := iter.tail }
      else .error .undefined
  | .cranp_parse_inputs =>
    if v.prevIter.headD (Char.ofNat 0) = '[' then
      match scanInputs v.inputChunk.length v.prevIter.tail v.prevIter.tail [] with
      | .error f => .error f
      | .ok ids =>
        if v.inputChunk.length < 100 * 2 + 1 then
          .ok { v with inputChunk := v.inputChunk ++ (ids.length :: ids),
                       parserState := .cranp_parse_params, prevIter := iter.tail }
        else .error .undefined
    else .error .assertion
  | .cranp_parse_params =>
    if v.prevIter.headD (Char.ofNat 0) = '[' then
      match scanParams atof v.paramChunk.length v.prevIter.tail v.prevIter.tail [] with
      | .error f => .error f
      | .ok payload =>
        if v.paramChunk.length + sizeof_uint32_t ≤ sizeof_uint32_t * 100 * 2 then
          .ok { v with paramChunk :=
                         v.paramChunk ++ (leBytes 4 (payload.length + sizeof_uint32_t) ++ payload),
                       parserState := .cranp_parse_op, prevIter := iter.tail }
        else .error .undefined
    else .error .assertion

/-- The loop `for (const char* iter = script; *iter != 0; iter++)` of
`cranp_test_parse_script`, from `iter` on. -/
def parseLoop (atof : List Char → Nat) : List Char → ParserVars → Except Fault ParserVars
  | [], v => .ok v
  | c :: rest, v =>
    if c = ' ' ∨ c = '\n' then
      match parseToken atof (c :: rest) v with
      | .error f => .error f
      | .ok v => parseLoop atof rest v
    else parseLoop atof rest v

/-- `cranp_test_parse_script`: the program is laid out at `scriptBuffer`, the address
`malloc` returns.  The copy of `opIdChunk` takes `opCount` entries: when fewer have been
written it takes bytes that were never set. -/
def cranp_test_parse_script (atof : List Char → Nat) (m : Mem) (scriptBuffer : Nat)
    (script : List Char) : Except Fault Mem :=
  match parseLoop atof script
      { opChunk := [], opIdChunk := [], inputChunk := [], paramChunk := [],
        parserState := .cranp_parse_op, prevIter := script } with
  | .error f => .error f
  | .ok v =>
    if v.opChunk.length ≤ v.opIdChunk.length then
      .ok (cranp_test_assemble m scriptBuffer v.opChunk v.opIdChunk v.inputChunk v.paramChunk)
    else .error .undefined

/-- The third block of `cranp_test` (lines 553 to 572) for an arena of `memorySize`
bytes in `chunkCount` chunks and a script text: the arena is created in `buffer`, the
script is parsed into `scriptBuffer`, linked and executed.  `none` when an operation
does not return. -/
def cranp_test_run (atof : List Char → Nat) (fm : FloatModel) (lane4 : Nat → Nat → Nat)
    (f : OpFuncs) (fuel loopFuel : Nat) (m : Mem)
    (buffer memorySize chunkCount scriptBuffer : Nat) (text : List Char) :
    Option (Except Fault Mem) :=
  match cranp_vm_buffer_size memorySize chunkCount with
  | .error e => some (.error e)
  | .ok _ =>
    match cranp_vm_buffer_create m buffer memorySize chunkCount with
    | .error e => some (.error e)
    | .ok (vm, m) =>
      match cranp_test_parse_script atof m scriptBuffer text with
      | .error e => some (.error e)
      | .ok m =>
        match cranp_init_script (cranp_init f) m scriptBuffer with
        | .error e => some (.error e)
        | .ok m =>
          match cranp_vm_execute_script (opsMachine fm lane4 f fuel) loopFuel (some m) vm
              scriptBuffer with
          | none => none
          | some (.error e) => some (.error e)
          | some (.ok none) => none
          | some (.ok (some m)) => some (.ok m)

/-- The text `circle 0 [] [ns,rs]` and `translate 1 [0] [xs,ys,zs,ws]`, one per line,
for the numerals `ns`, `rs`, `xs`, `ys`, `zs`, `ws`. -/
def twoLineScript (ns rs xs ys zs ws : List Char) : List Char :=
  ['c', 'i', 'r', 'c', 'l', 'e'] ++ ' ' :: '0' :: ' ' :: '[' :: ']' :: ' ' :: '[' ::
    (ns ++ ',' :: (rs ++ ']' :: '\n' ::
      (['t', 'r', 'a', 'n', 's', 'l', 'a', 't', 'e'] ++ ' ' :: '1' :: ' ' :: '[' :: '0' ::
        ']' :: ' ' :: '[' ::
        (xs ++ ',' :: (ys ++ ',' :: (zs ++ ',' :: (ws ++ [']', '\n'])))))))

/-- A numeral has no blank, newline, comma or closing bracket in it. -/
def plainNumeral (s : List Char) : Prop :=
  ∀ c ∈ s, c ≠ ' ' ∧ c ≠ '\n' ∧ c ≠ ',' ∧ c ≠ ']'

instance (s : List Char) : Decidable (plainNumeral s) := by
  unfold plainNumeral; infer_instance

/-- The records the parser produces for `twoLineScript`, given the six binary32 patterns
that `atof` returns. -/
def twoLineRecords (n r x y z w : Nat) : List OpRecord :=
  [ { op := cranp_op_id_circle, outputSlot := 0, inputSlots := [],
      paramPayload := leBytes 4 n ++ leBytes 4 r },
    { op := cranp_op_id_translate, outputSlot := 1, inputSlots := [0],
      paramPayload := leBytes 4 x ++ (leBytes 4 y ++ (leBytes 4 z ++ leBytes 4 w)) } ]

/-- The test script with a segment count of 65536, one more than a 16-bit counter
holds. -/
def wideCircleScript : List Char :=
  "circle 0 [] [65536.0,10.0]\ntranslate 1 [0] [10.0,10.0,10.0,0.0f]\n".toList

/-! ## Linking: the memory when the link loop stops -/

/-- The loop of `cranp_init_script` once more, keeping what `cranp_init_script_loop`
drops when an assertion stops it: the memory at that moment and the index of the entry
the loop is at.  It returns the memory, the index, and the fault when the loop stopped
on one (`none` when it ran to its end). -/
def cranp_init_script_loop_at_stop (cranp_op_table : List Nat) (ops : Nat) :
    Nat → Nat → Mem → Mem × Nat × Option Fault
  | 0, i, m => (m, i, none)
  | remaining + 1, i, m =>
    let opId : Int := toIntptr (load m (cranp_advance ops (i * sizeof_cranp_opf_t)) 8)
    if opId < (cranp_op_id_max : Int) then
      if 0 ≤ opId then
        let m := store m (cranp_advance ops (i * sizeof_cranp_opf_t)) 8
          (cranp_op_table.getD opId.toNat 0)
        cranp_init_script_loop_at_stop cranp_op_table ops remaining (i + 1) m
      else (m, i, some .undefined)
    else (m, i, some .assertion)

/-- `cranp_init_script` with the memory it leaves behind, also when it stops. -/
def cranp_init_script_at_stop (cranp_op_table : List Nat) (m : Mem) (script : Nat) :
    Mem × Nat × Option Fault :=
  let opCount := load m script 4
  let ops := cranp_advance script sizeof_uint32_t
  cranp_init_script_loop_at_stop cranp_op_table ops opCount 0 m

/-! ## Memory lemmas -/

theorem load_lt (m : Mem) (a n : Nat) : load m a n < 256 ^ n := by
  induction n generalizing a with
  | zero => simp [load]
  | succ n ih =>
    have h := ih (a + 1)
    have hm : m a % 256 < 256 := Nat.mod_lt _ (by norm_num)
    simp only [load, pow_succ]
    omega

theorem load_congr (m m2 : Mem) (a n : Nat) (h : ∀ x, a ≤ x → x < a + n → m x = m2 x) :
    load m a n = load m2 a n := by
  induction n generalizing a with
  | zero => simp [load]
  | succ n ih =>
    simp only [load]
    rw [h a (le_refl _) (by omega), ih (a + 1) (fun x h1 h2 => h x (by omega) (by omega))]

theorem store_outside (m : Mem) (a n v x : Nat) (h : x < a ∨ a + n ≤ x) :
    store m a n v x = m x := by
  unfold store
  rw [if_neg]
  omega

theorem load_store_disjoint (m : Mem) (a n v b k : Nat) (h : b + k ≤ a ∨ a + n ≤ b) :
    load (store m a n v) b k = load m b k := by
  apply load_congr
  intro x h1 h2
  apply store_outside
  omega

theorem load_store_aux (m : Mem) (a n v : Nat) (j k : Nat) (h : j + k = n) :
    load (store m a n v) (a + j) k = v / 256 ^ j % 256 ^ k := by
  induction k generalizing j with
  | zero => simp [load, Nat.mod_one]
  | succ k ih =>
    simp only [load]
    rw [show a + j + 1 = a + (j + 1) by omega, ih (j + 1) (by omega)]
    have hs : store m a n v (a + j) = v / 256 ^ j % 256 := by
      unfold store
      rw [if_pos (by omega)]
      congr 3
      omega
    rw [hs, Nat.mod_mod, pow_succ 256 j, ← Nat.div_div_eq_div_mul, pow_succ 256 k,
      Nat.mul_comm (256 ^ k) 256, Nat.mod_mul]

theorem load_store_same (m : Mem) (a n v : Nat) :
    load (store m a n v) a n = v % 256 ^ n := by
  have h := load_store_aux m a n v 0 n (by omega)
  simpa using h

theorem advance_of_lt (p k : Nat) (h : p + k < 2 ^ 64) : cranp_advance p k = p + k := by
  unfold cranp_advance
  exact Nat.mod_eq_of_lt h

theorem advance_advance (p a b : Nat) :
    cranp_advance (cranp_advance p a) b = cranp_advance p (a + b) := by
  unfold cranp_advance
  omega

theorem advance_zero (p : Nat) (h : p < 2 ^ 64) : cranp_advance p 0 = p := by
  unfold cranp_advance
  exact Nat.mod_eq_of_lt h

theorem advance_lt (p k : Nat) : cranp_advance p k < 2 ^ 64 := by
  unfold cranp_advance
  exact Nat.mod_lt _ (by norm_num)

/-! ## Allocator lemmas -/

theorem toIntptr_of_lt (a : Nat) (h : a < 2 ^ 63) : toIntptr a = (a : Int) := by
  unfold toIntptr
  have h1 : a % 2 ^ 64 = a := Nat.mod_eq_of_lt (by omega)
  rw [h1, if_pos h]

theorem get_chunk_of_fits (al : cranp_allocator_t) (slot : Nat)
    (hs : slot < al.allocChunkCount)
    (hfit : al.buffer + slot * al.allocChunkSize + 16 < 2 ^ 63) :
    cranp_allocator_get_chunk al slot
      = .ok (al.buffer + slot * al.allocChunkSize + 16
              - (al.buffer + slot * al.allocChunkSize) % 16) := by
  unfold cranp_allocator_get_chunk
  rw [if_pos hs]
  have e1 : slot * al.allocChunkSize % 2 ^ 64 = slot * al.allocChunkSize :=
    Nat.mod_eq_of_lt (by omega)
  have e2 : cranp_advance al.buffer (slot * al.allocChunkSize)
      = al.buffer + slot * al.allocChunkSize := by
    unfold cranp_advance
    exact Nat.mod_eq_of_lt (by omega)
  rw [e1, e2, toIntptr_of_lt _ (by omega)]
  have e3 : ((al.buffer + slot * al.allocChunkSize : Nat) : Int).tmod (cranp_alignment : Int)
      = ((al.buffer + slot * al.allocChunkSize : Nat) : Int) % 16 := by
    rw [Int.tmod_eq_emod (by omega) (by simp [cranp_alignment])]
    simp [cranp_alignment]
  simp only [e3]
  congr 1
  unfold ofIntptr cranp_alignment
  omega

theorem view_after_create (m m2 : Mem) (buffer memorySize chunkCount : Nat)
    (hb : buffer + 16 < 2 ^ 64) (hc : chunkCount < 2 ^ 64) (hm : memorySize < 2 ^ 64)
    (h : cranp_allocator_buffer_create m buffer memorySize chunkCount = .ok m2) :
    cranp_view_as_allocator m2 buffer
      = { allocChunkCount := chunkCount
          allocChunkSize := memorySize / chunkCount
          buffer := buffer + 16 } := by
  unfold cranp_allocator_buffer_create at h
  by_cases h0 : chunkCount = 0
  · simp [h0] at h
  · simp only [h0, if_false, Except.ok.injEq] at h
    subst h
    have a8 : cranp_advance buffer sizeof_uint64_t = buffer + 8 := by
      unfold cranp_advance sizeof_uint64_t
      exact Nat.mod_eq_of_lt (by omega)
    have a16 : cranp_advance buffer (sizeof_uint64_t * 2) = buffer + 16 := by
      unfold cranp_advance sizeof_uint64_t
      exact Nat.mod_eq_of_lt (by omega)
    have hcs : memorySize / chunkCount < 2 ^ 64 :=
      lt_of_le_of_lt (Nat.div_le_self _ _) hm
    unfold cranp_view_as_allocator
    rw [a8, a16, load_store_same, load_store_disjoint _ _ _ _ _ _ (Or.inl (le_refl _)),
      load_store_same]
    have p : (256 : Nat) ^ 8 = 2 ^ 64 := by norm_num
    rw [p, Nat.mod_eq_of_lt hc, Nat.mod_eq_of_lt hcs]

theorem chunkAfterCreate_of_fits (m : Mem) (buffer memorySize chunkCount slot : Nat)
    (hc : 0 < chunkCount) (hc64 : chunkCount < 2 ^ 64) (hs : slot < chunkCount)
    (hfit : buffer + 32 + slot * (memorySize / chunkCount) < 2 ^ 63)
    (hm : memorySize < 2 ^ 64) :
    chunkAfterCreate m buffer memorySize chunkCount slot
      = .ok (buffer + 16 + slot * (memorySize / chunkCount) + 16
              - (buffer + 16 + slot * (memorySize / chunkCount)) % 16) := by
  unfold chunkAfterCreate cranp_vm_buffer_create
  have hne : chunkCount ≠ 0 := by omega
  cases hcr : cranp_allocator_buffer_create m buffer memorySize chunkCount with
  | error f =>
    unfold cranp_allocator_buffer_create at hcr
    simp [hne] at hcr
  | ok m2 =>
    simp only
    unfold cranp_vm_get_chunk cranp_vm_get_allocator
    rw [view_after_create m m2 buffer memorySize chunkCount (by omega) hc64 hm hcr]
    rw [get_chunk_of_fits _ _ hs (by simp only; omega)]

/-! ## Chunk allocator: claims -/

/-- C2, as stated, fails: with `totalMemory = 16` split into `chunkCount = 2` chunks of 8
bytes in a buffer at address 4096, slots 0 and 1 both get address 4128, so their
chunks overlap. -/
theorem chunks_overlap_counterexample :
    0 < 2 ∧ 16 % 2 = 0 ∧
    chunkAfterCreate zeroMem 4096 16 2 0 = .ok 4128 ∧
    chunkAfterCreate zeroMem 4096 16 2 1 = .ok 4128 ∧
    ¬ disjointRanges 4128 4128 (16 / 2) := by
  refine ⟨by decide, by decide, ?_, ?_, by decide⟩
  · rw [chunkAfterCreate_of_fits _ _ _ _ _ (by decide) (by decide) (by decide) (by decide)
      (by decide)]
  · rw [chunkAfterCreate_of_fits _ _ _ _ _ (by decide) (by decide) (by decide) (by decide)
      (by decide)]

/-- C2 (amended): for every `chunkCount > 0` (an `unsigned int`) and every `totalMemory`
divisible by `chunkCount` whose chunk size `totalMemory / chunkCount` is a multiple of
the 16-byte alignment, and every buffer address with the arena below `2 ^ 63`, the
chunks `cranp_vm_get_chunk` returns for two distinct slots `i`, `j < chunkCount` after
`cranp_vm_buffer_create` are disjoint byte ranges of `chunkSize` bytes. -/
theorem chunks_disjoint_of_aligned_chunkSize (m : Mem)
    (buffer totalMemory chunkCount i j : Nat)
    (hc : 0 < chunkCount) (hc32 : chunkCount < 2 ^ 32) (hdiv : chunkCount ∣ totalMemory)
    (h16 : 16 ∣ totalMemory / chunkCount) (hfit : buffer + 32 + totalMemory < 2 ^ 63)
    (hi : i < chunkCount) (hj : j < chunkCount) (hij : i ≠ j) :
    ∃ a b, chunkAfterCreate m buffer totalMemory chunkCount i = .ok a ∧
      chunkAfterCreate m buffer totalMemory chunkCount j = .ok b ∧
      disjointRanges a b (totalMemory / chunkCount) := by
  have hmul : totalMemory / chunkCount * chunkCount = totalMemory := Nat.div_mul_cancel hdiv
  obtain ⟨q, hq⟩ := h16
  have hle : ∀ k, k < chunkCount → (k + 1) * (totalMemory / chunkCount) ≤ totalMemory := by
    intro k hk
    calc (k + 1) * (totalMemory / chunkCount)
        ≤ chunkCount * (totalMemory / chunkCount) := Nat.mul_le_mul_right _ hk
      _ = totalMemory := by rw [Nat.mul_comm]; exact hmul
  have hi2 := hle i hi
  have hj2 := hle j hj
  rw [Nat.add_mul] at hi2 hj2
  refine ⟨_, _, chunkAfterCreate_of_fits m buffer totalMemory chunkCount i hc (by omega) hi
      (by omega) (by omega),
    chunkAfterCreate_of_fits m buffer totalMemory chunkCount j hc (by omega) hj
      (by omega) (by omega), ?_⟩
  unfold disjointRanges
  rw [hq] at hi2 hj2 ⊢
  have ei : (buffer + 16 + i * (16 * q)) % 16 = (buffer + 16) % 16 := by
    rw [show i * (16 * q) = 16 * (i * q) by ring]; omega
  have ej : (buffer + 16 + j * (16 * q)) % 16 = (buffer + 16) % 16 := by
    rw [show j * (16 * q) = 16 * (j * q) by ring]; omega
  rw [ei, ej]
  rcases Nat.lt_or_gt_of_ne hij with h | h
  · left
    have : (i + 1) * (16 * q) ≤ j * (16 * q) := Nat.mul_le_mul_right _ h
    rw [Nat.add_mul] at this
    omega
  · right
    have : (j + 1) * (16 * q) ≤ i * (16 * q) := Nat.mul_le_mul_right _ h
    rw [Nat.add_mul] at this
    omega

/-- Witness of C2 (amended): 64 bytes in 4 chunks of 16 at address 4096, slots 1 and 3. -/
theorem chunks_disjoint_of_aligned_chunkSize_witness :
    ∃ a b, chunkAfterCreate zeroMem 4096 64 4 1 = .ok a ∧
      chunkAfterCreate zeroMem 4096 64 4 3 = .ok b ∧
      disjointRanges a b (64 / 4) :=
  chunks_disjoint_of_aligned_chunkSize zeroMem 4096 64 4 1 3 (by decide) (by decide)
    (by decide) (by decide) (by decide) (by decide) (by decide) (by decide)

/-- C3, as stated, fails: an arena of `totalMemory = 16` bytes in one chunk at address
4096 puts slot 0 at 4128, which is not in `[4096, 4096 + 16)`. -/
theorem chunk_address_range_counterexample :
    0 < 1 ∧ 16 % 1 = 0 ∧
    chunkAfterCreate zeroMem 4096 16 1 0 = .ok 4128 ∧
    ¬ (4096 ≤ 4128 ∧ 4128 < 4096 + 16) := by
  refine ⟨by decide, by decide, ?_, by decide⟩
  rw [chunkAfterCreate_of_fits _ _ _ _ _ (by decide) (by decide) (by decide) (by decide)
    (by decide)]

/-- C3 (amended): for every `chunkCount > 0` (an `unsigned int`), every `totalMemory`
divisible by `chunkCount` and every buffer address with the arena below `2 ^ 63`, the
address `cranp_vm_get_chunk` returns for `slot < chunkCount` after
`cranp_vm_buffer_create` lies after the 16-byte header and at most 16 bytes past the
slot's nominal start: `buffer + 16 < address ≤ buffer + 32 + slot * chunkSize`, so
`address + chunkSize ≤ buffer + totalMemory + 32`. -/
theorem chunk_address_range (m : Mem) (buffer totalMemory chunkCount slot : Nat)
    (hc : 0 < chunkCount) (hc32 : chunkCount < 2 ^ 32) (hdiv : chunkCount ∣ totalMemory)
    (hfit : buffer + 32 + totalMemory < 2 ^ 63) (hs : slot < chunkCount) :
    ∃ a, chunkAfterCreate m buffer totalMemory chunkCount slot = .ok a ∧
      buffer + 16 < a ∧ a ≤ buffer + 32 + slot * (totalMemory / chunkCount) ∧
      a + totalMemory / chunkCount ≤ buffer + totalMemory + 32 := by
  have hmul : totalMemory / chunkCount * chunkCount = totalMemory := Nat.div_mul_cancel hdiv
  have hle : (slot + 1) * (totalMemory / chunkCount) ≤ totalMemory := by
    calc (slot + 1) * (totalMemory / chunkCount)
        ≤ chunkCount * (totalMemory / chunkCount) := Nat.mul_le_mul_right _ hs
      _ = totalMemory := by rw [Nat.mul_comm]; exact hmul
  rw [Nat.add_mul] at hle
  refine ⟨_, chunkAfterCreate_of_fits m buffer totalMemory chunkCount slot hc (by omega) hs
      (by omega) (by omega), ?_, ?_, ?_⟩ <;> omega

/-- Witness of C3 (amended): the repository's second arena, `1 << 20` bytes in 4 chunks. -/
theorem chunk_address_range_witness :
    ∃ a, chunkAfterCreate zeroMem 4096 1048576 4 3 = .ok a ∧
      4096 + 16 < a ∧ a ≤ 4096 + 32 + 3 * (1048576 / 4) ∧
      a + 1048576 / 4 ≤ 4096 + 1048576 + 32 :=
  chunk_address_range zeroMem 4096 1048576 4 3 (by decide) (by decide) (by decide)
    (by decide) (by decide)

/-- A helper on the arithmetic of `cranp_allocator_get_chunk`: whatever the address,
adding `16 - address % 16` (C remainder, on `intptr_t`) gives a multiple of 16. -/
theorem ofIntptr_align_mod (z : Int) : ofIntptr (z + ((16 : Int) - z.tmod 16)) % 16 = 0 := by
  have h := Int.tmod_add_tdiv z 16
  unfold ofIntptr
  omega

/-- The size `cranp_vm_buffer_size` returns is sufficient as long as
`cranp_alignment * chunkCount` does not wrap in 32 bits: the whole chunk of every slot
lies after the header and inside the buffer. -/
theorem buffer_size_sufficient_of_no_wrap (m : Mem) (buffer memorySize chunkCount slot : Nat)
    (hc : 1 ≤ chunkCount) (h32 : 16 * chunkCount < 2 ^ 32) (hs : slot < chunkCount)
    (hfit : buffer + (16 + memorySize / chunkCount * chunkCount + 16 * chunkCount) < 2 ^ 63)
    (hm : memorySize < 2 ^ 64) :
    cranp_allocator_buffer_size memorySize chunkCount
      = .ok (16 + memorySize / chunkCount * chunkCount + 16 * chunkCount) ∧
    ∃ a, chunkAfterCreate m buffer memorySize chunkCount slot = .ok a ∧
      buffer + 16 < a ∧
      a + memorySize / chunkCount
        ≤ buffer + (16 + memorySize / chunkCount * chunkCount + 16 * chunkCount) := by
  have hle : (slot + 1) * (memorySize / chunkCount)
      ≤ memorySize / chunkCount * chunkCount := by
    rw [Nat.mul_comm (memorySize / chunkCount) chunkCount]
    exact Nat.mul_le_mul_right _ hs
  rw [Nat.add_mul] at hle
  constructor
  · unfold cranp_allocator_buffer_size sizeof_uint64_t cranp_alignment
    rw [if_neg (by omega)]
    simp only
    congr 1
    rw [Nat.mod_eq_of_lt (a := memorySize / chunkCount * chunkCount) (by omega),
      Nat.mod_eq_of_lt (a := 16 * chunkCount) h32]
    omega
  · refine ⟨_, chunkAfterCreate_of_fits m buffer memorySize chunkCount slot (by omega)
      (by omega) hs (by omega) hm, ?_, ?_⟩ <;> omega

/-- C4 (the code at the failing input): for `memorySize = 2 ^ 32` and
`chunkCount = 2 ^ 28` the product `cranp_alignment * chunkCount` wraps to 0 in 32 bits,
`cranp_vm_buffer_size` returns `2 ^ 32 + 16`, and the chunk of the last slot starts at
`buffer + 2 ^ 32 + 16`, the first byte past the buffer. -/
theorem buffer_size_wraps_at_2pow28 :
    cranp_vm_buffer_size 4294967296 268435456 = .ok 4294967312 ∧
    chunkAfterCreate zeroMem 4096 4294967296 268435456 268435455
      = .ok (4096 + 4294967312) := by
  constructor
  · decide
  · rw [chunkAfterCreate_of_fits _ _ _ _ _ (by decide) (by decide) (by decide) (by decide)
      (by decide)]

/-- The guard of `cranp_vm_buffer_size` looks at `totalMemory` alone: for every
`chunkCount > 0` the assertion fails if and only if `totalMemory` is not a multiple of
`cranp_alignment`; neither `chunkCount` nor the chunk size enters it. -/
theorem buffer_size_assert_iff (totalMemory chunkCount : Nat) (hc : 0 < chunkCount) :
    cranp_vm_buffer_size totalMemory chunkCount = .error .assertion
      ↔ totalMemory % 16 ≠ 0 := by
  unfold cranp_vm_buffer_size cranp_allocator_buffer_size cranp_alignment
  by_cases h : totalMemory % 16 = 0
  · simp [h, Nat.pos_iff_ne_zero.mp hc]
  · simp [h]

/-- C6: `cranp_vm_alloc_chunk(vm, slot, requestedSize)` trips an assertion exactly when
`requestedSize > chunkSize` or `slot >= chunkCount`; otherwise it returns the address
`cranp_vm_get_chunk(vm, slot)` returns, the same for every admissible requested size,
and the memory, hence the arena header, is unchanged. -/
theorem alloc_chunk_contract (m : Mem) (vm slot requestedSize : Nat) :
    ((cranp_vm_get_allocator m vm).allocChunkSize < requestedSize
        ∨ (cranp_vm_get_allocator m vm).allocChunkCount ≤ slot)
      ∧ cranp_vm_alloc_chunk m vm slot requestedSize = .error .assertion
    ∨ (requestedSize ≤ (cranp_vm_get_allocator m vm).allocChunkSize
        ∧ slot < (cranp_vm_get_allocator m vm).allocChunkCount)
      ∧ ∃ p m2, cranp_vm_alloc_chunk m vm slot requestedSize = .ok (p, m2)
          ∧ cranp_vm_get_chunk m vm slot = .ok p
          ∧ (∀ size2, size2 ≤ (cranp_vm_get_allocator m vm).allocChunkSize →
              cranp_vm_alloc_chunk m vm slot size2 = .ok (p, m2))
          ∧ m2 = m
          ∧ cranp_vm_get_allocator m2 vm = cranp_vm_get_allocator m vm := by
  by_cases h1 : requestedSize ≤ (cranp_vm_get_allocator m vm).allocChunkSize
  · by_cases h2 : slot < (cranp_vm_get_allocator m vm).allocChunkCount
    · right
      refine ⟨⟨h1, h2⟩, ?_⟩
      unfold cranp_vm_alloc_chunk cranp_vm_get_chunk cranp_allocator_get_chunk
      simp only [h1, h2, if_true]
      exact ⟨_, _, rfl, rfl, fun size2 hs2 => by simp [hs2], rfl, rfl⟩
    · left
      refine ⟨Or.inr (by omega), ?_⟩
      unfold cranp_vm_alloc_chunk cranp_allocator_get_chunk
      simp [h1, h2]
  · left
    refine ⟨Or.inl (by omega), ?_⟩
    unfold cranp_vm_alloc_chunk
    simp [h1]

/-- C7: for every arena (any buffer address, any chunk size) and every
`slot < chunkCount`, `cranp_vm_get_chunk` returns an address that is a multiple of the
16-byte alignment, and `cranp_vm_alloc_chunk` returns the same address. -/
theorem chunk_address_aligned (m : Mem) (vm slot : Nat)
    (hs : slot < (cranp_vm_get_allocator m vm).allocChunkCount) :
    ∃ p, cranp_vm_get_chunk m vm slot = .ok p ∧ p % cranp_alignment = 0 ∧
      ∀ size, size ≤ (cranp_vm_get_allocator m vm).allocChunkSize →
        cranp_vm_alloc_chunk m vm slot size = .ok (p, m) := by
  unfold cranp_vm_get_chunk cranp_vm_alloc_chunk cranp_allocator_get_chunk
  simp only [hs, if_true]
  refine ⟨_, rfl, ?_, fun size hsz => by simp [hsz]⟩
  exact ofIntptr_align_mod _

/-- Witness of C7: an arena of 65536 bytes in 10 chunks of 6553 bytes at the odd
address 4099, slot 7. -/
theorem chunk_address_aligned_witness :
    ∃ p, cranp_vm_get_chunk (arenaOf 4099 65536 10) 4099 7 = .ok p ∧ p % cranp_alignment = 0 ∧
      ∀ size, size ≤ (cranp_vm_get_allocator (arenaOf 4099 65536 10) 4099).allocChunkSize →
        cranp_vm_alloc_chunk (arenaOf 4099 65536 10) 4099 7 size
          = .ok (p, arenaOf 4099 65536 10) :=
  chunk_address_aligned (arenaOf 4099 65536 10) 4099 7 (by decide)

/-! ## Linking: claims -/

theorem init_table (f : OpFuncs) : cranp_init f = [f.cranp_op_circle, f.cranp_op_translate] := by
  rfl

/-- Invariant of the link loop: when the entries `i, ..., i + remaining - 1` hold ids
below `cranp_op_id_max`, the loop returns, rewrites exactly those entries to the table's
callables and changes no byte outside them. -/
theorem init_script_loop_spec (table : List Nat) (ops : Nat) (remaining : Nat) :
    ∀ (i : Nat) (m : Mem),
      ops + (i + remaining) * 8 < 2 ^ 64 →
      (∀ k, k < table.length → table.getD k 0 < 2 ^ 64) →
      (∀ k, i ≤ k → k < i + remaining → load m (ops + k * 8) 8 < cranp_op_id_max) →
      ∃ m2, cranp_init_script_loop table ops remaining i m = .ok m2 ∧
        (∀ k, i ≤ k → k < i + remaining →
          load m2 (ops + k * 8) 8 = table.getD (load m (ops + k * 8) 8) 0) ∧
        (∀ x, x < ops + i * 8 ∨ ops + (i + remaining) * 8 ≤ x → m2 x = m x) := by
  induction remaining with
  | zero =>
    intro i m _ _ _
    exact ⟨m, rfl, fun k h1 h2 => by omega, fun x _ => rfl⟩
  | succ r ih =>
    intro i m hfit htab hids
    have hid := hids i (le_refl _) (by omega)
    unfold cranp_op_id_max at hid
    have hadv : cranp_advance ops (i * sizeof_cranp_opf_t) = ops + i * 8 := by
      unfold cranp_advance sizeof_cranp_opf_t
      exact Nat.mod_eq_of_lt (by omega)
    have hint : toIntptr (load m (ops + i * 8) 8) = ((load m (ops + i * 8) 8 : Nat) : Int) :=
      toIntptr_of_lt _ (by omega)
    simp only [cranp_init_script_loop, hadv, hint]
    have hlt : ((load m (ops + i * 8) 8 : Nat) : Int) < ((cranp_op_id_max : Nat) : Int) := by
      unfold cranp_op_id_max; omega
    rw [if_pos hlt, if_pos (by omega)]
    simp only [Int.toNat_ofNat]
    obtain ⟨m2, hrun, hent, hframe⟩ := ih (i + 1)
      (store m (ops + i * 8) 8 (table.getD (load m (ops + i * 8) 8) 0))
      (by omega) htab
      (by
        intro k h1 h2
        rw [load_store_disjoint _ _ _ _ _ _ (by omega)]
        exact hids k (by omega) (by omega))
    refine ⟨m2, hrun, ?_, ?_⟩
    · intro k h1 h2
      rcases Nat.eq_or_lt_of_le h1 with h | h
      · subst h
        have : load m2 (ops + i * 8) 8
            = load (store m (ops + i * 8) 8 (table.getD (load m (ops + i * 8) 8) 0))
                (ops + i * 8) 8 :=
          load_congr _ _ _ _ (fun x hx1 hx2 => hframe x (by omega))
        rw [this, load_store_same]
        have hk : load m (ops + i * 8) 8 < table.length ∨ table.length ≤ load m (ops + i * 8) 8 :=
          Nat.lt_or_ge _ _
        rcases hk with hk | hk
        · exact Nat.mod_eq_of_lt (by have := htab _ hk; norm_num at this ⊢; exact this)
        · rw [List.getD_eq_default _ _ hk]; rfl
      · rw [hent k (by omega) (by omega), load_store_disjoint _ _ _ _ _ _ (by omega)]
    · intro x hx
      rw [hframe x (by omega), store_outside _ _ _ _ _ (by omega)]

/-- C8: for every program whose `opCount` entries hold ids below `cranp_op_id_max`,
`cranp_init_script` (after `cranp_init`) returns, rewrites entry `i` to the callable of
the table for the entry's original id, `cranp_op_circle` for 0 and `cranp_op_translate`
for 1, for every `i < opCount`, and leaves every byte outside the operation section
(`opCount`, slot ids, input stream, parameter stream) unchanged. -/
theorem init_script_links (f : OpFuncs) (m : Mem) (script : Nat)
    (hf : f.cranp_op_circle < 2 ^ 64 ∧ f.cranp_op_translate < 2 ^ 64)
    (hfit : script + 4 + load m script 4 * 8 < 2 ^ 64)
    (hids : ∀ i, i < load m script 4 → load m (script + 4 + i * 8) 8 < cranp_op_id_max) :
    ∃ m2, cranp_init_script (cranp_init f) m script = .ok m2 ∧
      (∀ i, i < load m script 4 →
        (load m (script + 4 + i * 8) 8 = cranp_op_id_circle
            ∧ load m2 (script + 4 + i * 8) 8 = f.cranp_op_circle)
        ∨ (load m (script + 4 + i * 8) 8 = cranp_op_id_translate
            ∧ load m2 (script + 4 + i * 8) 8 = f.cranp_op_translate)) ∧
      (∀ x, x < script + 4 ∨ script + 4 + load m script 4 * 8 ≤ x → m2 x = m x) ∧
      load m2 script 4 = load m script 4 := by
  have hadv : cranp_advance script sizeof_uint32_t = script + 4 := by
    unfold cranp_advance sizeof_uint32_t
    exact Nat.mod_eq_of_lt (by omega)
  have htab : ∀ k, k < (cranp_init f).length → (cranp_init f).getD k 0 < 2 ^ 64 := by
    intro k hk
    rw [init_table] at hk ⊢
    simp only [List.length_cons, List.length_nil] at hk
    have : k = 0 ∨ k = 1 := by omega
    rcases this with h | h <;> subst h
    · exact hf.1
    · exact hf.2
  obtain ⟨m2, hrun, hent, hframe⟩ := init_script_loop_spec (cranp_init f) (script + 4)
    (load m script 4) 0 m (by omega) htab
    (by intro k _ hk; exact hids k (by omega))
  refine ⟨m2, ?_, ?_, ?_, ?_⟩
  · unfold cranp_init_script
    simp only [hadv]
    exact hrun
  · intro i hi
    have h1 := hent i (Nat.zero_le _) (by omega)
    have h2 := hids i hi
    unfold cranp_op_id_max at h2
    have : load m (script + 4 + i * 8) 8 = 0 ∨ load m (script + 4 + i * 8) 8 = 1 := by omega
    rcases this with h | h
    · left
      refine ⟨h, ?_⟩
      rw [h1, h, init_table]; rfl
    · right
      refine ⟨h, ?_⟩
      rw [h1, h, init_table]; rfl
  · intro x hx
    exact hframe x (by omega)
  · exact load_congr _ _ _ _ (fun x _ hx2 => hframe x (by omega))

/-- Witness of C8: linking the parsed test program. -/
theorem init_script_links_witness :
    ∃ m2, cranp_init_script (cranp_init exampleFuncs) parsedTestProgram 8192 = .ok m2 ∧
      (∀ i, i < load parsedTestProgram 8192 4 →
        (load parsedTestProgram (8192 + 4 + i * 8) 8 = cranp_op_id_circle
            ∧ load m2 (8192 + 4 + i * 8) 8 = exampleFuncs.cranp_op_circle)
        ∨ (load parsedTestProgram (8192 + 4 + i * 8) 8 = cranp_op_id_translate
            ∧ load m2 (8192 + 4 + i * 8) 8 = exampleFuncs.cranp_op_translate)) ∧
      (∀ x, x < 8192 + 4 ∨ 8192 + 4 + load parsedTestProgram 8192 4 * 8 ≤ x →
        m2 x = parsedTestProgram x) ∧
      load m2 8192 4 = load parsedTestProgram 8192 4 :=
  init_script_links exampleFuncs parsedTestProgram 8192 (by decide) (by decide) (by decide)

/-- An entry that is at least `cranp_op_id_max` as an `intptr_t` does trip the assertion
(shown for the first entry). -/
theorem init_script_asserts_id_above_range (table : List Nat) (m : Mem) (script : Nat)
    (h1 : 0 < load m script 4) (h2 : script + 12 < 2 ^ 64)
    (h3 : (cranp_op_id_max : Int) ≤ toIntptr (load m (script + 4) 8)) :
    cranp_init_script table m script = .error .assertion := by
  obtain ⟨k, hk⟩ : ∃ k, load m script 4 = k + 1 := ⟨load m script 4 - 1, by omega⟩
  have hadv : cranp_advance script sizeof_uint32_t = script + 4 :=
    advance_of_lt _ _ (by unfold sizeof_uint32_t; omega)
  have hadv0 : cranp_advance (script + 4) (0 * sizeof_cranp_opf_t) = script + 4 := by
    rw [Nat.zero_mul]; exact advance_zero _ (by omega)
  unfold cranp_init_script
  simp only [hk, hadv, cranp_init_script_loop, hadv0]
  rw [if_neg (by omega)]

/-- C9 (the code at the failing input): on a program of one operation whose entry is
`0xFFFFFFFFFFFFFFFF` (`-1` as `intptr_t`), `cranp_init_script` does not stop at its
assertion: `-1 < cranp_op_id_max` holds, and the table is indexed with `-1`. -/
theorem init_script_negative_id_passes_assert :
    load negativeIdProgram 8192 4 = 1 ∧
    toIntptr (load negativeIdProgram (8192 + 4) 8) = -1 ∧
    cranp_init_script (cranp_init exampleFuncs) negativeIdProgram 8192 = .error .undefined := by
  refine ⟨by decide, by decide, ?_⟩
  rfl

/-! ## Interpreter: the unrolled loop on a fixed memory -/

/-- Running `a + b` steps of the sequential loop is running `a` steps, then `b`. -/
theorem execPrologue_add {σ : Type} (M : Machine σ) (vm a b : Nat) (c : Cursors) (s : σ) :
    execPrologue M vm (a + b) c s
      = match execPrologue M vm a c s with
        | .error f => .error f
        | .ok (c2, s2) => execPrologue M vm b c2 s2 := by
  induction a generalizing c s with
  | zero => simp [execPrologue]
  | succ a ih =>
    rw [show a + 1 + b = (a + b) + 1 by omega]
    simp only [execPrologue]
    cases M.call _ s with
    | error f => rfl
    | ok s2 => exact ih _ _

/-- On a fixed memory the sequential loop never faults, and the operation and slot
cursors have moved by `n` entries. -/
theorem execPrologue_recorder_ok (m : Mem) (vm n : Nat) (c : Cursors) (calls : List Invocation)
    (ho : c.ops < 2 ^ 64) (hs : c.slotIds < 2 ^ 64) :
    ∃ c2 calls2, execPrologue (recorder m) vm n c calls = .ok (c2, calls2)
      ∧ c2.ops = cranp_advance c.ops (n * 8) ∧ c2.slotIds = cranp_advance c.slotIds (n * 4) := by
  induction n generalizing c calls with
  | zero =>
    exact ⟨c, calls, rfl, by simp [advance_zero _ ho], by simp [advance_zero _ hs]⟩
  | succ n ih =>
    simp only [execPrologue, recorder]
    obtain ⟨c2, calls2, h1, h2, h3⟩ := ih
      { ops := cranp_advance c.ops sizeof_cranp_opf_t
        slotIds := cranp_advance c.slotIds sizeof_uint32_t
        params := cranp_advance c.params (load m c.params 4)
        inputs := cranp_advance c.inputs ((load m c.inputs 4 + 1) % 2 ^ 32 * sizeof_uint32_t) }
      (calls ++ [{ op := load m c.ops 8, vm := vm, slotId := load m c.slotIds 4,
                   inputBuffers := cranp_advance c.inputs 4,
                   inputBufferCount := load m c.inputs 4,
                   params := cranp_advance c.params 4 }])
      (advance_lt _ _) (advance_lt _ _)
    refine ⟨c2, calls2, h1, ?_, ?_⟩
    · rw [h2]; simp only [advance_advance, sizeof_cranp_opf_t]; congr 1; omega
    · rw [h3]; simp only [advance_advance, sizeof_uint32_t]; congr 1; omega

/-- On a fixed memory one pass of the unrolled loop body is four steps of the
sequential loop. -/
theorem execBatch_recorder (m : Mem) (vm : Nat) (c : Cursors) (calls : List Invocation)
    (ho : c.ops < 2 ^ 64) (hs : c.slotIds < 2 ^ 64) :
    execBatch (recorder m) vm c calls = execPrologue (recorder m) vm 4 c calls := by
  simp only [execBatch, execBatchCall, execPrologue, recorder, advance_advance,
    sizeof_cranp_opf_t, sizeof_uint32_t, Nat.zero_mul, advance_zero _ ho, advance_zero _ hs,
    List.append_assoc, List.singleton_append, Nat.one_mul, Nat.mul_comm 4]

/-- On a fixed memory the `while (ops != opEnd)` loop with `g` groups ahead terminates
within `g` iterations and does what `4 * g` steps of the sequential loop do. -/
theorem execLoop_recorder (m : Mem) (vm : Nat) (g : Nat) :
    ∀ (fuel : Nat) (c : Cursors) (calls : List Invocation),
      g ≤ fuel → c.ops + 32 * g < 2 ^ 64 → c.slotIds < 2 ^ 64 →
      execLoop (recorder m) vm (c.ops + 32 * g) fuel c calls
        = some (Except.map Prod.snd (execPrologue (recorder m) vm (4 * g) c calls)) := by
  induction g with
  | zero =>
    intro fuel c calls _ _ _
    cases fuel <;> simp [execLoop, execPrologue, Except.map]
  | succ g ih =>
    intro fuel c calls hf hfit hs
    obtain ⟨f, rfl⟩ : ∃ f, fuel = f + 1 := ⟨fuel - 1, by omega⟩
    have hne : ¬ c.ops = c.ops + 32 * (g + 1) := by omega
    obtain ⟨c2, calls2, h1, h2, h3⟩ :=
      execPrologue_recorder_ok m vm 4 c calls (by omega) hs
    rw [advance_of_lt _ _ (by omega)] at h2
    simp only [execLoop, if_neg hne, execBatch_recorder m vm c calls (by omega) hs, h1]
    rw [show 4 * (g + 1) = 4 + 4 * g by omega, execPrologue_add, h1]
    simp only
    have := ih f c2 calls2 (by omega) (by omega) (by rw [h3]; exact advance_lt _ _)
    rw [← this, h2]
    congr 1
    omega

/-- The interpreter on a fixed memory: when the operation section fits the address
space and the fuel covers the `opCount / 4` groups, `cranp_vm_execute_script` terminates
and makes the calls of the plain sequential loop over `opCount` operations. -/
theorem execute_recorder (m : Mem) (fuel vm script : Nat) (calls : List Invocation)
    (hfit : script + 4 + 8 * load m script 4 < 2 ^ 64) (hfuel : load m script 4 / 4 ≤ fuel) :
    cranp_vm_execute_script (recorder m) fuel calls vm script
      = some (Except.map Prod.snd (execPrologue (recorder m) vm (load m script 4)
          { ops := script + 4
            slotIds := cranp_advance script (4 + load m script 4 * 8)
            inputs := cranp_advance (cranp_advance script
              (4 + load m script 4 * 8 + load m script 4 * 4)) 4
            params := cranp_advance script
              (4 + load m script 4 * 8 + load m script 4 * 4
                + load m (cranp_advance script
                    (4 + load m script 4 * 8 + load m script 4 * 4)) 4) } calls)) := by
  have hmem : (recorder m).mem calls = m := rfl
  simp only [cranp_vm_execute_script, hmem, sizeof_uint32_t, sizeof_cranp_opf_t]
  rw [advance_of_lt script 4 (by omega)]
  obtain ⟨c2, calls2, h1, h2, h3⟩ := execPrologue_recorder_ok m vm (load m script 4 % 4)
    { ops := script + 4
      slotIds := cranp_advance script (4 + load m script 4 * 8)
      inputs := cranp_advance (cranp_advance script
        (4 + load m script 4 * 8 + load m script 4 * 4)) 4
      params := cranp_advance script
        (4 + load m script 4 * 8 + load m script 4 * 4
          + load m (cranp_advance script
              (4 + load m script 4 * 8 + load m script 4 * 4)) 4) } calls
    (by simp only; omega) (advance_lt _ _)
  simp only at h2
  rw [advance_of_lt _ _ (by omega)] at h2
  rw [h1]
  simp only
  have hend : cranp_advance (script + 4) (load m script 4 * 8)
      = c2.ops + 32 * (load m script 4 / 4) := by
    rw [advance_of_lt _ _ (by omega), h2]; omega
  rw [hend, execLoop_recorder m vm (load m script 4 / 4) fuel c2 calls2 hfuel
    (by rw [h2]; omega) (by rw [h3]; exact advance_lt _ _)]
  have hadd := execPrologue_add (recorder m) vm (load m script 4 % 4)
    (4 * (load m script 4 / 4))
    { ops := script + 4
      slotIds := cranp_advance script (4 + load m script 4 * 8)
      inputs := cranp_advance (cranp_advance script
        (4 + load m script 4 * 8 + load m script 4 * 4)) 4
      params := cranp_advance script
        (4 + load m script 4 * 8 + load m script 4 * 4
          + load m (cranp_advance script
              (4 + load m script 4 * 8 + load m script 4 * 4)) 4) } calls
  rw [show load m script 4 % 4 + 4 * (load m script 4 / 4) = load m script 4 by omega] at hadd
  rw [hadd, h1]

theorem recorder_mem (m : Mem) (calls : List Invocation) : (recorder m).mem calls = m := rfl

theorem recorder_call (m : Mem) (inv : Invocation) (calls : List Invocation) :
    (recorder m).call inv calls = .ok (calls ++ [inv]) := rfl

/-- The sequential loop over a memory that holds the records makes the calls
`callsFrom` lists. -/
theorem execPrologue_of_holds (m : Mem) (vm : Nat) (rs : List OpRecord) :
    ∀ (c : Cursors) (calls : List Invocation), Holds m c rs →
      ∃ c2, execPrologue (recorder m) vm rs.length c calls
        = .ok (c2, calls ++ callsFrom vm c.inputs c.params rs) := by
  induction rs with
  | nil =>
    intro c calls _
    exact ⟨c, by simp [execPrologue, callsFrom]⟩
  | cons r rs ih =>
    intro c calls h
    obtain ⟨h1, h2, h3, _, h5, _, h7, h8, h9, h10, h11, hrest⟩ := h
    simp only [List.length_cons, execPrologue, recorder_mem, recorder_call, h1, h2, h3, h5,
      sizeof_cranp_opf_t, sizeof_uint32_t]
    rw [advance_of_lt c.inputs 4 (by omega), advance_of_lt c.params 4 (by omega),
      advance_of_lt c.ops 8 h8, advance_of_lt c.slotIds 4 h9,
      advance_of_lt c.params _ h11, Nat.mod_eq_of_lt h7,
      advance_of_lt c.inputs _ (by omega),
      show (r.inputSlots.length + 1) * 4 = 4 * (r.inputSlots.length + 1) by omega]
    obtain ⟨c2, hc2⟩ := ih _ (calls ++ [Invocation.mk r.op vm r.outputSlot (c.inputs + 4)
      r.inputSlots.length (c.params + 4)]) hrest
    refine ⟨c2, ?_⟩
    rw [hc2]
    simp [callsFrom]

/-- Each call of `callsFrom` receives its record, over a memory that holds the records. -/
theorem receives_of_holds (m : Mem) (vm : Nat) (rs : List OpRecord) :
    ∀ (c : Cursors), Holds m c rs →
      List.Forall₂ (Receives m vm) (callsFrom vm c.inputs c.params rs) rs := by
  induction rs with
  | nil =>
    intro c _
    exact List.Forall₂.nil
  | cons r rs ih =>
    intro c h
    obtain ⟨_, _, h3, h4, h5, h6, _, _, _, _, _, hrest⟩ := h
    simp only [callsFrom]
    refine List.Forall₂.cons ?_ (ih _ hrest)
    refine ⟨rfl, rfl, rfl, rfl, by simp, ?_, ?_, by simp, ?_, h6⟩
    · simpa using h3
    · intro j hj
      exact h4 j hj
    · simpa using h5

/-! ## The assembled program in memory -/

theorem leBytes_length (n v : Nat) : (leBytes n v).length = n := by
  induction n generalizing v with
  | zero => rfl
  | succ n ih => simp [leBytes, ih]

theorem leBytes_lt (n v : Nat) : ∀ b ∈ leBytes n v, b < 256 := by
  induction n generalizing v with
  | zero => simp [leBytes]
  | succ n ih =>
    intro b hb
    simp only [leBytes, List.mem_cons] at hb
    rcases hb with h | h
    · subst h; exact Nat.mod_lt _ (by norm_num)
    · exact ih _ b h

theorem wordBytes_length (w : Nat) (vs : List Nat) :
    (wordBytes w vs).length = w * vs.length := by
  induction vs with
  | nil => simp [wordBytes]
  | cons v vs ih => simp [wordBytes, leBytes_length, ih]; ring

theorem wordBytes_append (w : Nat) (xs ys : List Nat) :
    wordBytes w (xs ++ ys) = wordBytes w xs ++ wordBytes w ys := by
  induction xs with
  | nil => simp [wordBytes]
  | cons v vs ih => simp [wordBytes, ih]

theorem wordBytes_lt (w : Nat) (vs : List Nat) : ∀ b ∈ wordBytes w vs, b < 256 := by
  induction vs with
  | nil => simp [wordBytes]
  | cons v vs ih =>
    intro b hb
    simp only [wordBytes, List.mem_append] at hb
    rcases hb with h | h
    · exact leBytes_lt _ _ b h
    · exact ih b h

theorem bytesAt_append (m : Mem) (a : Nat) (xs ys : List Nat) :
    bytesAt m a (xs ++ ys) ↔ bytesAt m a xs ∧ bytesAt m (a + xs.length) ys := by
  unfold bytesAt
  constructor
  · intro h
    constructor
    · intro k hk
      rw [h k (by simp; omega), List.getD_append _ _ _ _ hk]
    · intro k hk
      have := h (xs.length + k) (by simp; omega)
      rw [List.getD_append_right _ _ _ _ (by omega)] at this
      rw [← Nat.add_assoc] at this
      simpa using this
  · rintro ⟨h1, h2⟩ k hk
    rcases Nat.lt_or_ge k xs.length with h | h
    · rw [h1 k h, List.getD_append _ _ _ _ h]
    · have := h2 (k - xs.length) (by simp at hk; omega)
      rw [List.getD_append_right _ _ _ _ h, ← this]
      congr 1
      omega

theorem bytesAt_congr (m m2 : Mem) (a : Nat) (bs : List Nat)
    (h : ∀ x, a ≤ x → x < a + bs.length → m2 x = m x) (hb : bytesAt m a bs) :
    bytesAt m2 a bs := by
  intro k hk
  rw [h (a + k) (by omega) (by omega)]
  exact hb k hk

theorem load_of_bytesAt (m : Mem) (a w v : Nat) (h : bytesAt m a (leBytes w v)) :
    load m a w = v % 256 ^ w := by
  induction w generalizing a v with
  | zero => simp [load, Nat.mod_one]
  | succ w ih =>
    have h0 := h 0 (by simp [leBytes_length])
    simp only [leBytes, List.getD_cons_zero, Nat.add_zero] at h0
    have hrest : bytesAt m (a + 1) (leBytes w (v / 256)) := by
      intro k hk
      have := h (k + 1) (by simp [leBytes_length] at hk ⊢; omega)
      simp only [leBytes, List.getD_cons_succ] at this
      rw [← this]
      congr 1
      omega
    simp only [load]
    rw [ih _ _ hrest, h0, Nat.mod_mod, pow_succ, Nat.mul_comm (256 ^ w) 256, Nat.mod_mul]

theorem load_of_wordBytes (m : Mem) (w : Nat) (vs : List Nat) :
    ∀ (a : Nat), bytesAt m a (wordBytes w vs) →
      ∀ j, j < vs.length → load m (a + w * j) w = vs.getD j 0 % 256 ^ w := by
  induction vs with
  | nil => intro a _ j hj; simp at hj
  | cons v vs ih =>
    intro a h j hj
    simp only [wordBytes] at h
    rw [bytesAt_append, leBytes_length] at h
    cases j with
    | zero => simpa using load_of_bytesAt m a w v h.1
    | succ j =>
      have := ih (a + w) h.2 j (by simpa using hj)
      simp only [List.getD_cons_succ]
      rw [← this]
      congr 1
      ring

theorem writeBytes_outside (m : Mem) (d : Nat) (bs : List Nat) (x : Nat)
    (h : x < d ∨ d + bs.length ≤ x) : writeBytes m d bs x = m x := by
  unfold writeBytes
  rw [if_neg]
  omega

theorem bytesAt_writeBytes (m : Mem) (a : Nat) (bs : List Nat) (h : ∀ b ∈ bs, b < 256) :
    bytesAt (writeBytes m a bs) a bs := by
  intro k hk
  unfold writeBytes
  rw [if_pos (by omega), show a + k - a = k by omega]
  apply Nat.mod_eq_of_lt
  rw [List.getD_eq_getElem _ _ hk]
  exact h _ (List.getElem_mem _)

theorem load_writeBytes_disjoint (m : Mem) (d : Nat) (bs : List Nat) (b k : Nat)
    (h : b + k ≤ d ∨ d + bs.length ≤ b) : load (writeBytes m d bs) b k = load m b k := by
  apply load_congr
  intro x h1 h2
  apply writeBytes_outside
  omega

theorem bytesAt_writeBytes_disjoint (m : Mem) (d : Nat) (xs : List Nat) (a : Nat) (bs : List Nat)
    (h : a + bs.length ≤ d ∨ d + xs.length ≤ a) (hb : bytesAt m a bs) :
    bytesAt (writeBytes m d xs) a bs :=
  bytesAt_congr m _ a bs (fun x h1 h2 => writeBytes_outside m d xs x (by omega)) hb

theorem bytesAt_store_disjoint (m : Mem) (d n v : Nat) (a : Nat) (bs : List Nat)
    (h : a + bs.length ≤ d ∨ d + n ≤ a) (hb : bytesAt m a bs) :
    bytesAt (store m d n v) a bs :=
  bytesAt_congr m _ a bs (fun x h1 h2 => store_outside m d n v x (by omega)) hb

theorem opChunkOf_length (rs : List OpRecord) : (opChunkOf rs).length = rs.length := by
  simp [opChunkOf]

theorem opIdChunkOf_length (rs : List OpRecord) : (opIdChunkOf rs).length = rs.length := by
  simp [opIdChunkOf]

/-- What the assembled buffer holds: the operation count, the callables, the output
slots, the byte size of the input stream (its own four bytes included), the input words
and the parameter bytes, one section after the other. -/
theorem assembled_layout (m : Mem) (script : Nat) (rs : List OpRecord)
    (hn : rs.length < 2 ^ 32) (hW : 4 * (inputChunkOf rs).length + 4 < 2 ^ 32)
    (hp : ∀ b ∈ paramChunkOf rs, b < 256) :
    load (assembled m script rs) script 4 = rs.length ∧
    bytesAt (assembled m script rs) (script + 4) (wordBytes 8 (opChunkOf rs)) ∧
    bytesAt (assembled m script rs) (script + 4 + 8 * rs.length)
      (wordBytes 4 (opIdChunkOf rs)) ∧
    load (assembled m script rs) (script + 4 + 8 * rs.length + 4 * rs.length) 4
      = 4 * (inputChunkOf rs).length + 4 ∧
    bytesAt (assembled m script rs) (inputStreamStart script rs)
      (wordBytes 4 (inputChunkOf rs)) ∧
    bytesAt (assembled m script rs) (paramStreamStart script rs) (paramChunkOf rs) := by
  have e1 : (opChunkOf rs).take rs.length = opChunkOf rs := by
    conv_lhs => rw [← opChunkOf_length rs]
    exact List.take_length _
  have e2 : (opIdChunkOf rs).take rs.length = opIdChunkOf rs := by
    conv_lhs => rw [← opIdChunkOf_length rs]
    exact List.take_length _
  have p32 : (256 : Nat) ^ 4 = 2 ^ 32 := by norm_num
  simp only [assembled, cranp_test_assemble, opChunkOf_length, e1, e2, sizeof_uint32_t,
    sizeof_cranp_opf_t, inputStreamStart, paramStreamStart]
  refine ⟨?_, ?_, ?_, ?_, ?_, ?_⟩
  · rw [load_writeBytes_disjoint _ _ _ _ _ (by omega),
      load_writeBytes_disjoint _ _ _ _ _ (by omega),
      load_store_disjoint _ _ _ _ _ _ (by omega),
      load_writeBytes_disjoint _ _ _ _ _ (by omega),
      load_writeBytes_disjoint _ _ _ _ _ (by omega), load_store_same, p32]
    exact Nat.mod_eq_of_lt hn
  · apply bytesAt_writeBytes_disjoint _ _ _ _ _
      (by rw [wordBytes_length, opChunkOf_length]; omega)
    apply bytesAt_writeBytes_disjoint _ _ _ _ _
      (by rw [wordBytes_length, opChunkOf_length]; omega)
    apply bytesAt_store_disjoint _ _ _ _ _ _
      (by rw [wordBytes_length, opChunkOf_length]; omega)
    apply bytesAt_writeBytes_disjoint _ _ _ _ _
      (by rw [wordBytes_length, opChunkOf_length]; omega)
    exact bytesAt_writeBytes _ _ _ (wordBytes_lt _ _)
  · apply bytesAt_writeBytes_disjoint _ _ _ _ _
      (by rw [wordBytes_length, opIdChunkOf_length]; omega)
    apply bytesAt_writeBytes_disjoint _ _ _ _ _
      (by rw [wordBytes_length, opIdChunkOf_length]; omega)
    apply bytesAt_store_disjoint _ _ _ _ _ _
      (by rw [wordBytes_length, opIdChunkOf_length]; omega)
    exact bytesAt_writeBytes _ _ _ (wordBytes_lt _ _)
  · rw [load_writeBytes_disjoint _ _ _ _ _ (by omega),
      load_writeBytes_disjoint _ _ _ _ _ (by omega), load_store_same, p32]
    omega
  · apply bytesAt_writeBytes_disjoint _ _ _ _ _ (by rw [wordBytes_length]; omega)
    exact bytesAt_writeBytes _ _ _ (wordBytes_lt _ _)
  · exact bytesAt_writeBytes _ _ _ hp

theorem bytesAt_of_eq (m : Mem) (a b : Nat) (bs : List Nat) (h : a = b) (hb : bytesAt m a bs) :
    bytesAt m b bs := h ▸ hb

/-- The four streams, stored as bytes at the four cursors, make the memory hold the
records. -/
theorem holds_of_bytesAt (m : Mem) (rs : List OpRecord) :
    ∀ (c : Cursors), (∀ r ∈ rs, r.fits) →
      bytesAt m c.ops (wordBytes 8 (opChunkOf rs)) →
      bytesAt m c.slotIds (wordBytes 4 (opIdChunkOf rs)) →
      bytesAt m c.inputs (wordBytes 4 (inputChunkOf rs)) →
      bytesAt m c.params (paramChunkOf rs) →
      c.ops + 8 * rs.length < 2 ^ 64 → c.slotIds + 4 * rs.length < 2 ^ 64 →
      c.inputs + 4 * (inputChunkOf rs).length < 2 ^ 64 →
      c.params + (paramChunkOf rs).length < 2 ^ 64 →
      Holds m c rs := by
  induction rs with
  | nil => intro c _ _ _ _ _ _ _ _ _; trivial
  | cons r rs ih =>
    intro c hfits hops hslots hin hpar b1 b2 b3 b4
    obtain ⟨f1, f2, f3, f4, f5, f6⟩ := hfits r (List.mem_cons_self _ _)
    have p64 : (256 : Nat) ^ 8 = 2 ^ 64 := by norm_num
    have p32 : (256 : Nat) ^ 4 = 2 ^ 32 := by norm_num
    have e_ops : wordBytes 8 (opChunkOf (r :: rs))
        = leBytes 8 r.op ++ wordBytes 8 (opChunkOf rs) := rfl
    have e_sl : wordBytes 4 (opIdChunkOf (r :: rs))
        = leBytes 4 r.outputSlot ++ wordBytes 4 (opIdChunkOf rs) := rfl
    have e_in : wordBytes 4 (inputChunkOf (r :: rs))
        = leBytes 4 r.inputSlots.length
            ++ (wordBytes 4 r.inputSlots ++ wordBytes 4 (inputChunkOf rs)) := by
      show wordBytes 4 ((r.inputSlots.length :: r.inputSlots) ++ inputChunkOf rs) = _
      rw [wordBytes_append]
      simp [wordBytes]
    have e_par : paramChunkOf (r :: rs)
        = (leBytes 4 (r.paramPayload.length + 4) ++ r.paramPayload) ++ paramChunkOf rs := rfl
    have l_in : (inputChunkOf (r :: rs)).length
        = r.inputSlots.length + 1 + (inputChunkOf rs).length := by
      show ((r.inputSlots.length :: r.inputSlots) ++ inputChunkOf rs).length = _
      simp
      omega
    have l_par : (paramChunkOf (r :: rs)).length
        = 4 + r.paramPayload.length + (paramChunkOf rs).length := by
      rw [e_par]; simp [leBytes_length]
      omega
    rw [e_ops, bytesAt_append, leBytes_length] at hops
    rw [e_sl, bytesAt_append, leBytes_length] at hslots
    rw [e_in, bytesAt_append, bytesAt_append, leBytes_length, wordBytes_length] at hin
    rw [e_par, bytesAt_append, bytesAt_append, List.length_append, leBytes_length] at hpar
    rw [l_in] at b3
    rw [l_par] at b4
    simp only [List.length_cons] at b1 b2
    have hl1 := load_of_bytesAt m _ _ _ hops.1
    have hl2 := load_of_bytesAt m _ _ _ hslots.1
    have hl3 := load_of_bytesAt m _ _ _ hin.1
    have hl4 := load_of_bytesAt m _ _ _ hpar.1.1
    rw [p64, Nat.mod_eq_of_lt f1] at hl1
    rw [p32, Nat.mod_eq_of_lt f2] at hl2
    rw [p32, Nat.mod_eq_of_lt (by omega)] at hl3
    rw [p32, Nat.mod_eq_of_lt (by omega)] at hl4
    refine ⟨hl1, hl2, hl3, ?_, hl4, hpar.1.2, f3, by omega, by omega, by omega, by omega, ?_⟩
    · intro j hj
      have := load_of_wordBytes m 4 r.inputSlots (c.inputs + 4) hin.2.1 j hj
      rw [this, p32]
      apply Nat.mod_eq_of_lt
      rw [List.getD_eq_getElem _ _ hj]
      exact f4 _ (List.getElem_mem _)
    · apply ih
      · intro r2 hr2
        exact hfits r2 (List.mem_cons_of_mem _ hr2)
      · exact hops.2
      · exact hslots.2
      · exact bytesAt_of_eq m _ _ _ (by simp only; omega) hin.2.2
      · exact bytesAt_of_eq m _ _ _ (by simp only; omega) hpar.2
      · simp only; omega
      · simp only; omega
      · simp only; omega
      · simp only; omega

theorem paramChunkOf_lt (rs : List OpRecord) (h : ∀ r ∈ rs, r.fits) :
    ∀ b ∈ paramChunkOf rs, b < 256 := by
  induction rs with
  | nil => simp [paramChunkOf]
  | cons r rs ih =>
    intro b hb
    simp only [paramChunkOf, List.mem_append] at hb
    rcases hb with (h1 | h1) | h1
    · exact leBytes_lt _ _ b h1
    · exact (h r (List.mem_cons_self _ _)).2.2.2.2.2 b h1
    · exact ih (fun r2 hr2 => h r2 (List.mem_cons_of_mem _ hr2)) b h1

/-! ## Interpreter: claims -/

/-- C1: for every list of operation records that fits the field widths of the binary
program format, laid out in a buffer by the test parser's assembly, and fuel for
`opCount / 4` passes of the unrolled loop, `cranp_vm_execute_script` (run against
operations that do not write the program buffer) terminates having made exactly one call
per record, in list order; call `i` goes to record `i`'s callable with record `i`'s
output slot, its input count, a pointer to its input slot ids (just past the count) and a
pointer to its parameter payload (just past the size field). -/
theorem execute_assembled_program (m : Mem) (vm script fuel : Nat) (records : List OpRecord)
    (hfits : ∀ r ∈ records, r.fits) (hn : records.length < 2 ^ 32)
    (hW : 4 * (inputChunkOf records).length + 4 < 2 ^ 32)
    (hspace : paramStreamStart script records + (paramChunkOf records).length < 2 ^ 64)
    (hfuel : records.length / 4 ≤ fuel) :
    cranp_vm_execute_script (recorder (assembled m script records)) fuel [] vm script
      = some (.ok (callsFrom vm (inputStreamStart script records)
          (paramStreamStart script records) records)) ∧
    (callsFrom vm (inputStreamStart script records)
      (paramStreamStart script records) records).length = records.length ∧
    List.Forall₂ (Receives (assembled m script records) vm)
      (callsFrom vm (inputStreamStart script records) (paramStreamStart script records) records)
      records := by
  obtain ⟨l1, l2, l3, l4, l5, l6⟩ :=
    assembled_layout m script records hn hW (paramChunkOf_lt records hfits)
  have hps : paramStreamStart script records
      = script + 4 + 8 * records.length + 4 * records.length + 4
          + 4 * (inputChunkOf records).length := rfl
  have his : inputStreamStart script records
      = script + 4 + 8 * records.length + 4 * records.length + 4 := rfl
  have hholds : Holds (assembled m script records)
      { ops := script + 4, slotIds := script + 4 + 8 * records.length,
        inputs := inputStreamStart script records,
        params := paramStreamStart script records } records :=
    holds_of_bytesAt _ records _ hfits l2 l3 l5 l6 (by simp only; omega) (by simp only; omega)
      (by simp only; omega) (by simp only; omega)
  have hrecv := receives_of_holds (assembled m script records) vm records _ hholds
  refine ⟨?_, (List.Forall₂.length_eq hrecv), hrecv⟩
  rw [execute_recorder _ _ _ _ _ (by rw [l1]; omega) (by rw [l1]; exact hfuel), l1]
  have a1 : cranp_advance script (4 + records.length * 8) = script + 4 + 8 * records.length := by
    rw [advance_of_lt _ _ (by omega)]; omega
  have a2 : cranp_advance script (4 + records.length * 8 + records.length * 4)
      = script + 4 + 8 * records.length + 4 * records.length := by
    rw [advance_of_lt _ _ (by omega)]; omega
  have a3 : cranp_advance (script + 4 + 8 * records.length + 4 * records.length) 4
      = inputStreamStart script records := by
    rw [advance_of_lt _ _ (by omega), his]
  have a4 : cranp_advance script (4 + records.length * 8 + records.length * 4
        + (4 * (inputChunkOf records).length + 4)) = paramStreamStart script records := by
    rw [advance_of_lt _ _ (by omega)]; omega
  rw [a1, a2, a3, l4, a4]
  obtain ⟨c2, hc2⟩ := execPrologue_of_holds (assembled m script records) vm records _ [] hholds
  rw [hc2]
  simp [Except.map]

/-- Witness of C1: the repository's test program three times over (six linked
operations), in a buffer at address 8192, with fuel for one pass of the unrolled loop. -/
theorem execute_assembled_program_witness :
    cranp_vm_execute_script (recorder (assembled zeroMem 8192 sixOpRecords)) 1 [] 4096 8192
      = some (.ok (callsFrom 4096 (inputStreamStart 8192 sixOpRecords)
          (paramStreamStart 8192 sixOpRecords) sixOpRecords)) ∧
    (callsFrom 4096 (inputStreamStart 8192 sixOpRecords)
      (paramStreamStart 8192 sixOpRecords) sixOpRecords).length = sixOpRecords.length ∧
    List.Forall₂ (Receives (assembled zeroMem 8192 sixOpRecords) 4096)
      (callsFrom 4096 (inputStreamStart 8192 sixOpRecords) (paramStreamStart 8192 sixOpRecords)
        sixOpRecords)
      sixOpRecords :=
  execute_assembled_program zeroMem 4096 8192 1 sixOpRecords
    (by decide) (by decide) (by decide) (by decide) (by decide)

/-! ## Floating point: the exact range -/

theorem floorLog2Aux_spec (fuel : Nat) :
    ∀ n, 0 < n → n < 2 ^ fuel →
      2 ^ floorLog2Aux fuel n ≤ n ∧ n < 2 ^ (floorLog2Aux fuel n + 1) := by
  induction fuel with
  | zero => intro n h1 h2; simp at h2; omega
  | succ fuel ih =>
    intro n h1 h2
    simp only [floorLog2Aux]
    by_cases h : n < 2
    · rw [if_pos h]; simp; omega
    · rw [if_neg h]
      have := ih (n / 2) (by omega) (by rw [pow_succ] at h2; omega)
      rw [pow_succ, pow_succ (n := floorLog2Aux fuel (n / 2) + 1)]
      omega

theorem floorLog2_spec (n : Nat) (h1 : 0 < n) (h2 : n ≤ 2 ^ 24) :
    2 ^ floorLog2 n ≤ n ∧ n < 2 ^ (floorLog2 n + 1) ∧ floorLog2 n ≤ 24 := by
  have h := floorLog2Aux_spec 64 n h1 (by omega)
  refine ⟨h.1, h.2, ?_⟩
  by_contra hc
  have : 2 ^ 25 ≤ 2 ^ floorLog2Aux 64 n := Nat.pow_le_pow_right (by norm_num) (by
    unfold floorLog2 at hc; omega)
  omega

theorem natOfF32_of_parts (e sig n : Nat) (he : e ≤ 23) (hsig : sig = n * 2 ^ (23 - e))
    (h1 : 2 ^ 23 ≤ sig) (h2 : sig < 2 ^ 24) :
    natOfF32 ((127 + e) * 2 ^ 23 + (sig - 2 ^ 23)) = some n := by
  have hq : ((127 + e) * 2 ^ 23 + (sig - 2 ^ 23)) / 2 ^ 23 = 127 + e := by omega
  have hr : ((127 + e) * 2 ^ 23 + (sig - 2 ^ 23)) % 2 ^ 23 = sig - 2 ^ 23 := by omega
  have hne : ¬ (127 + e) * 2 ^ 23 + (sig - 2 ^ 23) = 0 := by omega
  unfold natOfF32
  rw [if_neg hne, hq, hr, if_pos (by omega), show 150 - (127 + e) = 23 - e by omega,
    show 2 ^ 23 + (sig - 2 ^ 23) = sig by omega, hsig, Nat.mul_mod_left, if_pos rfl,
    Nat.mul_div_cancel _ (Nat.pow_pos (by norm_num))]

/-- Decoding the binary32 pattern of a natural number up to `2 ^ 24` gives it back. -/
theorem natOfF32_f32OfNat (n : Nat) (h : n ≤ 2 ^ 24) : natOfF32 (f32OfNat n) = some n := by
  by_cases h0 : n = 0
  · subst h0; rfl
  · obtain ⟨h1, h2, h3⟩ := floorLog2_spec n (by omega) h
    unfold f32OfNat
    rw [if_neg h0]
    by_cases he : floorLog2 n ≤ 23
    · rw [if_pos he]
      have hp : (2 : Nat) ^ 23 = 2 ^ floorLog2 n * 2 ^ (23 - floorLog2 n) := by
        rw [← pow_add]; congr 1; omega
      have hp2 : (2 : Nat) ^ 24 = 2 ^ (floorLog2 n + 1) * 2 ^ (23 - floorLog2 n) := by
        rw [← pow_add]; congr 1; omega
      apply natOfF32_of_parts _ _ _ he rfl
      · rw [hp]; exact Nat.mul_le_mul_right _ h1
      · rw [hp2]; exact Nat.mul_lt_mul_of_pos_right h2 (Nat.pow_pos (by norm_num))
    · rw [if_neg he]
      have he24 : floorLog2 n = 24 := by omega
      rw [he24] at h1 ⊢
      have hn : n = 16777216 := by omega
      subst hn
      rfl

theorem f32OfNat_lt (n : Nat) (h : n ≤ 2 ^ 24) : f32OfNat n < 2 ^ 32 := by
  by_cases h0 : n = 0
  · subst h0; decide
  · obtain ⟨h1, h2, h3⟩ := floorLog2_spec n (by omega) h
    unfold f32OfNat
    rw [if_neg h0]
    by_cases he : floorLog2 n ≤ 23
    · rw [if_pos he]
      have hp2 : (2 : Nat) ^ 24 = 2 ^ (floorLog2 n + 1) * 2 ^ (23 - floorLog2 n) := by
        rw [← pow_add]; congr 1; omega
      have : n * 2 ^ (23 - floorLog2 n) < 2 ^ 24 := by
        rw [hp2]; exact Nat.mul_lt_mul_of_pos_right h2 (Nat.pow_pos (by norm_num))
      omega
    · rw [if_neg he]
      have : n / 2 ^ (floorLog2 n - 23) ≤ n := Nat.div_le_self _ _
      omega

/-- The model `natFloats` is exact on the naturals up to `2 ^ 24`. -/
theorem natFloats_exact : natFloats.Exact where
  add_exact a b h := by
    simp only [natFloats, natOfF32_f32OfNat a (by omega), natOfF32_f32OfNat b (by omega)]
  lt_exact a b ha hb := by
    simp only [natFloats, natOfF32_f32OfNat a ha, natOfF32_f32OfNat b hb]
  ge_exact a b ha hb := by
    simp only [natFloats, natOfF32_f32OfNat a ha, natOfF32_f32OfNat b hb]
  toUInt32_exact a ha := by
    simp only [natFloats, natOfF32_f32OfNat a ha, Option.getD_some]

/-! ## Circle -/

theorem store_vec_outside (m : Mem) (p x y z w a : Nat) (h : a < p ∨ p + 16 ≤ a) :
    store_vec m p x y z w a = m a := by
  unfold store_vec
  rw [store_outside _ _ _ _ _ (by omega), store_outside _ _ _ _ _ (by omega),
    store_outside _ _ _ _ _ (by omega), store_outside _ _ _ _ _ (by omega)]

theorem vecAt_store_vec (m : Mem) (p x y z w : Nat) :
    vecAt (store_vec m p x y z w) p (x % 2 ^ 32) (y % 2 ^ 32) (z % 2 ^ 32) (w % 2 ^ 32) := by
  have p32 : (256 : Nat) ^ 4 = 2 ^ 32 := by norm_num
  unfold vecAt store_vec
  refine ⟨?_, ?_, ?_, ?_⟩
  · rw [load_store_disjoint _ _ _ _ _ _ (by omega), load_store_disjoint _ _ _ _ _ _ (by omega),
      load_store_disjoint _ _ _ _ _ _ (by omega), load_store_same, p32]
  · rw [load_store_disjoint _ _ _ _ _ _ (by omega), load_store_disjoint _ _ _ _ _ _ (by omega),
      load_store_same, p32]
  · rw [load_store_disjoint _ _ _ _ _ _ (by omega), load_store_same, p32]
  · rw [load_store_same, p32]

theorem vecAt_congr (m m2 : Mem) (p x y z w : Nat)
    (h : ∀ a, p ≤ a → a < p + 16 → m2 a = m a) (hv : vecAt m p x y z w) :
    vecAt m2 p x y z w := by
  obtain ⟨h1, h2, h3, h4⟩ := hv
  refine ⟨?_, ?_, ?_, ?_⟩
  · rw [← h1]; exact load_congr _ _ _ _ (fun a ha hb => h a (by omega) (by omega))
  · rw [← h2]; exact load_congr _ _ _ _ (fun a ha hb => h a (by omega) (by omega))
  · rw [← h3]; exact load_congr _ _ _ _ (fun a ha hb => h a (by omega) (by omega))
  · rw [← h4]; exact load_congr _ _ _ _ (fun a ha hb => h a (by omega) (by omega))

theorem store_triangle_outside (m : Mem) (p i0 i1 i2 a : Nat) (h : a < p ∨ p + 6 ≤ a) :
    store_triangle m p i0 i1 i2 a = m a := by
  unfold store_triangle
  rw [store_outside _ _ _ _ _ (by omega), store_outside _ _ _ _ _ (by omega),
    store_outside _ _ _ _ _ (by omega)]

theorem triangleAt_store_triangle (m : Mem) (p i0 i1 i2 : Nat) :
    triangleAt (store_triangle m p i0 i1 i2) p (i0 % 2 ^ 16) (i1 % 2 ^ 16) (i2 % 2 ^ 16) := by
  have p16 : (256 : Nat) ^ 2 = 2 ^ 16 := by norm_num
  unfold triangleAt store_triangle
  refine ⟨?_, ?_, ?_⟩
  · rw [load_store_disjoint _ _ _ _ _ _ (by omega), load_store_disjoint _ _ _ _ _ _ (by omega),
      load_store_same, p16]
  · rw [load_store_disjoint _ _ _ _ _ _ (by omega), load_store_same, p16]
  · rw [load_store_same, p16]

theorem triangleAt_congr (m m2 : Mem) (p i0 i1 i2 : Nat)
    (h : ∀ a, p ≤ a → a < p + 6 → m2 a = m a) (hv : triangleAt m p i0 i1 i2) :
    triangleAt m2 p i0 i1 i2 := by
  obtain ⟨h1, h2, h3⟩ := hv
  refine ⟨?_, ?_, ?_⟩
  · rw [← h1]; exact load_congr _ _ _ _ (fun a ha hb => h a (by omega) (by omega))
  · rw [← h2]; exact load_congr _ _ _ _ (fun a ha hb => h a (by omega) (by omega))
  · rw [← h3]; exact load_congr _ _ _ _ (fun a ha hb => h a (by omega) (by omega))

/-- The vertex loop for an integral segment count `n`: started at segment `k` with
`r = n - k` segments to go, it terminates after `r` iterations, having written the
vertices `k, ..., n - 1` in a row and nothing else. -/
theorem circleVertices_spec (fm : FloatModel) (hx : fm.Exact) (n radius ai : Nat)
    (hn : n + 1 ≤ 2 ^ 24) (r : Nat) :
    ∀ (k : Nat) (m : Mem) (wh fuel : Nat), k + r = n → r ≤ fuel → wh + 16 * r < 2 ^ 64 →
      ∃ m2, circleVertices fm (f32OfNat n) radius ai fuel (f32OfNat k) m wh
          = some (m2, wh + 16 * r) ∧
        (∀ j, j < r → vecAt m2 (wh + 16 * j)
          (fm.mul (fm.cosf (fm.mul ai (f32OfNat (k + j)))) radius % 2 ^ 32)
          (fm.mul (fm.sinf (fm.mul ai (f32OfNat (k + j)))) radius % 2 ^ 32) 0 0) ∧
        (∀ a, a < wh ∨ wh + 16 * r ≤ a → m2 a = m a) := by
  induction r with
  | zero =>
    intro k m wh fuel hk _ _
    have hlt : fm.lt (f32OfNat k) (f32OfNat n) = false := by
      rw [hx.lt_exact k n (by omega) (by omega)]; simp; omega
    refine ⟨m, ?_, fun j hj => by omega, fun a _ => rfl⟩
    cases fuel <;> simp [circleVertices, hlt]
  | succ r ih =>
    intro k m wh fuel hk hf hfit
    obtain ⟨f, rfl⟩ : ∃ f, fuel = f + 1 := ⟨fuel - 1, by omega⟩
    have hlt : fm.lt (f32OfNat k) (f32OfNat n) = true := by
      rw [hx.lt_exact k n (by omega) (by omega)]; simp; omega
    have hadd : fm.add (f32OfNat k) (f32OfNat 1) = f32OfNat (k + 1) :=
      hx.add_exact k 1 (by omega)
    simp only [circleVertices, hlt, if_true, hadd, sizeof_cranm_vec_t]
    rw [advance_of_lt wh 16 (by omega)]
    obtain ⟨m2, hrun, hv, hframe⟩ := ih (k + 1)
      (store_vec m wh (fm.mul (fm.cosf (fm.mul ai (f32OfNat k))) radius)
        (fm.mul (fm.sinf (fm.mul ai (f32OfNat k))) radius) 0 0)
      (wh + 16) f (by omega) (by omega) (by omega)
    refine ⟨m2, ?_, ?_, ?_⟩
    · rw [hrun]; congr 2; omega
    · intro j hj
      cases j with
      | zero =>
        apply vecAt_congr _ m2 _ _ _ _ _ (fun a ha hb => hframe a (by omega))
        simpa using vecAt_store_vec m wh _ _ 0 0
      | succ j =>
        have := hv j (by omega)
        rw [show wh + 16 + 16 * j = wh + 16 * (j + 1) by omega,
          show k + 1 + j = k + (j + 1) by omega] at this
        exact this
    · intro a ha
      rw [hframe a (by omega), store_vec_outside _ _ _ _ _ _ _ (by omega)]

/-- The triangle loop for `n` triangles with all indices below `2 ^ 16`: started at
triangle `k` with `r = n - k` to go, it terminates after `r` iterations, having written
the triples `(0, i + 1, i + 2)` for `i = k, ..., n - 1` in a row and nothing else. -/
theorem circleTriangles_spec (n : Nat) (hn : n + 1 < 2 ^ 16) (r : Nat) :
    ∀ (k : Nat) (m : Mem) (wh fuel : Nat), k + r = n → r ≤ fuel → wh + 6 * r < 2 ^ 64 →
      ∃ m2, circleTriangles n fuel k m wh = some (m2, wh + 6 * r) ∧
        (∀ j, j < r → triangleAt m2 (wh + 6 * j) 0 (k + j + 1) (k + j + 2)) ∧
        (∀ a, a < wh ∨ wh + 6 * r ≤ a → m2 a = m a) := by
  induction r with
  | zero =>
    intro k m wh fuel hk _ _
    refine ⟨m, ?_, fun j hj => by omega, fun a _ => rfl⟩
    cases fuel <;> simp [circleTriangles] <;> omega
  | succ r ih =>
    intro k m wh fuel hk hf hfit
    obtain ⟨f, rfl⟩ : ∃ f, fuel = f + 1 := ⟨fuel - 1, by omega⟩
    have hlt : k < n := by omega
    simp only [circleTriangles, hlt, if_true, sizeof_cranp_triangle_t]
    rw [advance_of_lt wh 6 (by omega), Nat.mod_eq_of_lt (show k + 1 < 2 ^ 16 by omega),
      Nat.mod_eq_of_lt (show k + 2 < 2 ^ 16 by omega)]
    obtain ⟨m2, hrun, hv, hframe⟩ := ih (k + 1)
      (store_triangle m wh 0 (k + 1) (k + 2)) (wh + 6) f (by omega) (by omega) (by omega)
    refine ⟨m2, ?_, ?_, ?_⟩
    · rw [hrun]; congr 2; omega
    · intro j hj
      cases j with
      | zero =>
        apply triangleAt_congr _ m2 _ _ _ _ (fun a ha hb => hframe a (by omega))
        have := triangleAt_store_triangle m wh 0 (k + 1) (k + 2)
        rw [Nat.mod_eq_of_lt (show k + 1 < 2 ^ 16 by omega),
          Nat.mod_eq_of_lt (show k + 2 < 2 ^ 16 by omega)] at this
        simpa using this
      | succ j =>
        have := hv j (by omega)
        rw [show wh + 6 + 6 * j = wh + 6 * (j + 1) by omega,
          show k + 1 + j + 1 = k + (j + 1) + 1 by omega,
          show k + 1 + j + 2 = k + (j + 1) + 2 by omega] at this
        exact this
    · intro a ha
      rw [hframe a (by omega), store_triangle_outside _ _ _ _ _ _ (by omega)]

theorem circleAllocSize_integral (fm : FloatModel) (hx : fm.Exact) (n : Nat)
    (hn : n + 1 < 2 ^ 16) : circleAllocSize fm (f32OfNat n) = 16 + 16 * (n + 1) + 6 * n := by
  unfold circleAllocSize sizeof_cranm_vec_t sizeof_cranp_triangle_t
  rw [hx.toUInt32_exact n (by omega)]
  omega

/-- C10: for every integral segment count `n ≥ 3` whose indices fit 16 bits
(`n + 1 < 2 ^ 16`) and every radius, over any float arithmetic that is exact on small
naturals, `cranp_op_circle` (with an output chunk that holds `16 + 16 * (n + 1) + 6 * n`
bytes, and fuel for `n` iterations) returns and has written into its chunk: a header
with `vertexCount = n + 1` and `triangleCount = n`, the centre vertex `(0, 0, 0)`, then
exactly `n` perimeter vertices with `z = 0`, then exactly `n` triangles, triangle `i`
being `(0, i + 1, i + 2)`; no byte outside that range of the chunk is written. -/
theorem circle_writes_fan (fm : FloatModel) (hx : fm.Exact)
    (fuel : Nat) (m : Mem) (vm slotId inputs params n chunk : Nat)
    (hn3 : 3 ≤ n) (hn16 : n + 1 < 2 ^ 16)
    (hseg : load m params 4 = f32OfNat n)
    (hsize : 16 + 16 * (n + 1) + 6 * n ≤ (cranp_vm_get_allocator m vm).allocChunkSize)
    (hchunk : cranp_vm_get_chunk m vm slotId = .ok chunk)
    (hfit : chunk + (16 + 16 * (n + 1) + 6 * n) < 2 ^ 64)
    (hfuel : n ≤ fuel) :
    ∃ m2, cranp_op_circle fm fuel m vm slotId inputs 0 params = some (.ok m2) ∧
      vecAt m2 chunk (f32OfNat (n + 1)) (f32OfNat n) 0 0 ∧
      vecAt m2 (chunk + 16) 0 0 0 0 ∧
      (∀ k, k < n → vecAt m2 (chunk + 32 + 16 * k)
        (fm.mul (fm.cosf (fm.mul (fm.div (fm.mul (f32OfNat 2) fm.cranm_pi) (f32OfNat n))
          (f32OfNat k))) (load m (cranp_advance params 4) 4) % 2 ^ 32)
        (fm.mul (fm.sinf (fm.mul (fm.div (fm.mul (f32OfNat 2) fm.cranm_pi) (f32OfNat n))
          (f32OfNat k))) (load m (cranp_advance params 4) 4) % 2 ^ 32) 0 0) ∧
      (∀ i, i < n → triangleAt m2 (chunk + 32 + 16 * n + 6 * i) 0 (i + 1) (i + 2)) ∧
      (∀ a, a < chunk ∨ chunk + (16 + 16 * (n + 1) + 6 * n) ≤ a → m2 a = m a) := by
  have hge : fm.ge (f32OfNat n) (f32OfNat 3) = true := by
    rw [hx.ge_exact n 3 (by omega) (by norm_num)]; simpa using hn3
  have halloc : cranp_vm_alloc_chunk m vm slotId (16 + 16 * (n + 1) + 6 * n)
      = .ok (chunk, m) := by
    have hget : cranp_allocator_get_chunk (cranp_vm_get_allocator m vm) slotId = .ok chunk :=
      hchunk
    unfold cranp_vm_alloc_chunk
    simp only
    rw [if_pos hsize, hget]
  have hadd : fm.add (f32OfNat n) (f32OfNat 1) = f32OfNat (n + 1) :=
    hx.add_exact n 1 (by omega)
  obtain ⟨mv, hrunv, hv, hframev⟩ := circleVertices_spec fm hx n
    (load m (cranp_advance params 4) 4)
    (fm.div (fm.mul (f32OfNat 2) fm.cranm_pi) (f32OfNat n)) (by omega) n 0
    (store_vec (store_vec m chunk (f32OfNat (n + 1)) (f32OfNat n) 0 0) (chunk + 16) 0 0 0 0)
    (chunk + 32) fuel (by omega) hfuel (by omega)
  obtain ⟨mt, hrunt, ht, hframet⟩ := circleTriangles_spec n hn16 n 0 mv
    (chunk + 32 + 16 * n) fuel (by omega) hfuel (by omega)
  have f0 : f32OfNat 0 = 0 := rfl
  refine ⟨mt, ?_, ?_, ?_, ?_, ?_, ?_⟩
  · unfold cranp_op_circle
    simp only [if_true, hseg, hge, circleAllocSize_integral fm hx n hn16, halloc, hadd,
      sizeof_cranm_vec_t, hx.toUInt32_exact n (by omega)]
    rw [advance_of_lt chunk 16 (by omega), advance_of_lt (chunk + 16) 16 (by omega),
      show chunk + 16 + 16 = chunk + 32 by omega]
    rw [f0] at hrunv
    rw [hrunv]
    simp only
    rw [hrunt]
  · apply vecAt_congr _ mt _ _ _ _ _ (fun a ha hb => by
      rw [hframet a (by omega), hframev a (by omega), store_vec_outside _ _ _ _ _ _ _ (by omega)])
    have := vecAt_store_vec m chunk (f32OfNat (n + 1)) (f32OfNat n) 0 0
    rw [Nat.mod_eq_of_lt (f32OfNat_lt (n + 1) (by omega)),
      Nat.mod_eq_of_lt (f32OfNat_lt n (by omega))] at this
    simpa using this
  · apply vecAt_congr _ mt _ _ _ _ _ (fun a ha hb => by
      rw [hframet a (by omega), hframev a (by omega)])
    simpa using vecAt_store_vec (store_vec m chunk (f32OfNat (n + 1)) (f32OfNat n) 0 0)
      (chunk + 16) 0 0 0 0
  · intro k hk
    apply vecAt_congr _ mt _ _ _ _ _ (fun a ha hb => by rw [hframet a (by omega)])
    simpa using hv k hk
  · intro i hi
    simpa using ht i hi
  · intro a ha
    rw [hframet a (by omega), hframev a (by omega), store_vec_outside _ _ _ _ _ _ _ (by omega),
      store_vec_outside _ _ _ _ _ _ _ (by omega)]

/-- Witness of C10: `n = 4`, `radius = 10.0f`, output slot 0 of an arena of `1 << 20`
bytes in 4 chunks: `vertexCount = 5`, `triangleCount = 4`, vertex 0 is `(0, 0, 0)`. -/
theorem circle_writes_fan_witness :
    ∃ m2, cranp_op_circle natFloats 4 circleExampleMem 4096 0 0 0 8192 = some (.ok m2) ∧
      vecAt m2 4128 (f32OfNat (4 + 1)) (f32OfNat 4) 0 0 ∧
      vecAt m2 (4128 + 16) 0 0 0 0 ∧
      (∀ k, k < 4 → vecAt m2 (4128 + 32 + 16 * k)
        (natFloats.mul (natFloats.cosf (natFloats.mul
          (natFloats.div (natFloats.mul (f32OfNat 2) natFloats.cranm_pi) (f32OfNat 4))
          (f32OfNat k))) (load circleExampleMem (cranp_advance 8192 4) 4) % 2 ^ 32)
        (natFloats.mul (natFloats.sinf (natFloats.mul
          (natFloats.div (natFloats.mul (f32OfNat 2) natFloats.cranm_pi) (f32OfNat 4))
          (f32OfNat k))) (load circleExampleMem (cranp_advance 8192 4) 4) % 2 ^ 32) 0 0) ∧
      (∀ i, i < 4 → triangleAt m2 (4128 + 32 + 16 * 4 + 6 * i) 0 (i + 1) (i + 2)) ∧
      (∀ a, a < 4128 ∨ 4128 + (16 + 16 * (4 + 1) + 6 * 4) ≤ a → m2 a = circleExampleMem a) :=
  circle_writes_fan natFloats natFloats_exact 4 circleExampleMem 4096 0 0 8192 4 4128
    (by decide) (by decide) (by decide) (by decide) (by decide) (by decide) (by decide)

/-! ## Chunk allocator: placement of the chunks -/

/-- C17, as stated, fails: in an arena at 4096 with 16-byte chunks, chunk storage starts
at `base = 4112`, already a multiple of 16, yet slot 0 is at 4128, not at the smallest
multiple of 16 that is at least `base + 0 * 16 = 4112`. -/
theorem chunk_round_up_counterexample :
    cranp_vm_get_chunk (arenaOf 4096 64 4) 4096 0 = .ok 4128 ∧
    (cranp_vm_get_allocator (arenaOf 4096 64 4) 4096).buffer = 4096 + 16 ∧
    (4096 + 16 + 0 * 16) % 16 = 0 ∧ 4096 + 16 + 0 * 16 < 4128 := by
  decide

/-- C17 (amended): for every arena and every slot `i < chunkCount` (addresses below
`2 ^ 63`), the address `cranp_vm_get_chunk` returns is the smallest multiple of 16 that
is strictly greater than `base + i * chunkSize`, `base` being the start of chunk storage
(`buffer + 16`): a multiple of 16 in `(base + i * chunkSize, base + i * chunkSize + 16]`. -/
theorem chunk_address_next_boundary (m : Mem) (vm slot : Nat)
    (hs : slot < (cranp_vm_get_allocator m vm).allocChunkCount)
    (hfit : (cranp_vm_get_allocator m vm).buffer
      + slot * (cranp_vm_get_allocator m vm).allocChunkSize + 16 < 2 ^ 63) :
    ∃ a, cranp_vm_get_chunk m vm slot = .ok a ∧ a % 16 = 0 ∧
      (cranp_vm_get_allocator m vm).buffer
        + slot * (cranp_vm_get_allocator m vm).allocChunkSize < a ∧
      a ≤ (cranp_vm_get_allocator m vm).buffer
        + slot * (cranp_vm_get_allocator m vm).allocChunkSize + 16 := by
  refine ⟨_, get_chunk_of_fits _ slot hs hfit, ?_, ?_, ?_⟩ <;> omega

/-- Witness of C17 (amended): slot 2 of an arena of 65536 bytes in 10 chunks at the odd
address 4099. -/
theorem chunk_address_next_boundary_witness :
    ∃ a, cranp_vm_get_chunk (arenaOf 4099 65536 10) 4099 2 = .ok a ∧ a % 16 = 0 ∧
      (cranp_vm_get_allocator (arenaOf 4099 65536 10) 4099).buffer
        + 2 * (cranp_vm_get_allocator (arenaOf 4099 65536 10) 4099).allocChunkSize < a ∧
      a ≤ (cranp_vm_get_allocator (arenaOf 4099 65536 10) 4099).buffer
        + 2 * (cranp_vm_get_allocator (arenaOf 4099 65536 10) 4099).allocChunkSize + 16 :=
  chunk_address_next_boundary (arenaOf 4099 65536 10) 4099 2 (by decide) (by decide)

/-- C19: when the chunk size `memorySize / chunkCount` is a multiple of 16, the chunks
of the arena `cranp_vm_buffer_create` sets up are evenly spaced: for every buffer address
(arena below `2 ^ 63`) and all slots `i < j < chunkCount`,
`get(j) = get(i) + (j - i) * chunkSize`, so the two chunks do not overlap. -/
theorem chunks_evenly_spaced (m : Mem) (buffer memorySize chunkCount i j : Nat)
    (hc32 : chunkCount < 2 ^ 32) (h16 : 16 ∣ memorySize / chunkCount)
    (hfit : buffer + 32 + memorySize < 2 ^ 63) (hij : i < j) (hj : j < chunkCount) :
    ∃ a b, chunkAfterCreate m buffer memorySize chunkCount i = .ok a ∧
      chunkAfterCreate m buffer memorySize chunkCount j = .ok b ∧
      b = a + (j - i) * (memorySize / chunkCount) ∧ b - a = (j - i) * (memorySize / chunkCount) ∧
      disjointRanges a b (memorySize / chunkCount) := by
  obtain ⟨q, hq⟩ := h16
  have hmul : memorySize / chunkCount * chunkCount ≤ memorySize := Nat.div_mul_le_self _ _
  have hle : ∀ k, k < chunkCount → (k + 1) * (memorySize / chunkCount) ≤ memorySize := by
    intro k hk
    calc (k + 1) * (memorySize / chunkCount)
        ≤ chunkCount * (memorySize / chunkCount) := Nat.mul_le_mul_right _ hk
      _ ≤ memorySize := by rw [Nat.mul_comm]; exact hmul
  have hi2 := hle i (by omega)
  have hj2 := hle j hj
  rw [Nat.add_mul] at hi2 hj2
  have hsplit : j * (memorySize / chunkCount)
      = i * (memorySize / chunkCount) + (j - i) * (memorySize / chunkCount) := by
    rw [← Nat.add_mul]; congr 1; omega
  have hone : 1 * (memorySize / chunkCount) ≤ (j - i) * (memorySize / chunkCount) :=
    Nat.mul_le_mul_right _ (by omega)
  refine ⟨_, _, chunkAfterCreate_of_fits m buffer memorySize chunkCount i (by omega) (by omega)
      (by omega) (by omega) (by omega),
    chunkAfterCreate_of_fits m buffer memorySize chunkCount j (by omega) (by omega) hj
      (by omega) (by omega), ?_⟩
  have ei : (buffer + 16 + i * (memorySize / chunkCount)) % 16 = (buffer + 16) % 16 := by
    rw [hq, show i * (16 * q) = 16 * (i * q) by ring]; omega
  have ej : (buffer + 16 + j * (memorySize / chunkCount)) % 16 = (buffer + 16) % 16 := by
    rw [hq, show j * (16 * q) = 16 * (j * q) by ring]; omega
  rw [ei, ej]
  unfold disjointRanges
  refine ⟨?_, ?_, ?_⟩ <;> omega

/-- Witness of C19: the repository's arena of `1 << 20` bytes in 4 chunks, slots 1 and 3. -/
theorem chunks_evenly_spaced_witness :
    ∃ a b, chunkAfterCreate zeroMem 4096 1048576 4 1 = .ok a ∧
      chunkAfterCreate zeroMem 4096 1048576 4 3 = .ok b ∧
      b = a + (3 - 1) * (1048576 / 4) ∧ b - a = (3 - 1) * (1048576 / 4) ∧
      disjointRanges a b (1048576 / 4) :=
  chunks_evenly_spaced zeroMem 4096 1048576 4 1 3 (by decide) (by decide) (by decide)
    (by decide) (by decide)

/-! ## Circle: the 16-bit triangle counter -/

/-- The triangle loop for `n < 2 ^ 16` triangles: started at triangle `k` with
`r = n - k` to go, it terminates after `r` iterations, having written the triples
`(0, i + 1, (i + 2) mod 2 ^ 16)` for `i = k, ..., n - 1` in a row and nothing else. -/
theorem circleTriangles_wide (n : Nat) (hn : n < 2 ^ 16) (r : Nat) :
    ∀ (k : Nat) (m : Mem) (wh fuel : Nat), k + r = n → r ≤ fuel → wh + 6 * r < 2 ^ 64 →
      ∃ m2, circleTriangles n fuel k m wh = some (m2, wh + 6 * r) ∧
        (∀ j, j < r → triangleAt m2 (wh + 6 * j) 0 (k + j + 1) ((k + j + 2) % 2 ^ 16)) ∧
        (∀ a, a < wh ∨ wh + 6 * r ≤ a → m2 a = m a) := by
  induction r with
  | zero =>
    intro k m wh fuel hk _ _
    refine ⟨m, ?_, fun j hj => by omega, fun a _ => rfl⟩
    cases fuel <;> simp [circleTriangles] <;> omega
  | succ r ih =>
    intro k m wh fuel hk hf hfit
    obtain ⟨f, rfl⟩ : ∃ f, fuel = f + 1 := ⟨fuel - 1, by omega⟩
    have hlt : k < n := by omega
    simp only [circleTriangles, hlt, if_true, sizeof_cranp_triangle_t]
    rw [advance_of_lt wh 6 (by omega), Nat.mod_eq_of_lt (show k + 1 < 2 ^ 16 by omega)]
    obtain ⟨m2, hrun, hv, hframe⟩ := ih (k + 1)
      (store_triangle m wh 0 (k + 1) ((k + 2) % 2 ^ 16)) (wh + 6) f (by omega) (by omega)
      (by omega)
    refine ⟨m2, ?_, ?_, ?_⟩
    · rw [hrun]; congr 2; omega
    · intro j hj
      cases j with
      | zero =>
        apply triangleAt_congr _ m2 _ _ _ _ (fun a ha hb => hframe a (by omega))
        have := triangleAt_store_triangle m wh 0 (k + 1) ((k + 2) % 2 ^ 16)
        rw [Nat.mod_eq_of_lt (show k + 1 < 2 ^ 16 by omega), Nat.mod_mod] at this
        simpa using this
      | succ j =>
        have := hv j (by omega)
        rw [show wh + 6 + 6 * j = wh + 6 * (j + 1) by omega,
          show k + 1 + j + 1 = k + (j + 1) + 1 by omega,
          show k + 1 + j + 2 = k + (j + 1) + 2 by omega] at this
        exact this
    · intro a ha
      rw [hframe a (by omega), store_triangle_outside _ _ _ _ _ _ (by omega)]

/-- C20: the triangle loop of `cranp_op_circle`, whose 16-bit counter is compared with
the 32-bit triangle count `n` (the integral segment count), terminates for every
`3 ≤ n ≤ 65535` after exactly `n` iterations (fuel `n` suffices): it has written `n`
triangles in a row, each with first index 0, and nothing else; and for every
`n ≤ 65534` the stored second and third indices of triangle `i` are exactly `i + 1` and
`i + 2`, not truncated. -/
theorem triangle_loop_terminates (n fuel : Nat) (m : Mem) (writeHead : Nat)
    (h3 : 3 ≤ n) (hn : n ≤ 65535) (hfuel : n ≤ fuel) (hfit : writeHead + 6 * n < 2 ^ 64) :
    ∃ m2, circleTriangles n fuel 0 m writeHead = some (m2, writeHead + 6 * n) ∧
      (∀ i, i < n → load m2 (writeHead + 6 * i) 2 = 0) ∧
      (∀ a, a < writeHead ∨ writeHead + 6 * n ≤ a → m2 a = m a) ∧
      (n ≤ 65534 → ∀ i, i < n → triangleAt m2 (writeHead + 6 * i) 0 (i + 1) (i + 2)) := by
  obtain ⟨m2, hrun, ht, hframe⟩ :=
    circleTriangles_wide n (by omega) n 0 m writeHead fuel (by omega) hfuel hfit
  refine ⟨m2, hrun, fun i hi => (ht i hi).1, hframe, ?_⟩
  intro hn2 i hi
  have := ht i hi
  rw [Nat.mod_eq_of_lt (show 0 + i + 2 < 2 ^ 16 by omega)] at this
  simpa using this

/-- Witness of C20: `n = 4` triangles written at address 4224 of the all-zero memory. -/
theorem triangle_loop_terminates_witness :
    ∃ m2, circleTriangles 4 4 0 zeroMem 4224 = some (m2, 4224 + 6 * 4) ∧
      (∀ i, i < 4 → load m2 (4224 + 6 * i) 2 = 0) ∧
      (∀ a, a < 4224 ∨ 4224 + 6 * 4 ≤ a → m2 a = zeroMem a) ∧
      (4 ≤ 65534 → ∀ i, i < 4 → triangleAt m2 (4224 + 6 * i) 0 (i + 1) (i + 2)) :=
  triangle_loop_terminates 4 4 zeroMem 4224 (by decide) (by decide) (by decide) (by decide)

/-! ## Interpreter: the unrolled loop against the plain loop -/

/-- On a fixed memory the source's own sequential loop makes the calls of the reference
loop, when its operation and slot cursors stand at entry `i`. -/
theorem execPrologue_sequential (m : Mem) (vm ops slotIds : Nat) (k : Nat) :
    ∀ (i : Nat) (c : Cursors) (calls : List Invocation),
      c.ops = cranp_advance ops (i * 8) → c.slotIds = cranp_advance slotIds (i * 4) →
      ∃ c2, execPrologue (recorder m) vm k c calls
        = .ok (c2, calls ++ sequentialCalls m vm ops slotIds k i c.inputs c.params) := by
  induction k with
  | zero =>
    intro i c calls _ _
    exact ⟨c, by simp [execPrologue, sequentialCalls]⟩
  | succ k ih =>
    intro i c calls ho hs
    simp only [execPrologue, recorder_mem, recorder_call, sizeof_cranp_opf_t, sizeof_uint32_t]
    obtain ⟨c2, hc2⟩ := ih (i + 1)
      { ops := cranp_advance c.ops 8
        slotIds := cranp_advance c.slotIds 4
        params := cranp_advance c.params (load m c.params 4)
        inputs := cranp_advance c.inputs ((load m c.inputs 4 + 1) % 2 ^ 32 * 4) }
      (calls ++ [Invocation.mk (load m c.ops 8) vm (load m c.slotIds 4)
        (cranp_advance c.inputs 4) (load m c.inputs 4) (cranp_advance c.params 4)])
      (by simp only; rw [ho, advance_advance]; congr 1; omega)
      (by simp only; rw [hs, advance_advance]; congr 1; omega)
    refine ⟨c2, ?_⟩
    rw [hc2]
    simp only [sequentialCalls, ho, hs, List.append_assoc, List.singleton_append]

/-- C16: for every program buffer and every `opCount` (0 and every residue modulo 4
included) whose operation section lies in the address space, the unrolled loop of
`cranp_vm_execute_script` (a first loop of `opCount % 4` operations, then groups of
four until the operation cursor equals the end of the section) terminates, fuel for
`opCount / 4` groups being enough, and makes exactly the calls of the plain sequential
loop, with the same arguments in the same order. -/
theorem unrolled_loop_is_sequential (m : Mem) (fuel vm script : Nat)
    (hfit : script + 4 + 8 * load m script 4 < 2 ^ 64) (hfuel : load m script 4 / 4 ≤ fuel) :
    cranp_vm_execute_script (recorder m) fuel [] vm script
      = some (.ok (sequentialProgramCalls m vm script)) ∧
    (sequentialProgramCalls m vm script).length = load m script 4 := by
  have hlen : ∀ k i a b, (sequentialCalls m vm (cranp_advance script 4)
      (cranp_advance script (4 + load m script 4 * 8)) k i a b).length = k := by
    intro k
    induction k with
    | zero => intro i a b; rfl
    | succ k ih => intro i a b; simp [sequentialCalls, ih]
  refine ⟨?_, by unfold sequentialProgramCalls; exact hlen _ _ _ _⟩
  rw [execute_recorder m fuel vm script [] hfit hfuel]
  obtain ⟨c2, hc2⟩ := execPrologue_sequential m vm (cranp_advance script 4)
    (cranp_advance script (4 + load m script 4 * 8)) (load m script 4) 0
    { ops := script + 4
      slotIds := cranp_advance script (4 + load m script 4 * 8)
      inputs := cranp_advance (cranp_advance script
        (4 + load m script 4 * 8 + load m script 4 * 4)) 4
      params := cranp_advance script
        (4 + load m script 4 * 8 + load m script 4 * 4
          + load m (cranp_advance script
              (4 + load m script 4 * 8 + load m script 4 * 4)) 4) } []
    (by simp only; rw [advance_advance, advance_of_lt _ _ (by omega)])
    (by simp only; rw [advance_advance]; congr 1)
  rw [hc2]
  simp [Except.map, sequentialProgramCalls]

/-- Witness of C16: the six-operation program at address 8192, one pass of the unrolled
loop after a first loop of two operations. -/
theorem unrolled_loop_is_sequential_witness :
    cranp_vm_execute_script (recorder (assembled zeroMem 8192 sixOpRecords)) 1 [] 4096 8192
      = some (.ok (sequentialProgramCalls (assembled zeroMem 8192 sixOpRecords) 4096 8192)) ∧
    (sequentialProgramCalls (assembled zeroMem 8192 sixOpRecords) 4096 8192).length
      = load (assembled zeroMem 8192 sixOpRecords) 8192 4 :=
  unrolled_loop_is_sequential (assembled zeroMem 8192 sixOpRecords) 1 4096 8192
    (by decide) (by decide)

/-! ## Linking twice -/

/-- The two renderings of the link loop agree: `cranp_init_script_loop` returns the
memory of `cranp_init_script_loop_at_stop` when that ran to its end, and its fault
otherwise. -/
theorem init_script_loop_at_stop_agrees (table : List Nat) (ops : Nat) (remaining : Nat) :
    ∀ (i : Nat) (m : Mem),
      cranp_init_script_loop table ops remaining i m
        = match cranp_init_script_loop_at_stop table ops remaining i m with
          | (m2, _, none) => .ok m2
          | (_, _, some e) => .error e := by
  induction remaining with
  | zero => intro i m; rfl
  | succ r ih =>
    intro i m
    simp only [cranp_init_script_loop, cranp_init_script_loop_at_stop]
    split
    · split
      · exact ih _ _
      · rfl
    · rfl

theorem init_script_at_stop_agrees (table : List Nat) (m : Mem) (script : Nat) :
    cranp_init_script table m script
      = match cranp_init_script_at_stop table m script with
        | (m2, _, none) => .ok m2
        | (_, _, some e) => .error e := by
  unfold cranp_init_script cranp_init_script_at_stop
  exact init_script_loop_at_stop_agrees table _ _ 0 m

/-- A link loop that returns has read only ids below `cranp_op_id_max`. -/
theorem init_script_loop_ok_ids (table : List Nat) (ops : Nat) (remaining : Nat) :
    ∀ (i : Nat) (m m2 : Mem),
      ops + (i + remaining) * 8 < 2 ^ 64 →
      cranp_init_script_loop table ops remaining i m = .ok m2 →
      ∀ k, i ≤ k → k < i + remaining → load m (ops + k * 8) 8 < cranp_op_id_max := by
  induction remaining with
  | zero => intro i m m2 _ _ k h1 h2; omega
  | succ r ih =>
    intro i m m2 hfit hrun k h1 h2
    have hadv : cranp_advance ops (i * sizeof_cranp_opf_t) = ops + i * 8 := by
      unfold cranp_advance sizeof_cranp_opf_t
      exact Nat.mod_eq_of_lt (by omega)
    simp only [cranp_init_script_loop, hadv] at hrun
    by_cases hlt : toIntptr (load m (ops + i * 8) 8) < (cranp_op_id_max : Int)
    · rw [if_pos hlt] at hrun
      by_cases hge : 0 ≤ toIntptr (load m (ops + i * 8) 8)
      · rw [if_pos hge] at hrun
        rcases Nat.eq_or_lt_of_le h1 with h | h
        · subst h
          have hl := load_lt m (ops + i * 8) 8
          unfold toIntptr at hlt hge
          unfold cranp_op_id_max at hlt ⊢
          have e : load m (ops + i * 8) 8 % 2 ^ 64 = load m (ops + i * 8) 8 :=
            Nat.mod_eq_of_lt (by norm_num at hl ⊢; exact hl)
          rw [e] at hlt hge
          by_cases h63 : load m (ops + i * 8) 8 < 2 ^ 63
          · rw [if_pos h63] at hlt
            exact_mod_cast hlt
          · rw [if_neg h63] at hge
            norm_num at hl
            omega
        · have := ih (i + 1) _ m2 (by omega) hrun k (by omega) (by omega)
          rw [load_store_disjoint _ _ _ _ _ _ (by omega)] at this
          exact this
      · rw [if_neg hge] at hrun
        exact absurd hrun (by simp)
    · rw [if_neg hlt] at hrun
      exact absurd hrun (by simp)

/-- C15: for every program with `opCount ≥ 1` that `cranp_init_script` has linked once
(the callables being code addresses, at least `cranp_op_id_max` and below `2 ^ 63`), a
second call of `cranp_init_script` on the same buffer stops on the link assertion at
entry 0 with the memory byte for byte as the first call left it: no entry has been
rewritten, so every entry of the operation section still equals the callable the first
call installed, the table's callable for the entry's original id. -/
theorem relink_keeps_callables (f : OpFuncs) (m m2 : Mem) (script : Nat)
    (hc : cranp_op_id_max ≤ f.cranp_op_circle ∧ f.cranp_op_circle < 2 ^ 63)
    (ht : cranp_op_id_max ≤ f.cranp_op_translate ∧ f.cranp_op_translate < 2 ^ 63)
    (hn : 1 ≤ load m script 4)
    (hfit : script + 4 + load m script 4 * 8 < 2 ^ 64)
    (hfirst : cranp_init_script (cranp_init f) m script = .ok m2) :
    cranp_init_script_at_stop (cranp_init f) m2 script = (m2, 0, some .assertion) ∧
    cranp_init_script (cranp_init f) m2 script = .error .assertion ∧
    ∀ i, i < load m script 4 →
      load (cranp_init_script_at_stop (cranp_init f) m2 script).1 (script + 4 + i * 8) 8
        = load m2 (script + 4 + i * 8) 8 ∧
      load m2 (script + 4 + i * 8) 8
        = (cranp_init f).getD (load m (script + 4 + i * 8) 8) 0 := by
  have hadv : cranp_advance script sizeof_uint32_t = script + 4 :=
    advance_of_lt _ _ (by unfold sizeof_uint32_t; omega)
  have hadv0 : cranp_advance (script + 4) (0 * sizeof_cranp_opf_t) = script + 4 := by
    rw [Nat.zero_mul]; exact advance_zero _ (by omega)
  have htab : ∀ k, k < (cranp_init f).length → (cranp_init f).getD k 0 < 2 ^ 64 := by
    intro k hk
    rw [init_table] at hk ⊢
    simp only [List.length_cons, List.length_nil] at hk
    have : k = 0 ∨ k = 1 := by omega
    rcases this with h | h <;> subst h
    · exact lt_trans hc.2 (by norm_num)
    · exact lt_trans ht.2 (by norm_num)
  have hloop : cranp_init_script_loop (cranp_init f) (script + 4) (load m script 4) 0 m
      = .ok m2 := by
    unfold cranp_init_script at hfirst
    simp only [hadv] at hfirst
    exact hfirst
  have hids : ∀ k, 0 ≤ k → k < 0 + load m script 4 →
      load m (script + 4 + k * 8) 8 < cranp_op_id_max :=
    init_script_loop_ok_ids (cranp_init f) (script + 4) (load m script 4) 0 m m2
      (by omega) hloop
  obtain ⟨m3, hrun, hent, hframe⟩ := init_script_loop_spec (cranp_init f) (script + 4)
    (load m script 4) 0 m (by omega) htab hids
  have hm : m3 = m2 := by
    rw [hrun] at hloop
    exact Except.ok.inj hloop
  subst hm
  have hcount : load m3 script 4 = load m script 4 :=
    load_congr _ _ _ _ (fun x _ hx2 => hframe x (by omega))
  have h0 := hent 0 (le_refl _) (by omega)
  have hid := hids 0 (le_refl _) (by omega)
  simp only [Nat.zero_mul, Nat.add_zero] at h0 hid
  have hentry : cranp_op_id_max ≤ load m3 (script + 4) 8 ∧ load m3 (script + 4) 8 < 2 ^ 63 := by
    rw [h0, init_table]
    unfold cranp_op_id_max at hid
    have : load m (script + 4) 8 = 0 ∨ load m (script + 4) 8 = 1 := by omega
    rcases this with h | h <;> rw [h]
    · exact hc
    · exact ht
  have hstop : cranp_init_script_at_stop (cranp_init f) m3 script
      = (m3, 0, some .assertion) := by
    obtain ⟨k, hk⟩ : ∃ k, load m3 script 4 = k + 1 := ⟨load m3 script 4 - 1, by omega⟩
    unfold cranp_init_script_at_stop
    simp only [hk, hadv, cranp_init_script_loop_at_stop, hadv0]
    rw [toIntptr_of_lt _ hentry.2, if_neg (by have := hentry.1; omega)]
  refine ⟨hstop, ?_, ?_⟩
  · rw [init_script_at_stop_agrees, hstop]
  · intro i hi
    rw [hstop]
    exact ⟨rfl, hent i (Nat.zero_le _) (by omega)⟩

/-- Witness of C15: the parsed test program, linked once and then again; the second call
stops at entry 0 and both entries still hold the callables. -/
theorem relink_keeps_callables_witness :
    cranp_init_script_at_stop (cranp_init exampleFuncs) linkedTestProgram 8192
      = (linkedTestProgram, 0, some .assertion) ∧
    cranp_init_script (cranp_init exampleFuncs) linkedTestProgram 8192 = .error .assertion ∧
    ∀ i, i < load parsedTestProgram 8192 4 →
      load (cranp_init_script_at_stop (cranp_init exampleFuncs) linkedTestProgram 8192).1
          (8192 + 4 + i * 8) 8
        = load linkedTestProgram (8192 + 4 + i * 8) 8 ∧
      load linkedTestProgram (8192 + 4 + i * 8) 8
        = (cranp_init exampleFuncs).getD (load parsedTestProgram (8192 + 4 + i * 8) 8) 0 :=
  relink_keeps_callables exampleFuncs parsedTestProgram linkedTestProgram 8192
    (by decide) (by decide) (by decide) (by decide) rfl

/-! ## Circle: the last triangle -/

/-- C11 (the code at the failing input): for `segmentCount = 4` the header says
`vertexCount = 5`, so the valid vertex indices are 0 to 4, and the final triangle, the
fourth, is `(0, 4, 5)`: its last index 5 is `n + 1`, which is neither below the vertex
count nor the index 1 of the first perimeter vertex. -/
theorem circle_last_index_out_of_range :
    cranp_op_circle natFloats 4 circleExampleMem 4096 0 0 0 8192
      = some (.ok circleExampleResult) ∧
    load circleExampleResult 4128 4 = f32OfNat 5 ∧
    natFloats.toUInt32 (load circleExampleResult 4128 4) = 5 ∧
    load circleExampleResult (4128 + 32 + 16 * 4 + 6 * 3) 2 = 0 ∧
    load circleExampleResult (4128 + 32 + 16 * 4 + 6 * 3 + 2) 2 = 4 ∧
    load circleExampleResult (4128 + 32 + 16 * 4 + 6 * 3 + 4) 2 = 5 ∧
    ¬ (5 < natFloats.toUInt32 (load circleExampleResult 4128 4)) ∧ 5 ≠ 1 := by
  refine ⟨rfl, by decide, by decide, by decide, by decide, by decide, by decide, by decide⟩

/-! ## Translate -/

theorem vecAt_load_vec (m : Mem) (p : Nat) :
    vecAt m p (load_vec m p).x (load_vec m p).y (load_vec m p).z (load_vec m p).w :=
  ⟨rfl, rfl, rfl, rfl⟩

theorem load_vec_congr (m m2 : Mem) (p : Nat) (h : ∀ a, p ≤ a → a < p + 16 → m2 a = m a) :
    load_vec m2 p = load_vec m p := by
  unfold load_vec
  congr 1 <;> exact load_congr _ _ _ _ (fun a ha hb => h a (by omega) (by omega))

theorem load_mod (m : Mem) (a : Nat) : load m a 4 % 2 ^ 32 = load m a 4 :=
  Nat.mod_eq_of_lt (by have := load_lt m a 4; norm_num at this ⊢; exact this)

/-- The vertex loop of translate on disjoint input and output ranges: after `k`
iterations both heads have moved by `16 * k`, output vertex `j` is input vertex `j` plus
the translation, and nothing outside the output range is written. -/
theorem translateVertices_spec (fm : FloatModel) (lane4 : Nat → Nat → Nat) (tr : cranm_vec_t)
    (k : Nat) :
    ∀ (m : Mem) (w r : Nat), w + 16 * k < 2 ^ 64 → r + 16 * k < 2 ^ 64 →
      (w + 16 * k ≤ r ∨ r + 16 * k ≤ w) →
      ∃ m2, translateVertices fm lane4 tr k m w r = (m2, w + 16 * k, r + 16 * k) ∧
        (∀ j, j < k → vecAt m2 (w + 16 * j)
          (fm.add (load m (r + 16 * j) 4) tr.x % 2 ^ 32)
          (fm.add (load m (r + 16 * j + 4) 4) tr.y % 2 ^ 32)
          (fm.add (load m (r + 16 * j + 8) 4) tr.z % 2 ^ 32)
          (lane4 (load m (r + 16 * j + 12) 4) tr.w % 2 ^ 32)) ∧
        (∀ a, a < w ∨ w + 16 * k ≤ a → m2 a = m a) := by
  induction k with
  | zero =>
    intro m w r _ _ _
    exact ⟨m, rfl, fun j hj => by omega, fun a _ => rfl⟩
  | succ k ih =>
    intro m w r hw hr hd
    simp only [translateVertices, sizeof_cranm_vec_t, cranm_add3, load_vec]
    rw [advance_of_lt w 16 (by omega), advance_of_lt r 16 (by omega)]
    obtain ⟨m2, hrun, hv, hframe⟩ := ih
      (store_vec m w (fm.add (load m r 4) tr.x) (fm.add (load m (r + 4) 4) tr.y)
        (fm.add (load m (r + 8) 4) tr.z) (lane4 (load m (r + 12) 4) tr.w))
      (w + 16) (r + 16) (by omega) (by omega) (by omega)
    refine ⟨m2, ?_, ?_, ?_⟩
    · rw [hrun]; congr 2
      · omega
      · omega
    · intro j hj
      cases j with
      | zero =>
        apply vecAt_congr _ m2 _ _ _ _ _ (fun a ha hb => hframe a (by omega))
        simpa using vecAt_store_vec m w (fm.add (load m r 4) tr.x)
          (fm.add (load m (r + 4) 4) tr.y) (fm.add (load m (r + 8) 4) tr.z)
          (lane4 (load m (r + 12) 4) tr.w)
      | succ j =>
        have := hv j (by omega)
        have e : ∀ a0, r + 16 ≤ a0 → a0 + 4 ≤ r + 16 * (k + 1) →
            load (store_vec m w (fm.add (load m r 4) tr.x)
              (fm.add (load m (r + 4) 4) tr.y) (fm.add (load m (r + 8) 4) tr.z)
              (lane4 (load m (r + 12) 4) tr.w)) a0 4 = load m a0 4 := by
          intro a0 h1 h2
          exact load_congr _ _ _ _
            (fun a ha hb => store_vec_outside _ _ _ _ _ _ _ (by omega))
        rw [e _ (by omega) (by omega), e _ (by omega) (by omega), e _ (by omega) (by omega),
          e _ (by omega) (by omega),
          show w + 16 + 16 * j = w + 16 * (j + 1) by omega,
          show r + 16 + 16 * j = r + 16 * (j + 1) by omega] at this
        exact this
    · intro a ha
      rw [hframe a (by omega), store_vec_outside _ _ _ _ _ _ _ (by omega)]


theorem alloc_chunk_of_get (m : Mem) (vm slotId size g : Nat)
    (hsize : size ≤ (cranp_vm_get_allocator m vm).allocChunkSize)
    (hget : cranp_vm_get_chunk m vm slotId = .ok g) :
    cranp_vm_alloc_chunk m vm slotId size = .ok (g, m) := by
  have hget2 : cranp_allocator_get_chunk (cranp_vm_get_allocator m vm) slotId = .ok g := hget
  unfold cranp_vm_alloc_chunk
  simp only
  rw [if_pos hsize, hget2]

theorem memcpy_outside (m : Mem) (dst src n a : Nat) (h : a < dst ∨ dst + n ≤ a) :
    memcpy m dst src n a = m a := by
  unfold memcpy
  rw [if_neg]
  omega

theorem memcpy_inside (m : Mem) (dst src n j : Nat) (h : j < n) :
    memcpy m dst src n (dst + j) = m (src + j) := by
  unfold memcpy
  rw [if_pos (by omega), show dst + j - dst = j by omega]

/-- C12: for every mesh stored in the input slot, with header counts `v` and `t` (so
`16 + 16 * v + 6 * t` bytes, within the chunk size) and every translation, when the
output chunk does not overlap the input chunk, `cranp_op_translate` returns and has
written an output mesh whose header equals the input header, whose `v` vertices are the
input vertices with the translation added lane by lane, in the same order, and whose
triangle block is byte for byte the input's `6 * t` bytes; it writes nothing else. -/
theorem translate_writes_mesh (fm : FloatModel) (lane4 : Nat → Nat → Nat) (m : Mem)
    (vm slotId inputs params gin gout v t : Nat)
    (hv : v = fm.toUInt32 (load m gin 4) % 2 ^ 32)
    (ht : t = fm.toUInt32 (load m (gin + 4) 4) % 2 ^ 32)
    (hin : cranp_vm_get_chunk m vm (load m inputs 4) = .ok gin)
    (hout : cranp_vm_get_chunk m vm slotId = .ok gout)
    (hmesh : 16 + 16 * v + 6 * t ≤ (cranp_vm_get_allocator m vm).allocChunkSize)
    (hdisj : disjointRanges gin gout (cranp_vm_get_allocator m vm).allocChunkSize)
    (hfit : gin + (cranp_vm_get_allocator m vm).allocChunkSize < 2 ^ 64
      ∧ gout + (cranp_vm_get_allocator m vm).allocChunkSize < 2 ^ 64) :
    ∃ m2, cranp_op_translate fm lane4 m vm slotId inputs 1 params = .ok m2 ∧
      load_vec m2 gout = load_vec m gin ∧
      (∀ k, k < v → vecAt m2 (gout + 16 + 16 * k)
        (fm.add (load m (gin + 16 + 16 * k) 4) (load m params 4) % 2 ^ 32)
        (fm.add (load m (gin + 16 + 16 * k + 4) 4) (load m (params + 4) 4) % 2 ^ 32)
        (fm.add (load m (gin + 16 + 16 * k + 8) 4) (load m (params + 8) 4) % 2 ^ 32)
        (lane4 (load m (gin + 16 + 16 * k + 12) 4) (load m (params + 12) 4) % 2 ^ 32)) ∧
      (∀ j, j < 6 * t → m2 (gout + 16 + 16 * v + j) = m (gin + 16 + 16 * v + j)) ∧
      (∀ a, a < gout ∨ gout + (16 + 16 * v + 6 * t) ≤ a → m2 a = m a) := by
  unfold disjointRanges at hdisj
  obtain ⟨cs, hcs⟩ : ∃ cs, (cranp_vm_get_allocator m vm).allocChunkSize = cs := ⟨_, rfl⟩
  rw [hcs] at hmesh hdisj hfit
  have hvlt : v < 2 ^ 32 := by rw [hv]; exact Nat.mod_lt _ (by norm_num)
  have htlt : t < 2 ^ 32 := by rw [ht]; exact Nat.mod_lt _ (by norm_num)
  have hsz : translateAllocSize fm (load_vec m gin) ≤ 16 + 16 * v + 6 * t := by
    unfold translateAllocSize load_vec sizeof_cranm_vec_t sizeof_cranp_triangle_t
    simp only [← hv, ← ht]
    omega
  have halloc : cranp_vm_alloc_chunk m vm slotId (translateAllocSize fm (load_vec m gin))
      = .ok (gout, m) :=
    alloc_chunk_of_get m vm slotId _ gout (by rw [hcs]; omega) hout
  clear hcs hsz
  obtain ⟨m2, hrun, hverts, hframe⟩ := translateVertices_spec fm lane4 (load_vec m params) v
    (store_vec m gout (load m gin 4) (load m (gin + 4) 4) (load m (gin + 8) 4)
      (load m (gin + 12) 4))
    (gout + 16) (gin + 16) (by omega) (by omega) (by omega)
  have hhead : ∀ a0, gin ≤ a0 → a0 + 4 ≤ gin + (16 + 16 * v + 6 * t) →
      load (store_vec m gout (load m gin 4) (load m (gin + 4) 4) (load m (gin + 8) 4)
        (load m (gin + 12) 4)) a0 4 = load m a0 4 := by
    intro a0 h1 h2
    exact load_congr _ _ _ _ (fun a ha hb => store_vec_outside _ _ _ _ _ _ _ (by omega))
  have hcopy : ∀ a, a < gout + 16 + 16 * v ∨ gout + 16 + 16 * v + t * 6 ≤ a →
      memcpy m2 (gout + 16 + 16 * v) (gin + 16 + 16 * v) (t * 6) a = m2 a :=
    fun a ha => memcpy_outside _ _ _ _ _ ha
  refine ⟨memcpy m2 (gout + 16 + 16 * v) (gin + 16 + 16 * v) (t * 6), ?_, ?_, ?_, ?_, ?_⟩
  · unfold cranp_op_translate
    rw [if_pos rfl]
    simp only
    rw [hin]
    simp only
    rw [halloc]
    simp only [sizeof_cranm_vec_t, sizeof_cranp_triangle_t]
    rw [advance_of_lt gin 16 (by omega), advance_of_lt gout 16 (by omega)]
    simp only [load_vec, ← hv, ← ht] at hrun ⊢
    rw [hrun, Nat.mod_eq_of_lt htlt]
  · rw [load_vec_congr _ _ gout (fun a ha hb => by
      rw [hcopy a (by omega), hframe a (by omega)])]
    have := vecAt_store_vec m gout (load m gin 4) (load m (gin + 4) 4) (load m (gin + 8) 4)
      (load m (gin + 12) 4)
    simp only [load_mod] at this
    obtain ⟨h1, h2, h3, h4⟩ := this
    unfold load_vec
    rw [h1, h2, h3, h4]
  · intro k hk
    apply vecAt_congr m2 _ _ _ _ _ _ (fun a ha hb => hcopy a (by omega))
    have := hverts k hk
    rw [hhead _ (by omega) (by omega), hhead _ (by omega) (by omega),
      hhead _ (by omega) (by omega), hhead _ (by omega) (by omega)] at this
    simp only [load_vec] at this
    exact this
  · intro j hj
    have h1 : memcpy m2 (gout + 16 + 16 * v) (gin + 16 + 16 * v) (t * 6)
        (gout + 16 + 16 * v + j) = m2 (gin + 16 + 16 * v + j) :=
      memcpy_inside _ _ _ _ _ (by omega)
    rw [h1, hframe _ (by omega)]
    exact store_vec_outside _ _ _ _ _ _ _ (by omega)
  · intro a ha
    rw [hcopy a (by omega), hframe a (by omega)]
    exact store_vec_outside _ _ _ _ _ _ _ (by omega)

set_option maxRecDepth 100000 in
/-- Witness of C12: the circle of four segments in slot 0 of the arena of `1 << 20` bytes
in 4 chunks, translated by `(1, 2, 3)` into slot 1. -/
theorem translate_writes_mesh_witness :
    ∃ m2, cranp_op_translate natFloats (fun _ _ => 0) translateExampleMem 4096 1 8200 1 8208
        = .ok m2 ∧
      load_vec m2 266272 = load_vec translateExampleMem 4128 ∧
      (∀ k, k < 5 → vecAt m2 (266272 + 16 + 16 * k)
        (natFloats.add (load translateExampleMem (4128 + 16 + 16 * k) 4)
          (load translateExampleMem 8208 4) % 2 ^ 32)
        (natFloats.add (load translateExampleMem (4128 + 16 + 16 * k + 4) 4)
          (load translateExampleMem (8208 + 4) 4) % 2 ^ 32)
        (natFloats.add (load translateExampleMem (4128 + 16 + 16 * k + 8) 4)
          (load translateExampleMem (8208 + 8) 4) % 2 ^ 32)
        ((fun _ _ => 0) (load translateExampleMem (4128 + 16 + 16 * k + 12) 4)
          (load translateExampleMem (8208 + 12) 4) % 2 ^ 32)) ∧
      (∀ j, j < 6 * 4 → m2 (266272 + 16 + 16 * 5 + j)
        = translateExampleMem (4128 + 16 + 16 * 5 + j)) ∧
      (∀ a, a < 266272 ∨ 266272 + (16 + 16 * 5 + 6 * 4) ≤ a → m2 a = translateExampleMem a) :=
  translate_writes_mesh natFloats (fun _ _ => 0) translateExampleMem 4096 1 8200 8208
    4128 266272 5 4 (by decide) (by decide) (by decide) (by decide) (by decide) (by decide)
    (by decide)

/-! ## Circle: the size requested and the bytes written -/

/-- The model `halfFloats` is exact on the naturals up to `2 ^ 24`. -/
theorem halfFloats_exact : halfFloats.Exact where
  add_exact a b h := by
    simp only [halfFloats, natOfF32_f32OfNat a (by omega), natOfF32_f32OfNat b (by omega)]
  lt_exact a b ha hb := by
    simp only [halfFloats, natOfF32_f32OfNat a ha, natOfF32_f32OfNat b hb]
  ge_exact a b ha hb := by
    simp only [halfFloats, natOfF32_f32OfNat a ha, natOfF32_f32OfNat b hb]
  toUInt32_exact a ha := by
    simp only [halfFloats, natOfF32_f32OfNat a ha]

set_option maxRecDepth 100000 in
/-- C18 (the code at the failing input): with `segmentCount = 3.5f`, which the assertion
`segmentCount >= 3.0f` accepts, `cranp_op_circle` requests
`16 + 16 * (3 + 1) + 6 * 3 = 98` bytes but its vertex loop runs for the segments 0, 1, 2
and 3, so it writes a header, five vertices and three triangles, 114 bytes: the byte at
offset 110 of the chunk, past the 98 requested, changes from 0 to 3 (the second index of
the third triangle). -/
theorem circle_writes_past_request :
    halfFloats.ge (load circleHalfMem 8192 4) (f32OfNat 3) = true ∧
    circleAllocSize halfFloats (load circleHalfMem 8192 4) = 98 ∧
    cranp_vm_get_chunk circleHalfMem 4096 0 = .ok 4128 ∧
    cranp_op_circle halfFloats 5 circleHalfMem 4096 0 0 0 8192 = some (.ok circleHalfResult) ∧
    98 ≤ 110 ∧ circleHalfMem (4128 + 110) = 0 ∧ circleHalfResult (4128 + 110) = 3 := by
  refine ⟨by decide, by decide, by decide, rfl, by decide, by decide, by decide⟩


/-- The request of `cranp_op_translate` is cut to 32 bits: for a header that counts
`2 ^ 28` vertices and no triangle it is 16 bytes, not `16 + 16 * 2 ^ 28`. -/
theorem translate_request_truncated :
    natFloats.toUInt32 (f32OfNat 268435456) = 268435456 ∧
    translateAllocSize natFloats { x := f32OfNat 268435456, y := 0, z := 0, w := 0 } = 16 := by
  decide

/-! ## Running the two-operation program -/

theorem twoOpProgramAt_congr (m m2 : Mem) (script circle translate : Nat)
    (h : ∀ a, script ≤ a → a < script + 76 → m2 a = m a)
    (hp : TwoOpProgramAt m script circle translate) :
    TwoOpProgramAt m2 script circle translate := by
  have e : ∀ a0 w, script ≤ a0 → a0 + w ≤ script + 76 → load m2 a0 w = load m a0 w :=
    fun a0 w h1 h2 => load_congr _ _ _ _ (fun a ha hb => h a (by omega) (by omega))
  obtain ⟨h1, h2, h3, h4, h5, h6, h7, h8, h9, h10, h11⟩ := hp
  refine ⟨?_, ?_, ?_, ?_, ?_, ?_, ?_, ?_, ?_, ?_, ?_⟩
  · rw [e _ _ (by omega) (by omega)]; exact h1
  · rw [e _ _ (by omega) (by omega)]; exact h2
  · rw [e _ _ (by omega) (by omega)]; exact h3
  · rw [e _ _ (by omega) (by omega)]; exact h4
  · rw [e _ _ (by omega) (by omega)]; exact h5
  · rw [e _ _ (by omega) (by omega)]; exact h6
  · rw [e _ _ (by omega) (by omega)]; exact h7
  · rw [e _ _ (by omega) (by omega)]; exact h8
  · rw [e _ _ (by omega) (by omega)]; exact h9
  · rw [e _ _ (by omega) (by omega)]; exact h10
  · rw [e _ _ (by omega) (by omega)]; exact h11

/-- The interpreter on the two-operation program, over any machine: when the first call
returns and leaves the program in place, and the second call returns, the interpreter
returns the state after the second call, whatever the fuel. -/
theorem execute_twoOpProgram {σ : Type} (M : Machine σ) (fuel : Nat) (s s1 s2 : σ)
    (vm script circle translate : Nat) (hfit : script + 76 < 2 ^ 64)
    (hp : TwoOpProgramAt (M.mem s) script circle translate)
    (hcall1 : M.call (Invocation.mk circle vm 0 (script + 36) 0 (script + 48)) s = .ok s1)
    (hp1 : TwoOpProgramAt (M.mem s1) script circle translate)
    (hcall2 : M.call (Invocation.mk translate vm 1 (script + 40) 1 (script + 60)) s1 = .ok s2) :
    cranp_vm_execute_script M fuel s vm script = some (.ok s2) := by
  obtain ⟨h1, h2, _, h4, _, h6, h7, _, _, _, _⟩ := hp
  obtain ⟨_, _, g3, _, g5, _, _, g8, _, g10, g11⟩ := hp1
  have adv : ∀ k j, k + j ≤ 76 → cranp_advance (script + k) j = script + (k + j) := by
    intro k j hkj
    rw [advance_of_lt _ _ (by omega), Nat.add_assoc]
  have adv0 : ∀ j, j ≤ 76 → cranp_advance script j = script + j := by
    intro j hj
    rw [advance_of_lt _ _ (by omega)]
  have a1 : cranp_advance script 4 = script + 4 := adv0 _ (by decide)
  have a2 : cranp_advance (script + 4) (2 * 8) = script + 20 := adv 4 16 (by decide)
  have a3 : cranp_advance script (4 + 2 * 8) = script + 20 := adv0 20 (by decide)
  have a4 : cranp_advance script (4 + 2 * 8 + 2 * 4) = script + 28 := adv0 28 (by decide)
  have a5 : cranp_advance (script + 28) 4 = script + 32 := adv 28 4 (by decide)
  have a6 : cranp_advance script (4 + 2 * 8 + 2 * 4 + 16) = script + 44 := adv0 44 (by decide)
  have b1 : cranp_advance (script + 32) 4 = script + 36 := adv 32 4 (by decide)
  have b2 : cranp_advance (script + 44) 4 = script + 48 := adv 44 4 (by decide)
  have b3 : cranp_advance (script + 4) 8 = script + 12 := adv 4 8 (by decide)
  have b4 : cranp_advance (script + 20) 4 = script + 24 := adv 20 4 (by decide)
  have b5 : cranp_advance (script + 44) 12 = script + 56 := adv 44 12 (by decide)
  have c2 : cranp_advance (script + 56) 4 = script + 60 := adv 56 4 (by decide)
  have c3 : cranp_advance (script + 12) 8 = script + 20 := adv 12 8 (by decide)
  have c4 : cranp_advance (script + 36) 4 = script + 40 := adv 36 4 (by decide)
  have c5 : cranp_advance (script + 36) 8 = script + 44 := adv 36 8 (by decide)
  have b6 : cranp_advance (script + 32) ((0 + 1) % 2 ^ 32 * 4) = script + 36 := by
    rw [show (0 + 1) % 2 ^ 32 * 4 = 4 from rfl]; exact b1
  have c1 : cranp_advance (script + 36) ((1 + 1) % 2 ^ 32 * 4) = script + 44 := by
    rw [show (1 + 1) % 2 ^ 32 * 4 = 8 from rfl]; exact c5
  have hpro : execPrologue M vm 2
      { ops := script + 4, slotIds := script + 20, inputs := script + 32,
        params := script + 44 } s =
      .ok ({ ops := script + 20, slotIds := cranp_advance (script + 24) 4,
             params := cranp_advance (script + 56) (load (M.mem s2) (script + 56) 4),
             inputs := script + 44 }, s2) := by
    rw [execPrologue]
    simp only [h7, h2, h4, b1, b2, hcall1, g10, sizeof_cranp_opf_t, sizeof_uint32_t, b3, b4,
      b5, b6]
    rw [execPrologue]
    simp only [g8, g3, g5, c4, c2, hcall2, sizeof_cranp_opf_t, sizeof_uint32_t, c3, c1]
    rw [execPrologue]
  unfold cranp_vm_execute_script
  simp only [h1, sizeof_uint32_t, sizeof_cranp_opf_t, a1, a2, a3, a4, h6, a5, a6,
    show 2 % 4 = 2 from rfl, hpro]
  cases fuel <;> simp [execLoop]

/-- The allocator header is read from the 16 bytes at `vm`. -/
theorem get_allocator_congr (m m2 : Mem) (vm : Nat) (hvm : vm + 16 < 2 ^ 64)
    (h : ∀ a, vm ≤ a → a < vm + 16 → m2 a = m a) :
    cranp_vm_get_allocator m2 vm = cranp_vm_get_allocator m vm := by
  unfold cranp_vm_get_allocator cranp_view_as_allocator sizeof_uint64_t
  rw [advance_of_lt vm 8 (by omega)]
  rw [load_congr m2 m vm 8 (fun a ha hb => h a (by omega) (by omega)),
    load_congr m2 m (vm + 8) 8 (fun a ha hb => h a (by omega) (by omega))]

theorem get_chunk_congr (m m2 : Mem) (vm slot : Nat) (hvm : vm + 16 < 2 ^ 64)
    (h : ∀ a, vm ≤ a → a < vm + 16 → m2 a = m a) :
    cranp_vm_get_chunk m2 vm slot = cranp_vm_get_chunk m vm slot := by
  unfold cranp_vm_get_chunk
  rw [get_allocator_congr m m2 vm hvm h]

/-- A run of `cranp_op_circle` for an integral segment count `3 ≤ n < 2 ^ 16` into a
chunk that holds the request: it returns, the header counts `n + 1` vertices and `n`
triangles, and nothing outside the `16 + 16 * (n + 1) + 6 * n` bytes at the chunk is
written. -/
theorem circle_run (fm : FloatModel) (hx : fm.Exact)
    (fuel : Nat) (m : Mem) (vm slotId inputs params n chunk : Nat)
    (hn3 : 3 ≤ n) (hn16 : n < 2 ^ 16)
    (hseg : load m params 4 = f32OfNat n)
    (hsize : 16 + 16 * (n + 1) + 6 * n ≤ (cranp_vm_get_allocator m vm).allocChunkSize)
    (hchunk : cranp_vm_get_chunk m vm slotId = .ok chunk)
    (hfit : chunk + (16 + 16 * (n + 1) + 6 * n) < 2 ^ 64)
    (hfuel : n ≤ fuel) :
    ∃ m2, cranp_op_circle fm fuel m vm slotId inputs 0 params = some (.ok m2) ∧
      vecAt m2 chunk (f32OfNat (n + 1)) (f32OfNat n) 0 0 ∧
      (∀ a, a < chunk ∨ chunk + (16 + 16 * (n + 1) + 6 * n) ≤ a → m2 a = m a) := by
  have hge : fm.ge (f32OfNat n) (f32OfNat 3) = true := by
    rw [hx.ge_exact n 3 (by omega) (by norm_num)]; simpa using hn3
  have hreq : circleAllocSize fm (f32OfNat n) = 16 + 16 * (n + 1) + 6 * n := by
    unfold circleAllocSize sizeof_cranm_vec_t sizeof_cranp_triangle_t
    rw [hx.toUInt32_exact n (by omega)]
    omega
  have halloc : cranp_vm_alloc_chunk m vm slotId (16 + 16 * (n + 1) + 6 * n)
      = .ok (chunk, m) := alloc_chunk_of_get m vm slotId _ chunk hsize hchunk
  have hadd : fm.add (f32OfNat n) (f32OfNat 1) = f32OfNat (n + 1) :=
    hx.add_exact n 1 (by omega)
  obtain ⟨mv, hrunv, _, hframev⟩ := circleVertices_spec fm hx n
    (load m (cranp_advance params 4) 4)
    (fm.div (fm.mul (f32OfNat 2) fm.cranm_pi) (f32OfNat n)) (by omega) n 0
    (store_vec (store_vec m chunk (f32OfNat (n + 1)) (f32OfNat n) 0 0) (chunk + 16) 0 0 0 0)
    (chunk + 32) fuel (by omega) hfuel (by omega)
  obtain ⟨mt, hrunt, _, hframet⟩ := circleTriangles_wide n hn16 n 0 mv
    (chunk + 32 + 16 * n) fuel (by omega) hfuel (by omega)
  have f0 : f32OfNat 0 = 0 := rfl
  refine ⟨mt, ?_, ?_, ?_⟩
  · unfold cranp_op_circle
    simp only [if_true, hseg, hge, hreq, halloc, hadd,
      sizeof_cranm_vec_t, hx.toUInt32_exact n (by omega)]
    rw [advance_of_lt chunk 16 (by omega), advance_of_lt (chunk + 16) 16 (by omega),
      show chunk + 16 + 16 = chunk + 32 by omega]
    rw [f0] at hrunv
    rw [hrunv]
    simp only
    rw [hrunt]
  · apply vecAt_congr _ mt _ _ _ _ _ (fun a ha hb => by
      rw [hframet a (by omega), hframev a (by omega), store_vec_outside _ _ _ _ _ _ _ (by omega)])
    have := vecAt_store_vec m chunk (f32OfNat (n + 1)) (f32OfNat n) 0 0
    rw [Nat.mod_eq_of_lt (f32OfNat_lt (n + 1) (by omega)),
      Nat.mod_eq_of_lt (f32OfNat_lt n (by omega))] at this
    simpa using this
  · intro a ha
    rw [hframet a (by omega), hframev a (by omega), store_vec_outside _ _ _ _ _ _ _ (by omega),
      store_vec_outside _ _ _ _ _ _ _ (by omega)]

/-- The vertex loop of translate writes only the `16 * k` bytes from its write head on. -/
theorem translateVertices_frame (fm : FloatModel) (lane4 : Nat → Nat → Nat) (tr : cranm_vec_t)
    (k : Nat) :
    ∀ (m : Mem) (w r : Nat), w + 16 * k < 2 ^ 64 →
      (translateVertices fm lane4 tr k m w r).2.1 = w + 16 * k ∧
      ∀ a, a < w ∨ w + 16 * k ≤ a → (translateVertices fm lane4 tr k m w r).1 a = m a := by
  induction k with
  | zero =>
    intro m w r _
    exact ⟨rfl, fun a _ => rfl⟩
  | succ k ih =>
    intro m w r hw
    simp only [translateVertices, sizeof_cranm_vec_t]
    rw [advance_of_lt w 16 (by omega)]
    obtain ⟨h1, h2⟩ := ih
      (store_vec m w (cranm_add3 fm lane4 (load_vec m r) tr).x
        (cranm_add3 fm lane4 (load_vec m r) tr).y (cranm_add3 fm lane4 (load_vec m r) tr).z
        (cranm_add3 fm lane4 (load_vec m r) tr).w) (w + 16) (cranp_advance r 16) (by omega)
    refine ⟨by rw [h1]; omega, fun a ha => ?_⟩
    rw [h2 a (by omega)]
    exact store_vec_outside _ _ _ _ _ _ _ (by omega)

/-- A run of `cranp_op_translate` on a mesh with header counts `v` and `t`: when its
input and output chunks exist and the chunk holds the request, it returns, and it writes
only the `16 + 16 * v + 6 * t` bytes at the output chunk. -/
theorem translate_run (fm : FloatModel) (lane4 : Nat → Nat → Nat) (m : Mem)
    (vm slotId inputs params gin gout v t : Nat)
    (hv : fm.toUInt32 (load m gin 4) = v) (ht : fm.toUInt32 (load m (gin + 4) 4) = t)
    (hreq : 16 + 16 * v + 6 * t < 2 ^ 32)
    (hin : cranp_vm_get_chunk m vm (load m inputs 4) = .ok gin)
    (hout : cranp_vm_get_chunk m vm slotId = .ok gout)
    (hmesh : 16 + 16 * v + 6 * t ≤ (cranp_vm_get_allocator m vm).allocChunkSize)
    (hfit : gin + 16 < 2 ^ 64 ∧ gout + (16 + 16 * v + 6 * t) < 2 ^ 64) :
    translateAllocSize fm (load_vec m gin) = 16 + 16 * v + 6 * t ∧
    ∃ m2, cranp_op_translate fm lane4 m vm slotId inputs 1 params = .ok m2 ∧
      (∀ a, a < gout ∨ gout + (16 + 16 * v + 6 * t) ≤ a → m2 a = m a) := by
  have hsz : translateAllocSize fm (load_vec m gin) = 16 + 16 * v + 6 * t := by
    unfold translateAllocSize load_vec sizeof_cranm_vec_t sizeof_cranp_triangle_t
    simp only [hv, ht]
    omega
  refine ⟨hsz, ?_⟩
  have halloc : cranp_vm_alloc_chunk m vm slotId (translateAllocSize fm (load_vec m gin))
      = .ok (gout, m) :=
    alloc_chunk_of_get m vm slotId _ gout (by rw [hsz]; exact hmesh) hout
  clear hmesh
  obtain ⟨hw, hframe⟩ := translateVertices_frame fm lane4 (load_vec m params) v
    (store_vec m gout (load m gin 4) (load m (gin + 4) 4) (load m (gin + 8) 4)
      (load m (gin + 12) 4))
    (gout + 16) (gin + 16) (by omega)
  obtain ⟨res, hres⟩ : ∃ res, translateVertices fm lane4 (load_vec m params) v
    (store_vec m gout (load m gin 4) (load m (gin + 4) 4) (load m (gin + 8) 4)
      (load m (gin + 12) 4)) (gout + 16) (gin + 16) = res := ⟨_, rfl⟩
  rw [hres] at hw hframe
  obtain ⟨mv, wv, rv⟩ := res
  simp only at hw hframe
  have hcopy : ∀ a, a < gout + 16 + 16 * v ∨ gout + 16 + 16 * v + t * 6 ≤ a →
      memcpy mv (gout + 16 + 16 * v) rv (t * 6) a = mv a :=
    fun a ha => memcpy_outside _ _ _ _ _ ha
  refine ⟨memcpy mv (gout + 16 + 16 * v) rv (t * 6), ?_, ?_⟩
  · unfold cranp_op_translate
    rw [if_pos rfl]
    simp only
    rw [hin]
    simp only
    rw [halloc]
    simp only [sizeof_cranm_vec_t, sizeof_cranp_triangle_t]
    rw [advance_of_lt gin 16 (by omega), advance_of_lt gout 16 (by omega)]
    simp only [load_vec, hv, ht] at hres ⊢
    rw [Nat.mod_eq_of_lt (show v < 2 ^ 32 by omega), hres,
      Nat.mod_eq_of_lt (show t < 2 ^ 32 by omega),
      Nat.mod_eq_of_lt (show t < 2 ^ 32 by omega), hw]
  · intro a ha
    rw [hcopy a (by omega), hframe a (by omega)]
    exact store_vec_outside _ _ _ _ _ _ _ (by omega)

/-! ## The two-operation program: slot 0 after translate -/

set_option maxRecDepth 100000 in
/-- C13 (counterexample): an arena of 240 bytes in 2 chunks, so `chunkSize = 120`, and
the program `[circle(4 segments) -> slot 0, translate(input = slot 0) -> slot 1]`.  Both
slots exist and both operations request `16 + 16 * 5 + 6 * 4 = 120 <= chunkSize` bytes,
but slot 1 starts at 4240, 112 bytes after slot 0 at 4128: the circle alone leaves the
last triangle `(0, 4, 5)` at offset 114 of slot 0, and after the program its second
index reads 0, overwritten by the header translate stores into slot 1. -/
theorem two_op_program_overwrites_slot0 :
    (cranp_vm_get_allocator (fourSegmentProgramMem 240) 4096).allocChunkCount = 2 ∧
    (cranp_vm_get_allocator (fourSegmentProgramMem 240) 4096).allocChunkSize = 120 ∧
    TwoOpProgramAt (fourSegmentProgramMem 240) 8192 exampleFuncs.cranp_op_circle
      exampleFuncs.cranp_op_translate ∧
    circleAllocSize natFloats (load (fourSegmentProgramMem 240) 8240 4) = 120 ∧
    cranp_vm_get_chunk (fourSegmentProgramMem 240) 4096 0 = .ok 4128 ∧
    cranp_vm_get_chunk (fourSegmentProgramMem 240) 4096 1 = .ok 4240 ∧
    cranp_op_circle natFloats 4 (fourSegmentProgramMem 240) 4096 0 8228 0 8240
      = some (.ok (fourSegmentCircleAlone 240)) ∧
    translateAllocSize natFloats (load_vec (fourSegmentCircleAlone 240) 4128) = 120 ∧
    cranp_vm_execute_script (opsMachine natFloats (fun _ _ => 0) exampleFuncs 4) 0
      (some (fourSegmentProgramMem 240)) 4096 8192
      = some (.ok (some (fourSegmentProgramResult 240))) ∧
    triangleAt (fourSegmentCircleAlone 240) (4128 + 32 + 16 * 4 + 6 * 3) 0 4 5 ∧
    load (fourSegmentProgramResult 240) (4128 + 32 + 16 * 4 + 6 * 3 + 2) 2 = 0 := by
  refine ⟨by decide, by decide, by decide, by decide, by decide, by decide, rfl, by decide,
    rfl, ⟨by decide, by decide, by decide⟩, by decide⟩

theorem opsMachine_mem (fm : FloatModel) (lane4 : Nat → Nat → Nat) (f : OpFuncs) (fuel : Nat)
    (m : Mem) : (opsMachine fm lane4 f fuel).mem (some m) = m := rfl

theorem opsMachine_call_circle (fm : FloatModel) (lane4 : Nat → Nat → Nat) (f : OpFuncs)
    (fuel : Nat) (m m1 : Mem) (vm slotId inputs inputCount params : Nat)
    (h : cranp_op_circle fm fuel m vm slotId inputs inputCount params = some (.ok m1)) :
    (opsMachine fm lane4 f fuel).call
      (Invocation.mk f.cranp_op_circle vm slotId inputs inputCount params) (some m)
      = .ok (some m1) := by
  unfold opsMachine
  simp only
  rw [if_pos trivial, h]

theorem opsMachine_call_translate (fm : FloatModel) (lane4 : Nat → Nat → Nat) (f : OpFuncs)
    (hf : f.cranp_op_circle ≠ f.cranp_op_translate)
    (fuel : Nat) (m m2 : Mem) (vm slotId inputs inputCount params : Nat)
    (h : cranp_op_translate fm lane4 m vm slotId inputs inputCount params = .ok m2) :
    (opsMachine fm lane4 f fuel).call
      (Invocation.mk f.cranp_op_translate vm slotId inputs inputCount params) (some m)
      = .ok (some m2) := by
  unfold opsMachine
  simp only
  rw [if_neg (Ne.symm hf), if_pos trivial, h]

/-- C13 (amended): when in addition the chunk size is a multiple of 16, so that slot 1
starts at or past the end of slot 0's chunk, the claim holds.  For every arena at `vm`
with at least 2 chunks that lies in the address space, every integral segment count
`3 ≤ n < 2 ^ 16` whose request `16 + 16 * (n + 1) + 6 * n` is within the chunk size, and
the linked two-operation program at `script` outside the arena: the circle alone returns
a memory `m1`, translate run on `m1` (so it reads exactly the circle's mesh) returns
`m2`, `cranp_vm_execute_script` on the program returns `m2`, and every byte of the mesh
in slot 0 is in `m2` what it is in `m1`. -/
theorem two_op_program_keeps_slot0 (fm : FloatModel) (hx : fm.Exact)
    (lane4 : Nat → Nat → Nat) (f : OpFuncs) (hf : f.cranp_op_circle ≠ f.cranp_op_translate)
    (fuel loopFuel : Nat) (m : Mem) (vm script n : Nat)
    (hn3 : 3 ≤ n) (hn16 : n < 2 ^ 16) (hfuel : n ≤ fuel)
    (hprog : TwoOpProgramAt m script f.cranp_op_circle f.cranp_op_translate)
    (hseg : load m (script + 48) 4 = f32OfNat n)
    (hcount : 2 ≤ (cranp_vm_get_allocator m vm).allocChunkCount)
    (hsize : 16 + 16 * (n + 1) + 6 * n ≤ (cranp_vm_get_allocator m vm).allocChunkSize)
    (halign : (cranp_vm_get_allocator m vm).allocChunkSize % 16 = 0)
    (harena : vm + 32 + 2 * (cranp_vm_get_allocator m vm).allocChunkSize < 2 ^ 63)
    (hscript : script + 76 ≤ vm
      ∨ vm + 32 + 2 * (cranp_vm_get_allocator m vm).allocChunkSize ≤ script)
    (hscript64 : script + 76 < 2 ^ 64) :
    ∃ g0 m1 m2,
      cranp_vm_get_chunk m vm 0 = .ok g0 ∧
      cranp_op_circle fm fuel m vm 0 (script + 36) 0 (script + 48) = some (.ok m1) ∧
      cranp_op_translate fm lane4 m1 vm 1 (script + 40) 1 (script + 60) = .ok m2 ∧
      cranp_vm_execute_script (opsMachine fm lane4 f fuel) loopFuel (some m) vm script
        = some (.ok (some m2)) ∧
      ∀ a, g0 ≤ a → a < g0 + (16 + 16 * (n + 1) + 6 * n) → m2 a = m1 a := by
  have hbuf : (cranp_vm_get_allocator m vm).buffer = vm + 16 :=
    advance_of_lt vm 16 (by omega)
  have hget0 := get_chunk_of_fits (cranp_vm_get_allocator m vm) 0 (by omega)
    (by rw [hbuf]; omega)
  have hget1 := get_chunk_of_fits (cranp_vm_get_allocator m vm) 1 (by omega)
    (by rw [hbuf]; omega)
  rw [hbuf] at hget0 hget1
  obtain ⟨cs, hcs⟩ : ∃ cs, (cranp_vm_get_allocator m vm).allocChunkSize = cs := ⟨_, rfl⟩
  rw [hcs] at hsize halign harena hscript hget0 hget1
  obtain ⟨g0, hg0⟩ : ∃ g0, vm + 16 + 0 * cs + 16 - (vm + 16 + 0 * cs) % 16 = g0 := ⟨_, rfl⟩
  obtain ⟨g1, hg1⟩ : ∃ g1, vm + 16 + 1 * cs + 16 - (vm + 16 + 1 * cs) % 16 = g1 := ⟨_, rfl⟩
  rw [hg0] at hget0
  rw [hg1] at hget1
  have hr0 : vm + 16 < g0 ∧ g0 ≤ vm + 32 ∧ g1 = g0 + cs := by omega
  clear hg0 hg1
  obtain ⟨hlo, hhi, hnext⟩ := hr0
  have hchunk0 : cranp_vm_get_chunk m vm 0 = .ok g0 := hget0
  have hchunk1 : cranp_vm_get_chunk m vm 1 = .ok g1 := hget1
  obtain ⟨m1, hrun1, hhead, hframe1⟩ := circle_run fm hx fuel m vm 0 (script + 36)
    (script + 48) n g0 hn3 hn16 hseg (by rw [hcs]; exact hsize) hchunk0 (by omega) hfuel
  have hal : cranp_vm_get_allocator m1 vm = cranp_vm_get_allocator m vm :=
    get_allocator_congr m m1 vm (by omega) (fun a ha hb => hframe1 a (by omega))
  have hprog1 : TwoOpProgramAt m1 script f.cranp_op_circle f.cranp_op_translate :=
    twoOpProgramAt_congr m m1 script _ _ (fun a ha hb => hframe1 a (by omega)) hprog
  have hin0 : load m1 (script + 40) 4 = 0 := hprog1.2.2.2.2.2.2.2.2.1
  have hc0 : cranp_vm_get_chunk m1 vm 0 = .ok g0 := by
    rw [get_chunk_congr m m1 vm 0 (by omega) (fun a ha hb => hframe1 a (by omega))]
    exact hchunk0
  have hc1 : cranp_vm_get_chunk m1 vm 1 = .ok g1 := by
    rw [get_chunk_congr m m1 vm 1 (by omega) (fun a ha hb => hframe1 a (by omega))]
    exact hchunk1
  obtain ⟨h1, h2, _, _⟩ := hhead
  obtain ⟨_, m2, hrun2, hframe2⟩ := translate_run fm lane4 m1 vm 1 (script + 40) (script + 60)
    g0 g1 (n + 1) n (by rw [h1]; exact hx.toUInt32_exact _ (by omega))
    (by rw [h2]; exact hx.toUInt32_exact _ (by omega)) (by omega)
    (by rw [hin0]; exact hc0) hc1 (by rw [hal, hcs]; exact hsize) (by omega)
  have hcall1 := opsMachine_call_circle fm lane4 f fuel m m1 vm 0 (script + 36) 0
    (script + 48) hrun1
  have hcall2 := opsMachine_call_translate fm lane4 f hf fuel m1 m2 vm 1 (script + 40) 1
    (script + 60) hrun2
  refine ⟨g0, m1, m2, hchunk0, hrun1, hrun2, ?_, fun a ha hb => hframe2 a (by omega)⟩
  exact execute_twoOpProgram (opsMachine fm lane4 f fuel) loopFuel (some m) (some m1)
    (some m2) vm script _ _ hscript64
    (by rw [opsMachine_mem]; exact hprog) hcall1 (by rw [opsMachine_mem]; exact hprog1) hcall2

set_option maxRecDepth 100000 in
/-- Witness of C13 (amended): the four-segment program next to an arena of 256 bytes in
2 chunks, so `chunkSize = 128`, a multiple of 16 that holds the request of 120 bytes. -/
theorem two_op_program_keeps_slot0_witness :
    ∃ g0 m1 m2,
      cranp_vm_get_chunk (fourSegmentProgramMem 256) 4096 0 = .ok g0 ∧
      cranp_op_circle natFloats 4 (fourSegmentProgramMem 256) 4096 0 (8192 + 36) 0 (8192 + 48)
        = some (.ok m1) ∧
      cranp_op_translate natFloats (fun _ _ => 0) m1 4096 1 (8192 + 40) 1 (8192 + 60)
        = .ok m2 ∧
      cranp_vm_execute_script (opsMachine natFloats (fun _ _ => 0) exampleFuncs 4) 0
        (some (fourSegmentProgramMem 256)) 4096 8192 = some (.ok (some m2)) ∧
      ∀ a, g0 ≤ a → a < g0 + (16 + 16 * (4 + 1) + 6 * 4) → m2 a = m1 a :=
  two_op_program_keeps_slot0 natFloats natFloats_exact (fun _ _ => 0) exampleFuncs
    (by decide) 4 0 (fourSegmentProgramMem 256) 4096 8192 4 (by decide) (by decide)
    (by decide) (by decide) (by decide) (by decide) (by decide) (by decide) (by decide)
    (by decide) (by decide)

/-! ## The test parser on the two-line script -/

theorem script_basic_is_twoLineScript :
    cranp_test_script_basic
      = twoLineScript ['1', '0', '0', '0', '0', '.', '0'] ['1', '0', '.', '0']
          ['1', '0', '.', '0'] ['1', '0', '.', '0'] ['1', '0', '.', '0']
          ['0', '.', '0', 'f'] := by
  decide

theorem atoi_zero (c : Char) (rest : List Char) (hc : c = ' ' ∨ c = ']') :
    atoi ('0' :: c :: rest) = .ok 0 := by
  rcases hc with h | h <;> subst h <;>
  simp [atoi, atoiDigits, isspace, List.dropWhile]

theorem toUInt32OfInt_zero : toUInt32OfInt 0 = 0 := by decide

theorem toUInt32OfInt_one : toUInt32OfInt 1 = 1 := by decide

theorem atoi_one (rest : List Char) : atoi ('1' :: ' ' :: rest) = .ok 1 := by
  simp [atoi, atoiDigits, isspace, List.dropWhile]

theorem parseLoop_cons_skip (atof : List Char → Nat) (c : Char) (rest : List Char)
    (v : ParserVars) (hc : c ≠ ' ' ∧ c ≠ '\n') :
    parseLoop atof (c :: rest) v = parseLoop atof rest v := by
  rw [parseLoop, if_neg (by simp [hc.1, hc.2])]

theorem parseLoop_skip (atof : List Char → Nat) (t : List Char) :
    ∀ (rest : List Char) (v : ParserVars), (∀ c ∈ t, c ≠ ' ' ∧ c ≠ '\n') →
      parseLoop atof (t ++ rest) v = parseLoop atof rest v := by
  induction t with
  | nil => intro rest v _; rfl
  | cons c t ih =>
    intro rest v h
    rw [List.cons_append, parseLoop_cons_skip atof c _ v (h c (List.mem_cons_self _ _))]
    exact ih rest v (fun d hd => h d (List.mem_cons_of_mem _ hd))

theorem parseLoop_token (atof : List Char → Nat) (c : Char) (rest : List Char)
    (v v2 : ParserVars) (hc : c = ' ' ∨ c = '\n')
    (h : parseToken atof (c :: rest) v = .ok v2) :
    parseLoop atof (c :: rest) v = parseLoop atof rest v2 := by
  rw [parseLoop, if_pos hc, h]

theorem matchOpName_self (iter : List Char) (name : List Char) :
    matchOpName iter name (name ++ iter) = ([], iter) := by
  induction name with
  | nil => rfl
  | cons c name ih =>
    rw [List.cons_append, matchOpName,
      if_pos (by simp only [List.length_cons, List.length_append]; omega),
      if_neg (by simp)]
    exact ih

theorem findOp_circle (iter : List Char) :
    findOp (['c', 'i', 'r', 'c', 'l', 'e'] ++ iter) iter cranp_test_script_ops 0 = 0 := by
  unfold cranp_test_script_ops
  rw [findOp]
  simp only [matchOpName_self]
  rw [if_pos ⟨trivial, trivial⟩]

theorem findOp_translate (iter : List Char) :
    findOp (['t', 'r', 'a', 'n', 's', 'l', 'a', 't', 'e'] ++ iter) iter
      cranp_test_script_ops 0 = 1 := by
  unfold cranp_test_script_ops
  have h : matchOpName iter ['c', 'i', 'r', 'c', 'l', 'e']
      (['t', 'r', 'a', 'n', 's', 'l', 'a', 't', 'e'] ++ iter)
      = (['c', 'i', 'r', 'c', 'l', 'e'], ['t', 'r', 'a', 'n', 's', 'l', 'a', 't', 'e'] ++ iter) := by
    rw [List.cons_append, matchOpName,
      if_pos (by simp only [List.length_cons, List.length_append]; omega),
      if_pos (by simp)]
  rw [findOp]
  simp only [h]
  rw [if_neg (by simp), findOp]
  simp only [matchOpName_self]
  rw [if_pos ⟨trivial, trivial⟩]

theorem parseToken_op (atof : List Char → Nat) (iter prev : List Char) (op : Nat)
    (ops ids ins ps : List Nat)
    (hop : findOp prev iter cranp_test_script_ops 0 = op)
    (hmax : op ≠ cranp_op_id_max) (hroom : ops.length < 100) :
    parseToken atof iter ⟨ops, ids, ins, ps, .cranp_parse_op, prev⟩
      = .ok ⟨ops ++ [op], ids, ins, ps, .cranp_parse_id, iter.tail⟩ := by
  simp only [parseToken, hop, hmax, hroom, ne_eq, not_false_eq_true, if_true]

theorem parseToken_id (atof : List Char → Nat) (iter prev : List Char) (id : Int)
    (ops ids ins ps : List Nat)
    (hid : atoi prev = .ok id) (hroom : ids.length < 100) :
    parseToken atof iter ⟨ops, ids, ins, ps, .cranp_parse_id, prev⟩
      = .ok ⟨ops, ids ++ [toUInt32OfInt id], ins, ps, .cranp_parse_inputs, iter.tail⟩ := by
  simp only [parseToken, hid, hroom, if_true]

theorem parseToken_inputs (atof : List Char → Nat) (iter prev : List Char)
    (found : List Nat) (ops ids ins ps : List Nat)
    (hopen : prev.headD (Char.ofNat 0) = '[')
    (hscan : scanInputs ins.length prev.tail prev.tail [] = .ok found)
    (hroom : ins.length < 100 * 2 + 1) :
    parseToken atof iter ⟨ops, ids, ins, ps, .cranp_parse_inputs, prev⟩
      = .ok ⟨ops, ids, ins ++ (found.length :: found), ps, .cranp_parse_params,
          iter.tail⟩ := by
  simp only [parseToken, hopen, hscan, hroom, if_true]

theorem parseToken_params (atof : List Char → Nat) (iter prev : List Char)
    (payload : List Nat) (ops ids ins ps : List Nat)
    (hopen : prev.headD (Char.ofNat 0) = '[')
    (hscan : scanParams atof ps.length prev.tail prev.tail [] = .ok payload)
    (hroom : ps.length + sizeof_uint32_t ≤ sizeof_uint32_t * 100 * 2) :
    parseToken atof iter ⟨ops, ids, ins, ps, .cranp_parse_params, prev⟩
      = .ok ⟨ops, ids, ins, ps ++ (leBytes 4 (payload.length + sizeof_uint32_t) ++ payload),
          .cranp_parse_op, iter.tail⟩ := by
  simp only [parseToken, hopen, hscan, hroom, if_true]

/-- The parser on an operation name followed by a blank. -/
theorem parseLoop_op (atof : List Char → Nat) (name : List Char) (op : Nat)
    (rest : List Char) (ops ids ins ps : List Nat)
    (hname : ∀ c ∈ name, c ≠ ' ' ∧ c ≠ '\n')
    (hop : findOp (name ++ ' ' :: rest) (' ' :: rest) cranp_test_script_ops 0 = op)
    (hmax : op ≠ cranp_op_id_max) (hroom : ops.length < 100) :
    parseLoop atof (name ++ ' ' :: rest)
      ⟨ops, ids, ins, ps, .cranp_parse_op, name ++ ' ' :: rest⟩
    = parseLoop atof rest ⟨ops ++ [op], ids, ins, ps, .cranp_parse_id, rest⟩ := by
  rw [parseLoop_skip atof name _ _ hname]
  exact parseLoop_token atof ' ' rest _ _ (Or.inl rfl)
    (parseToken_op atof _ _ op ops ids ins ps hop hmax hroom)

/-- The parser on a slot id, one digit followed by a blank. -/
theorem parseLoop_id (atof : List Char → Nat) (d : Char) (id : Int)
    (rest : List Char) (ops ids ins ps : List Nat)
    (hd : d ≠ ' ' ∧ d ≠ '\n') (hid : atoi (d :: ' ' :: rest) = .ok id)
    (hroom : ids.length < 100) :
    parseLoop atof (d :: ' ' :: rest)
      ⟨ops, ids, ins, ps, .cranp_parse_id, d :: ' ' :: rest⟩
    = parseLoop atof rest
        ⟨ops, ids ++ [toUInt32OfInt id], ins, ps, .cranp_parse_inputs, rest⟩ := by
  rw [parseLoop_cons_skip atof d _ _ hd]
  exact parseLoop_token atof ' ' rest _ _ (Or.inl rfl)
    (parseToken_id atof _ _ id ops ids ins ps hid hroom)

/-- The parser on the empty input list `[]` followed by a blank. -/
theorem parseLoop_inputs_none (atof : List Char → Nat)
    (rest : List Char) (ops ids ins ps : List Nat) (hroom : ins.length < 201) :
    parseLoop atof ('[' :: ']' :: ' ' :: rest)
      ⟨ops, ids, ins, ps, .cranp_parse_inputs, '[' :: ']' :: ' ' :: rest⟩
    = parseLoop atof rest ⟨ops, ids, ins ++ [0], ps, .cranp_parse_params, rest⟩ := by
  rw [parseLoop_cons_skip atof '[' _ _ (by decide),
    parseLoop_cons_skip atof ']' _ _ (by decide)]
  have hs : scanInputs ins.length (']' :: ' ' :: rest) (']' :: ' ' :: rest) [] = .ok [] := by
    rw [scanInputs, if_neg (by simp), if_pos rfl]
  exact parseLoop_token atof ' ' rest _ _ (Or.inl rfl)
    (parseToken_inputs atof _ _ [] ops ids ins ps rfl hs (by omega))

/-- The parser on the input list `[0]` followed by a blank. -/
theorem parseLoop_inputs_zero (atof : List Char → Nat)
    (rest : List Char) (ops ids ins ps : List Nat) (hroom : ins.length + 1 < 201) :
    parseLoop atof ('[' :: '0' :: ']' :: ' ' :: rest)
      ⟨ops, ids, ins, ps, .cranp_parse_inputs, '[' :: '0' :: ']' :: ' ' :: rest⟩
    = parseLoop atof rest ⟨ops, ids, ins ++ [1, 0], ps, .cranp_parse_params, rest⟩ := by
  rw [parseLoop_cons_skip atof '[' _ _ (by decide),
    parseLoop_cons_skip atof '0' _ _ (by decide),
    parseLoop_cons_skip atof ']' _ _ (by decide)]
  have hs : scanInputs ins.length ('0' :: ']' :: ' ' :: rest) ('0' :: ']' :: ' ' :: rest) []
      = .ok [0] := by
    rw [scanInputs, if_neg (by simp), if_neg (by decide), scanInputs, if_pos (by simp),
      atoi_zero ']' _ (Or.inr rfl)]
    simp only [List.length_nil, Nat.add_zero]
    rw [if_pos (by omega), if_pos trivial, toUInt32OfInt_zero]
    rfl
  exact parseLoop_token atof ' ' rest _ _ (Or.inl rfl)
    (parseToken_inputs atof _ _ [0] ops ids ins ps rfl hs (by omega))

theorem scanParams_skip (atof : List Char → Nat) (pws : Nat) (t : List Char) :
    ∀ (tail last : List Char) (payload : List Nat), (∀ c ∈ t, c ≠ ',' ∧ c ≠ ']') →
      scanParams atof pws (t ++ tail) last payload = scanParams atof pws tail last payload := by
  induction t with
  | nil => intro tail last payload _; rfl
  | cons c t ih =>
    intro tail last payload h
    have hc := h c (List.mem_cons_self _ _)
    rw [List.cons_append, scanParams, if_neg (by simp [hc.1, hc.2])]
    exact ih tail last payload (fun d hd => h d (List.mem_cons_of_mem _ hd))

theorem scanParams_comma (atof : List Char → Nat) (pws : Nat) (tail last : List Char)
    (payload : List Nat) (hroom : pws + payload.length + 8 ≤ 800) :
    scanParams atof pws (',' :: tail) last payload
      = scanParams atof pws tail tail (payload ++ leBytes 4 (atof last)) := by
  rw [scanParams, if_pos (Or.inl rfl),
    if_pos (by simp only [sizeof_uint32_t]; omega), if_neg (by decide)]

theorem scanParams_close (atof : List Char → Nat) (pws : Nat) (tail last : List Char)
    (payload : List Nat) (hroom : pws + payload.length + 8 ≤ 800) :
    scanParams atof pws (']' :: tail) last payload
      = .ok (payload ++ leBytes 4 (atof last)) := by
  rw [scanParams, if_pos (Or.inr rfl),
    if_pos (by simp only [sizeof_uint32_t]; omega), if_pos rfl]

/-- The parser on a parameter list of two numerals followed by a newline. -/
theorem parseLoop_params2 (atof : List Char → Nat) (ns rs rest : List Char)
    (ops ids ins ps : List Nat) (hns : plainNumeral ns) (hrs : plainNumeral rs)
    (hroom : ps.length + 12 ≤ 800) :
    parseLoop atof ('[' :: (ns ++ ',' :: (rs ++ ']' :: '\n' :: rest)))
      ⟨ops, ids, ins, ps, .cranp_parse_params,
        '[' :: (ns ++ ',' :: (rs ++ ']' :: '\n' :: rest))⟩
    = parseLoop atof rest
        ⟨ops, ids, ins,
          ps ++ (leBytes 4 12 ++ (leBytes 4 (atof (ns ++ ',' :: (rs ++ ']' :: '\n' :: rest)))
            ++ leBytes 4 (atof (rs ++ ']' :: '\n' :: rest)))),
          .cranp_parse_op, rest⟩ := by
  rw [parseLoop_cons_skip atof '[' _ _ (by decide),
    parseLoop_skip atof ns _ _ (fun c hc => ⟨(hns c hc).1, (hns c hc).2.1⟩),
    parseLoop_cons_skip atof ',' _ _ (by decide),
    parseLoop_skip atof rs _ _ (fun c hc => ⟨(hrs c hc).1, (hrs c hc).2.1⟩),
    parseLoop_cons_skip atof ']' _ _ (by decide)]
  have hs : scanParams atof ps.length (ns ++ ',' :: (rs ++ ']' :: '\n' :: rest))
      (ns ++ ',' :: (rs ++ ']' :: '\n' :: rest)) []
      = .ok (leBytes 4 (atof (ns ++ ',' :: (rs ++ ']' :: '\n' :: rest)))
          ++ leBytes 4 (atof (rs ++ ']' :: '\n' :: rest))) := by
    rw [scanParams_skip atof _ ns _ _ _ (fun c hc => ⟨(hns c hc).2.2.1, (hns c hc).2.2.2⟩),
      scanParams_comma atof _ _ _ _ (by simp only [List.length_nil]; omega),
      scanParams_skip atof _ rs _ _ _ (fun c hc => ⟨(hrs c hc).2.2.1, (hrs c hc).2.2.2⟩),
      scanParams_close atof _ _ _ _
        (by simp only [List.nil_append, leBytes_length]; omega)]
    rfl
  have ht := parseToken_params atof ('\n' :: rest)
    ('[' :: (ns ++ ',' :: (rs ++ ']' :: '\n' :: rest))) _ ops ids ins ps rfl hs
    (by simp only [sizeof_uint32_t]; omega)
  rw [List.length_append, leBytes_length, leBytes_length] at ht
  exact parseLoop_token atof '\n' rest _ _ (Or.inr rfl) ht

/-- The parser on a parameter list of four numerals followed by a newline. -/
theorem parseLoop_params4 (atof : List Char → Nat) (xs ys zs ws rest : List Char)
    (ops ids ins ps : List Nat) (hxs : plainNumeral xs) (hys : plainNumeral ys)
    (hzs : plainNumeral zs) (hws : plainNumeral ws)
    (hroom : ps.length + 20 ≤ 800) :
    parseLoop atof
      ('[' :: (xs ++ ',' :: (ys ++ ',' :: (zs ++ ',' :: (ws ++ ']' :: '\n' :: rest)))))
      ⟨ops, ids, ins, ps, .cranp_parse_params,
        '[' :: (xs ++ ',' :: (ys ++ ',' :: (zs ++ ',' :: (ws ++ ']' :: '\n' :: rest))))⟩
    = parseLoop atof rest
        ⟨ops, ids, ins,
          ps ++ (leBytes 4 20 ++
            (leBytes 4 (atof (xs ++ ',' :: (ys ++ ',' :: (zs ++ ',' ::
              (ws ++ ']' :: '\n' :: rest)))))
            ++ leBytes 4 (atof (ys ++ ',' :: (zs ++ ',' :: (ws ++ ']' :: '\n' :: rest))))
            ++ leBytes 4 (atof (zs ++ ',' :: (ws ++ ']' :: '\n' :: rest)))
            ++ leBytes 4 (atof (ws ++ ']' :: '\n' :: rest)))),
          .cranp_parse_op, rest⟩ := by
  rw [parseLoop_cons_skip atof '[' _ _ (by decide),
    parseLoop_skip atof xs _ _ (fun c hc => ⟨(hxs c hc).1, (hxs c hc).2.1⟩),
    parseLoop_cons_skip atof ',' _ _ (by decide),
    parseLoop_skip atof ys _ _ (fun c hc => ⟨(hys c hc).1, (hys c hc).2.1⟩),
    parseLoop_cons_skip atof ',' _ _ (by decide),
    parseLoop_skip atof zs _ _ (fun c hc => ⟨(hzs c hc).1, (hzs c hc).2.1⟩),
    parseLoop_cons_skip atof ',' _ _ (by decide),
    parseLoop_skip atof ws _ _ (fun c hc => ⟨(hws c hc).1, (hws c hc).2.1⟩),
    parseLoop_cons_skip atof ']' _ _ (by decide)]
  have hs : scanParams atof ps.length
      (xs ++ ',' :: (ys ++ ',' :: (zs ++ ',' :: (ws ++ ']' :: '\n' :: rest))))
      (xs ++ ',' :: (ys ++ ',' :: (zs ++ ',' :: (ws ++ ']' :: '\n' :: rest)))) []
      = .ok (leBytes 4 (atof (xs ++ ',' :: (ys ++ ',' :: (zs ++ ',' ::
              (ws ++ ']' :: '\n' :: rest)))))
            ++ leBytes 4 (atof (ys ++ ',' :: (zs ++ ',' :: (ws ++ ']' :: '\n' :: rest))))
            ++ leBytes 4 (atof (zs ++ ',' :: (ws ++ ']' :: '\n' :: rest)))
            ++ leBytes 4 (atof (ws ++ ']' :: '\n' :: rest))) := by
    rw [scanParams_skip atof _ xs _ _ _ (fun c hc => ⟨(hxs c hc).2.2.1, (hxs c hc).2.2.2⟩),
      scanParams_comma atof _ _ _ _ (by simp only [List.length_nil]; omega),
      scanParams_skip atof _ ys _ _ _ (fun c hc => ⟨(hys c hc).2.2.1, (hys c hc).2.2.2⟩),
      scanParams_comma atof _ _ _ _
        (by simp only [List.nil_append, leBytes_length]; omega),
      scanParams_skip atof _ zs _ _ _ (fun c hc => ⟨(hzs c hc).2.2.1, (hzs c hc).2.2.2⟩),
      scanParams_comma atof _ _ _ _
        (by simp only [List.nil_append, List.length_append, leBytes_length]; omega),
      scanParams_skip atof _ ws _ _ _ (fun c hc => ⟨(hws c hc).2.2.1, (hws c hc).2.2.2⟩),
      scanParams_close atof _ _ _ _
        (by simp only [List.nil_append, List.length_append, leBytes_length]; omega)]
    rfl
  have ht := parseToken_params atof ('\n' :: rest)
    ('[' :: (xs ++ ',' :: (ys ++ ',' :: (zs ++ ',' :: (ws ++ ']' :: '\n' :: rest))))) _
    ops ids ins ps rfl hs
    (by simp only [sizeof_uint32_t]; omega)
  simp only [List.length_append, leBytes_length] at ht
  exact parseLoop_token atof '\n' rest _ _ (Or.inr rfl) ht

/-- The parser on the two-line script: it returns, and the program it lays out is the
one of the two records, with input counts 0 and 1, ids `cranp_op_id_circle` and
`cranp_op_id_translate`, output slots 0 and 1, and `atof`'s value of the first numeral
as the first parameter. -/
theorem parse_twoLineScript (atof : List Char → Nat) (m : Mem) (scriptBuffer n : Nat)
    (ns rs xs ys zs ws : List Char)
    (hns : plainNumeral ns) (hrs : plainNumeral rs) (hxs : plainNumeral xs)
    (hys : plainNumeral ys) (hzs : plainNumeral zs) (hws : plainNumeral ws)
    (hn : ∀ tail, atof (ns ++ ',' :: tail) = n) :
    ∃ r x y z w, cranp_test_parse_script atof m scriptBuffer (twoLineScript ns rs xs ys zs ws)
      = .ok (assembled m scriptBuffer (twoLineRecords n r x y z w)) := by
  refine ⟨atof (rs ++ ']' :: '\n' ::
      (['t', 'r', 'a', 'n', 's', 'l', 'a', 't', 'e'] ++ ' ' :: '1' :: ' ' :: '[' :: '0' ::
        ']' :: ' ' :: '[' ::
        (xs ++ ',' :: (ys ++ ',' :: (zs ++ ',' :: (ws ++ [']', '\n'])))))),
    atof (xs ++ ',' :: (ys ++ ',' :: (zs ++ ',' :: (ws ++ [']', '\n'])))),
    atof (ys ++ ',' :: (zs ++ ',' :: (ws ++ [']', '\n']))),
    atof (zs ++ ',' :: (ws ++ [']', '\n'])),
    atof (ws ++ [']', '\n']), ?_⟩
  unfold cranp_test_parse_script twoLineScript
  rw [parseLoop_op atof _ 0 _ _ _ _ _ (by decide) (findOp_circle _) (by decide) (by decide),
    parseLoop_id atof '0' 0 _ _ _ _ _ (by decide) (atoi_zero ' ' _ (Or.inl rfl)) (by decide),
    parseLoop_inputs_none atof _ _ _ _ _ (by decide),
    parseLoop_params2 atof ns rs _ _ _ _ _ hns hrs (by decide),
    parseLoop_op atof _ 1 _ _ _ _ _ (by decide) (findOp_translate _) (by decide) (by decide),
    parseLoop_id atof '1' 1 _ _ _ _ _ (by decide) (atoi_one _) (by decide),
    parseLoop_inputs_zero atof _ _ _ _ _ (by decide),
    parseLoop_params4 atof xs ys zs ws [] _ _ _ _ hxs hys hzs hws
      (by simp only [List.nil_append, List.length_append, leBytes_length]; omega)]
  rw [parseLoop]
  simp only [hn, toUInt32OfInt_zero, toUInt32OfInt_one, List.nil_append, List.cons_append,
    List.length_cons, List.length_nil, le_refl, if_true]
  simp only [assembled, twoLineRecords, opChunkOf, opIdChunkOf, inputChunkOf, paramChunkOf,
    List.map, List.length_cons, List.length_nil, List.length_append, leBytes_length,
    List.append_nil, List.nil_append, List.cons_append, List.append_assoc, sizeof_uint32_t,
    cranp_op_id_circle, cranp_op_id_translate]

/-! ## The parsed program in memory, linked and run -/

theorem twoLineRecords_fits (n r x y z w : Nat) :
    ∀ rec ∈ twoLineRecords n r x y z w, rec.fits := by
  intro rec hrec
  simp only [twoLineRecords, List.mem_cons, List.mem_singleton, List.not_mem_nil,
    or_false] at hrec
  rcases hrec with h | h <;> subst h
  · refine ⟨?_, ?_, ?_, ?_, ?_, ?_⟩
    · simp only [cranp_op_id_circle]; norm_num
    · norm_num
    · simp only [List.length_nil]; norm_num
    · intro a ha; simp at ha
    · simp only [List.length_append, leBytes_length]; norm_num
    · intro b hb
      simp only [List.mem_append] at hb
      rcases hb with hb | hb <;> exact leBytes_lt _ _ b hb
  · refine ⟨?_, ?_, ?_, ?_, ?_, ?_⟩
    · simp only [cranp_op_id_translate]; norm_num
    · norm_num
    · simp only [List.length_cons, List.length_nil]; norm_num
    · intro a ha
      simp only [List.mem_singleton] at ha
      subst ha; norm_num
    · simp only [List.length_append, leBytes_length]; norm_num
    · intro b hb
      simp only [List.mem_append] at hb
      rcases hb with hb | hb | hb | hb <;> exact leBytes_lt _ _ b hb

/-- A memory that holds the four sections of the two records holds the two-operation
program, and its first parameter is the first payload word. -/
theorem twoOpProgramAt_of_layout (mp : Mem) (script n r : Nat) (rest : List Nat)
    (h1 : load mp script 4 = 2)
    (h2 : bytesAt mp (script + 4) (wordBytes 8 [0, 1]))
    (h3 : bytesAt mp (script + 20) (wordBytes 4 [0, 1]))
    (h4 : load mp (script + 28) 4 = 16)
    (h5 : bytesAt mp (script + 32) (wordBytes 4 [0, 1, 0]))
    (h6 : bytesAt mp (script + 44)
      (leBytes 4 12 ++ (leBytes 4 n ++ (leBytes 4 r ++ (leBytes 4 20 ++ rest))))) :
    TwoOpProgramAt mp script 0 1 ∧ load mp (script + 48) 4 = n % 2 ^ 32 := by
  have o0 := load_of_wordBytes mp 8 _ _ h2 0 (by simp)
  have o1 := load_of_wordBytes mp 8 _ _ h2 1 (by simp)
  have s0 := load_of_wordBytes mp 4 _ _ h3 0 (by simp)
  have s1 := load_of_wordBytes mp 4 _ _ h3 1 (by simp)
  have i0 := load_of_wordBytes mp 4 _ _ h5 0 (by simp)
  have i1 := load_of_wordBytes mp 4 _ _ h5 1 (by simp)
  have i2 := load_of_wordBytes mp 4 _ _ h5 2 (by simp)
  rw [bytesAt_append, bytesAt_append, bytesAt_append, bytesAt_append] at h6
  obtain ⟨p0, p1, _, p2, _⟩ := h6
  have q0 := load_of_bytesAt mp _ 4 _ p0
  have q1 := load_of_bytesAt mp _ 4 _ p1
  have q2 := load_of_bytesAt mp _ 4 _ p2
  simp only [leBytes_length] at q1 q2
  norm_num at o0 o1 s0 s1 i0 i1 i2 q0 q1 q2
  exact ⟨⟨h1, o0, o1, s0, s1, h4, i0, i1, i2, q0, q2⟩, q1⟩

theorem assembled_twoLineRecords_frame (m : Mem) (script n r x y z w : Nat) :
    ∀ a, a < script ∨ script + 76 ≤ a →
      assembled m script (twoLineRecords n r x y z w) a = m a := by
  intro a ha
  simp only [assembled, cranp_test_assemble, twoLineRecords, opChunkOf, opIdChunkOf,
    inputChunkOf, paramChunkOf, List.map, List.length_cons, List.length_nil,
    List.length_append, leBytes_length, sizeof_uint32_t, sizeof_cranp_opf_t]
  rw [writeBytes_outside _ _ _ _ (by
      simp only [List.length_append, leBytes_length, List.length_nil]; omega),
    writeBytes_outside _ _ _ _ (by
      simp only [wordBytes, List.length_append, leBytes_length, List.length_nil]; omega),
    store_outside _ _ _ _ _ (by omega),
    writeBytes_outside _ _ _ _ (by
      simp only [wordBytes, List.take, List.length_append, leBytes_length,
        List.length_nil]; omega),
    writeBytes_outside _ _ _ _ (by
      simp only [wordBytes, List.take, List.length_append, leBytes_length,
        List.length_nil]; omega),
    store_outside _ _ _ _ _ (by omega)]

/-- The program assembled from the two records is the two-operation program with the
ids of circle and translate, and its first parameter is the segment count. -/
theorem twoOpProgramAt_assembled (m : Mem) (script n r x y z w : Nat) (hn : n < 2 ^ 32) :
    TwoOpProgramAt (assembled m script (twoLineRecords n r x y z w)) script
      cranp_op_id_circle cranp_op_id_translate ∧
    load (assembled m script (twoLineRecords n r x y z w)) (script + 48) 4 = n := by
  obtain ⟨h1, h2, h3, h4, h5, h6⟩ := assembled_layout m script (twoLineRecords n r x y z w)
    (by simp [twoLineRecords]) (by simp [twoLineRecords, inputChunkOf])
    (paramChunkOf_lt _ (twoLineRecords_fits n r x y z w))
  obtain ⟨mp, hmp⟩ : ∃ mp, assembled m script (twoLineRecords n r x y z w) = mp := ⟨_, rfl⟩
  rw [hmp] at h1 h2 h3 h4 h5 h6 ⊢
  clear hmp
  simp only [twoLineRecords, List.length_cons, List.length_nil, opChunkOf, opIdChunkOf,
    inputChunkOf, paramChunkOf, inputStreamStart, paramStreamStart, List.map,
    List.length_append, List.append_nil, List.nil_append, List.cons_append,
    List.append_assoc, leBytes_length, sizeof_uint32_t, cranp_op_id_circle,
    cranp_op_id_translate] at h1 h2 h3 h4 h5 h6
  norm_num at h1 h4 h5 h6
  have h := twoOpProgramAt_of_layout mp script n r _ h1 h2
    (bytesAt_of_eq _ _ _ _ (by omega) h3) (by rw [← h4])
    (bytesAt_of_eq _ _ _ _ (by omega) h5) (bytesAt_of_eq _ _ _ _ (by omega) h6)
  rw [Nat.mod_eq_of_lt hn] at h
  exact h

/-- Linking the two-operation program: the two ids become the two callables and nothing
else changes. -/
theorem link_twoOpProgram (f : OpFuncs)
    (hf : f.cranp_op_circle < 2 ^ 64 ∧ f.cranp_op_translate < 2 ^ 64)
    (mp : Mem) (script : Nat) (hfit : script + 76 < 2 ^ 64)
    (hp : TwoOpProgramAt mp script cranp_op_id_circle cranp_op_id_translate) :
    ∃ ml, cranp_init_script (cranp_init f) mp script = .ok ml ∧
      TwoOpProgramAt ml script f.cranp_op_circle f.cranp_op_translate ∧
      ∀ a, a < script + 4 ∨ script + 20 ≤ a → ml a = mp a := by
  obtain ⟨h1, h2, h3, h4, h5, h6, h7, h8, h9, h10, h11⟩ := hp
  have htab : ∀ k, k < (cranp_init f).length → (cranp_init f).getD k 0 < 2 ^ 64 := by
    intro k hk
    rw [init_table] at hk ⊢
    simp only [List.length_cons, List.length_nil] at hk
    have : k = 0 ∨ k = 1 := by omega
    rcases this with h | h <;> subst h
    · exact hf.1
    · exact hf.2
  have hids : ∀ k, 0 ≤ k → k < 0 + 2 → load mp (script + 4 + k * 8) 8 < cranp_op_id_max := by
    intro k _ hk
    have : k = 0 ∨ k = 1 := by omega
    rcases this with h | h <;> subst h
    · rw [show script + 4 + 0 * 8 = script + 4 from rfl, h2]; decide
    · rw [show script + 4 + 1 * 8 = script + 12 from rfl, h3]; decide
  obtain ⟨ml, hrun, hent, hframe⟩ := init_script_loop_spec (cranp_init f) (script + 4) 2 0 mp
    (by omega) htab hids
  have e : ∀ a0 w, (a0 + w ≤ script + 4 ∨ script + 20 ≤ a0) → load ml a0 w = load mp a0 w :=
    fun a0 w h => load_congr _ _ _ _ (fun a ha hb => hframe a (by omega))
  have e0 := hent 0 (le_refl _) (by omega)
  have e1 := hent 1 (by omega) (by omega)
  rw [show script + 4 + 0 * 8 = script + 4 from rfl, h2, init_table] at e0
  rw [show script + 4 + 1 * 8 = script + 12 from rfl, h3, init_table] at e1
  refine ⟨ml, ?_, ⟨?_, e0, e1, ?_, ?_, ?_, ?_, ?_, ?_, ?_, ?_⟩, fun a ha => hframe a (by omega)⟩
  · unfold cranp_init_script
    simp only [h1, sizeof_uint32_t]
    rw [advance_of_lt script 4 (by omega)]
    exact hrun
  · rw [e _ _ (by omega)]; exact h1
  · rw [e _ _ (by omega)]; exact h4
  · rw [e _ _ (by omega)]; exact h5
  · rw [e _ _ (by omega)]; exact h6
  · rw [e _ _ (by omega)]; exact h7
  · rw [e _ _ (by omega)]; exact h8
  · rw [e _ _ (by omega)]; exact h9
  · rw [e _ _ (by omega)]; exact h10
  · rw [e _ _ (by omega)]; exact h11

/-- The two-operation program on an arena that holds the request: the circle returns,
translate finds in slot 0 a header that makes it request the same size, and returns; so
does the interpreter. -/
theorem two_op_program_runs (fm : FloatModel) (hx : fm.Exact)
    (lane4 : Nat → Nat → Nat) (f : OpFuncs) (hf : f.cranp_op_circle ≠ f.cranp_op_translate)
    (fuel loopFuel : Nat) (m : Mem) (vm script n : Nat)
    (hn3 : 3 ≤ n) (hn16 : n < 2 ^ 16) (hfuel : n ≤ fuel)
    (hprog : TwoOpProgramAt m script f.cranp_op_circle f.cranp_op_translate)
    (hseg : load m (script + 48) 4 = f32OfNat n)
    (hcount : 2 ≤ (cranp_vm_get_allocator m vm).allocChunkCount)
    (hsize : 16 + 16 * (n + 1) + 6 * n ≤ (cranp_vm_get_allocator m vm).allocChunkSize)
    (harena : vm + 32 + 2 * (cranp_vm_get_allocator m vm).allocChunkSize < 2 ^ 63)
    (hscript : script + 76 ≤ vm
      ∨ vm + 32 + 2 * (cranp_vm_get_allocator m vm).allocChunkSize ≤ script)
    (hscript64 : script + 76 < 2 ^ 64) :
    ∃ g0 m1 m2,
      cranp_op_circle fm fuel m vm 0 (script + 36) 0 (script + 48) = some (.ok m1) ∧
      cranp_vm_get_chunk m1 vm 0 = .ok g0 ∧
      translateAllocSize fm (load_vec m1 g0) = 16 + 16 * (n + 1) + 6 * n ∧
      cranp_op_translate fm lane4 m1 vm 1 (script + 40) 1 (script + 60) = .ok m2 ∧
      cranp_vm_execute_script (opsMachine fm lane4 f fuel) loopFuel (some m) vm script
        = some (.ok (some m2)) := by
  have hbuf : (cranp_vm_get_allocator m vm).buffer = vm + 16 :=
    advance_of_lt vm 16 (by omega)
  have hget0 := get_chunk_of_fits (cranp_vm_get_allocator m vm) 0 (by omega)
    (by rw [hbuf]; omega)
  have hget1 := get_chunk_of_fits (cranp_vm_get_allocator m vm) 1 (by omega)
    (by rw [hbuf]; omega)
  rw [hbuf] at hget0 hget1
  obtain ⟨cs, hcs⟩ : ∃ cs, (cranp_vm_get_allocator m vm).allocChunkSize = cs := ⟨_, rfl⟩
  rw [hcs] at hsize harena hscript hget0 hget1
  obtain ⟨g0, hg0⟩ : ∃ g0, vm + 16 + 0 * cs + 16 - (vm + 16 + 0 * cs) % 16 = g0 := ⟨_, rfl⟩
  obtain ⟨g1, hg1⟩ : ∃ g1, vm + 16 + 1 * cs + 16 - (vm + 16 + 1 * cs) % 16 = g1 := ⟨_, rfl⟩
  rw [hg0] at hget0
  rw [hg1] at hget1
  have hr0 : vm + 16 < g0 ∧ g0 ≤ vm + 32 ∧ g1 ≤ vm + 32 + cs := by omega
  clear hg0 hg1
  obtain ⟨hlo, hhi, hnext⟩ := hr0
  have hchunk0 : cranp_vm_get_chunk m vm 0 = .ok g0 := hget0
  have hchunk1 : cranp_vm_get_chunk m vm 1 = .ok g1 := hget1
  obtain ⟨m1, hrun1, hhead, hframe1⟩ := circle_run fm hx fuel m vm 0 (script + 36)
    (script + 48) n g0 hn3 hn16 hseg (by rw [hcs]; exact hsize) hchunk0 (by omega) hfuel
  have hal : cranp_vm_get_allocator m1 vm = cranp_vm_get_allocator m vm :=
    get_allocator_congr m m1 vm (by omega) (fun a ha hb => hframe1 a (by omega))
  have hprog1 : TwoOpProgramAt m1 script f.cranp_op_circle f.cranp_op_translate :=
    twoOpProgramAt_congr m m1 script _ _ (fun a ha hb => hframe1 a (by omega)) hprog
  have hin0 : load m1 (script + 40) 4 = 0 := hprog1.2.2.2.2.2.2.2.2.1
  have hc0 : cranp_vm_get_chunk m1 vm 0 = .ok g0 := by
    rw [get_chunk_congr m m1 vm 0 (by omega) (fun a ha hb => hframe1 a (by omega))]
    exact hchunk0
  have hc1 : cranp_vm_get_chunk m1 vm 1 = .ok g1 := by
    rw [get_chunk_congr m m1 vm 1 (by omega) (fun a ha hb => hframe1 a (by omega))]
    exact hchunk1
  obtain ⟨h1, h2, _, _⟩ := hhead
  obtain ⟨hreq, m2, hrun2, _⟩ := translate_run fm lane4 m1 vm 1 (script + 40) (script + 60)
    g0 g1 (n + 1) n (by rw [h1]; exact hx.toUInt32_exact _ (by omega))
    (by rw [h2]; exact hx.toUInt32_exact _ (by omega)) (by omega)
    (by rw [hin0]; exact hc0) hc1 (by rw [hal, hcs]; exact hsize) (by omega)
  have hcall1 := opsMachine_call_circle fm lane4 f fuel m m1 vm 0 (script + 36) 0
    (script + 48) hrun1
  have hcall2 := opsMachine_call_translate fm lane4 f hf fuel m1 m2 vm 1 (script + 40) 1
    (script + 60) hrun2
  refine ⟨g0, m1, m2, hrun1, hc0, hreq, hrun2, ?_⟩
  exact execute_twoOpProgram (opsMachine fm lane4 f fuel) loopFuel (some m) (some m1)
    (some m2) vm script _ _ hscript64
    (by rw [opsMachine_mem]; exact hprog) hcall1 (by rw [opsMachine_mem]; exact hprog1) hcall2

/-! ## Parsing, linking and executing the two-line script -/

theorem vm_buffer_create_ok (m : Mem) (buffer memorySize chunkCount : Nat)
    (hc : chunkCount ≠ 0) (hc64 : chunkCount < 2 ^ 64) (hm : memorySize < 2 ^ 64)
    (hb : buffer + 16 < 2 ^ 64) :
    ∃ ma, cranp_vm_buffer_create m buffer memorySize chunkCount = .ok (buffer, ma) ∧
      cranp_vm_get_allocator ma buffer
        = { allocChunkCount := chunkCount
            allocChunkSize := memorySize / chunkCount
            buffer := buffer + 16 } := by
  cases hcr : cranp_allocator_buffer_create m buffer memorySize chunkCount with
  | error e =>
    unfold cranp_allocator_buffer_create at hcr
    simp [hc] at hcr
  | ok ma =>
    refine ⟨ma, ?_, ?_⟩
    · unfold cranp_vm_buffer_create
      rw [hcr]
    · exact view_after_create m ma buffer memorySize chunkCount hb hc64 hm hcr

theorem vm_buffer_size_ok (memorySize chunkCount : Nat) (hc : chunkCount ≠ 0)
    (hm : memorySize % 16 = 0) :
    ∃ size, cranp_vm_buffer_size memorySize chunkCount = .ok size := by
  unfold cranp_vm_buffer_size cranp_allocator_buffer_size cranp_alignment
  rw [if_pos hm, if_neg hc]
  exact ⟨_, rfl⟩

theorem test_run_of_stages (atof : List Char → Nat) (fm : FloatModel)
    (lane4 : Nat → Nat → Nat) (f : OpFuncs) (fuel loopFuel : Nat) (m ma mp ml m2 : Mem)
    (buffer memorySize chunkCount scriptBuffer size : Nat) (text : List Char)
    (h1 : cranp_vm_buffer_size memorySize chunkCount = .ok size)
    (h2 : cranp_vm_buffer_create m buffer memorySize chunkCount = .ok (buffer, ma))
    (h3 : cranp_test_parse_script atof ma scriptBuffer text = .ok mp)
    (h4 : cranp_init_script (cranp_init f) mp scriptBuffer = .ok ml)
    (h5 : cranp_vm_execute_script (opsMachine fm lane4 f fuel) loopFuel (some ml) buffer
      scriptBuffer = some (.ok (some m2))) :
    cranp_test_run atof fm lane4 f fuel loopFuel m buffer memorySize chunkCount scriptBuffer
      text = some (.ok m2) := by
  unfold cranp_test_run
  rw [h1]
  simp only
  rw [h2]
  simp only
  rw [h3]
  simp only
  rw [h4]
  simp only
  rw [h5]

/-- The stages of the test before execution, on the two-line script: the arena is
created, the script is parsed into the two-operation program with the ids of circle and
translate, and linked; the first parameter is `atof`'s value of the first numeral and
the arena header is intact. -/
theorem parse_link_stages (atof : List Char → Nat) (f : OpFuncs)
    (hf64 : f.cranp_op_circle < 2 ^ 64 ∧ f.cranp_op_translate < 2 ^ 64)
    (m : Mem) (buffer memorySize chunkCount scriptBuffer n : Nat)
    (ns rs xs ys zs ws : List Char)
    (hns : plainNumeral ns) (hrs : plainNumeral rs) (hxs : plainNumeral xs)
    (hys : plainNumeral ys) (hzs : plainNumeral zs) (hws : plainNumeral ws)
    (hatof : ∀ tail, atof (ns ++ ',' :: tail) = n) (hn : n < 2 ^ 32)
    (hcount : chunkCount ≠ 0) (hcount64 : chunkCount < 2 ^ 64)
    (hmem : memorySize % 16 = 0) (hmem64 : memorySize < 2 ^ 64)
    (hbuffer : buffer + 16 < 2 ^ 64)
    (hscript : scriptBuffer + 76 ≤ buffer ∨ buffer + 16 ≤ scriptBuffer)
    (hscript64 : scriptBuffer + 76 < 2 ^ 64) :
    ∃ size ma mp ml,
      cranp_vm_buffer_size memorySize chunkCount = .ok size ∧
      cranp_vm_buffer_create m buffer memorySize chunkCount = .ok (buffer, ma) ∧
      cranp_test_parse_script atof ma scriptBuffer (twoLineScript ns rs xs ys zs ws)
        = .ok mp ∧
      TwoOpProgramAt mp scriptBuffer cranp_op_id_circle cranp_op_id_translate ∧
      cranp_init_script (cranp_init f) mp scriptBuffer = .ok ml ∧
      TwoOpProgramAt ml scriptBuffer f.cranp_op_circle f.cranp_op_translate ∧
      load ml (scriptBuffer + 48) 4 = n ∧
      cranp_vm_get_allocator ml buffer
        = { allocChunkCount := chunkCount
            allocChunkSize := memorySize / chunkCount
            buffer := buffer + 16 } := by
  obtain ⟨size, hsz⟩ := vm_buffer_size_ok memorySize chunkCount hcount hmem
  obtain ⟨ma, hcreate, hview⟩ := vm_buffer_create_ok m buffer memorySize chunkCount
    hcount hcount64 hmem64 hbuffer
  obtain ⟨r, x, y, z, w, hparse⟩ := parse_twoLineScript atof ma scriptBuffer n
    ns rs xs ys zs ws hns hrs hxs hys hzs hws hatof
  obtain ⟨hprog, hseg⟩ := twoOpProgramAt_assembled ma scriptBuffer n r x y z w hn
  have hframe := assembled_twoLineRecords_frame ma scriptBuffer n r x y z w
  obtain ⟨mp, hmp⟩ : ∃ mp, assembled ma scriptBuffer (twoLineRecords n r x y z w)
    = mp := ⟨_, rfl⟩
  rw [hmp] at hparse hprog hseg hframe
  clear hmp
  obtain ⟨ml, hlink, hprogl, hframel⟩ := link_twoOpProgram f hf64 mp scriptBuffer hscript64
    hprog
  have hsegl : load ml (scriptBuffer + 48) 4 = n := by
    rw [load_congr ml mp _ _ (fun a ha hb => hframel a (by omega))]
    exact hseg
  have hal : cranp_vm_get_allocator ml buffer
      = { allocChunkCount := chunkCount
          allocChunkSize := memorySize / chunkCount
          buffer := buffer + 16 } := by
    rw [get_allocator_congr mp ml buffer (by omega) (fun a ha hb => hframel a (by omega)),
      get_allocator_congr ma mp buffer (by omega) (fun a ha hb => hframe a (by omega))]
    exact hview
  exact ⟨size, ma, mp, ml, hsz, hcreate, hparse, hprog, hlink, hprogl, hsegl, hal⟩

/-- The test on a segment count that fits the 16-bit triangle counter.  For every integral
segment count `3 ≤ n < 2 ^ 16`, read by `atof` from the numeral `ns`, every arena of at
least 2 chunks whose `memorySize` is a multiple of 16 and whose chunk size is at least
`22 * n + 32`, the arena lying in the address space and the script buffer outside it:
parsing, linking and executing `circle 0 [] [ns,rs]`, `translate 1 [0] [xs,ys,zs,ws]`
returns with no assertion tripped.  The parsed program has the ids of circle and
translate, the output slots 0 and 1 and the input counts 0 and 1; circle requests
`16 + 16 * (n + 1) + 6 * n` bytes and returns; translate requests the same size and
returns. -/
theorem parse_link_execute_ok (atof : List Char → Nat) (fm : FloatModel) (hx : fm.Exact)
    (lane4 : Nat → Nat → Nat) (f : OpFuncs) (hf : f.cranp_op_circle ≠ f.cranp_op_translate)
    (hf64 : f.cranp_op_circle < 2 ^ 64 ∧ f.cranp_op_translate < 2 ^ 64)
    (fuel loopFuel : Nat) (m : Mem) (buffer memorySize chunkCount scriptBuffer n : Nat)
    (ns rs xs ys zs ws : List Char)
    (hns : plainNumeral ns) (hrs : plainNumeral rs) (hxs : plainNumeral xs)
    (hys : plainNumeral ys) (hzs : plainNumeral zs) (hws : plainNumeral ws)
    (hatof : ∀ tail, atof (ns ++ ',' :: tail) = f32OfNat n)
    (hn3 : 3 ≤ n) (hn16 : n < 2 ^ 16) (hfuel : n ≤ fuel)
    (hcount : 2 ≤ chunkCount)
    (hmem : memorySize % 16 = 0)
    (hchunk : 22 * n + 32 ≤ memorySize / chunkCount)
    (harena : buffer + (16 + memorySize + 16 * chunkCount) < 2 ^ 63)
    (hscript : scriptBuffer + 76 ≤ buffer
      ∨ buffer + (16 + memorySize / chunkCount * chunkCount + 16 * chunkCount)
          ≤ scriptBuffer)
    (hscript64 : scriptBuffer + 76 < 2 ^ 64) :
    ∃ ma mp ml g0 m1 m2,
      cranp_vm_buffer_create m buffer memorySize chunkCount = .ok (buffer, ma) ∧
      cranp_test_parse_script atof ma scriptBuffer (twoLineScript ns rs xs ys zs ws)
        = .ok mp ∧
      TwoOpProgramAt mp scriptBuffer cranp_op_id_circle cranp_op_id_translate ∧
      cranp_init_script (cranp_init f) mp scriptBuffer = .ok ml ∧
      circleAllocSize fm (load ml (scriptBuffer + 48) 4) = 16 + 16 * (n + 1) + 6 * n ∧
      cranp_op_circle fm fuel ml buffer 0 (scriptBuffer + 36) 0 (scriptBuffer + 48)
        = some (.ok m1) ∧
      cranp_vm_get_chunk m1 buffer 0 = .ok g0 ∧
      translateAllocSize fm (load_vec m1 g0) = 16 + 16 * (n + 1) + 6 * n ∧
      cranp_op_translate fm lane4 m1 buffer 1 (scriptBuffer + 40) 1 (scriptBuffer + 60)
        = .ok m2 ∧
      16 + 16 * (n + 1) + 6 * n ≤ (cranp_vm_get_allocator ml buffer).allocChunkSize ∧
      cranp_test_run atof fm lane4 f fuel loopFuel m buffer memorySize chunkCount
        scriptBuffer (twoLineScript ns rs xs ys zs ws) = some (.ok m2) := by
  have hcs : 2 * (memorySize / chunkCount) ≤ memorySize :=
    le_trans (by rw [Nat.mul_comm]; exact Nat.mul_le_mul_left _ hcount)
      (Nat.div_mul_le_self memorySize chunkCount)
  have hcs2 : 2 * (memorySize / chunkCount) ≤ memorySize / chunkCount * chunkCount := by
    rw [Nat.mul_comm]; exact Nat.mul_le_mul_left _ hcount
  obtain ⟨size, ma, mp, ml, hsz, hcreate, hparse, hprog, hlink, hprogl, hsegl, hal⟩ :=
    parse_link_stages atof f hf64 m buffer memorySize chunkCount scriptBuffer (f32OfNat n)
      ns rs xs ys zs ws hns hrs hxs hys hzs hws hatof (f32OfNat_lt n (by omega))
      (by omega) (by omega) hmem (by omega) (by omega) (by omega) hscript64
  have hreq : circleAllocSize fm (f32OfNat n) = 16 + 16 * (n + 1) + 6 * n := by
    unfold circleAllocSize sizeof_cranm_vec_t sizeof_cranp_triangle_t
    rw [hx.toUInt32_exact n (by omega)]
    omega
  obtain ⟨g0, m1, m2, hrun1, hg0, hreq2, hrun2, hexec⟩ := two_op_program_runs fm hx lane4 f hf
    fuel loopFuel ml buffer scriptBuffer n hn3 hn16 hfuel hprogl hsegl
    (by rw [hal]; exact hcount) (by rw [hal]; simp only; omega)
    (by rw [hal]; simp only; omega) (by rw [hal]; simp only; omega) hscript64
  refine ⟨ma, mp, ml, g0, m1, m2, hcreate, hparse, hprog, hlink, ?_, hrun1, hg0, hreq2, hrun2,
    ?_, ?_⟩
  · rw [hsegl]; exact hreq
  · rw [hal]; simp only; omega
  · exact test_run_of_stages atof fm lane4 f fuel loopFuel m ma mp ml m2 buffer memorySize
      chunkCount scriptBuffer size _ hsz hcreate hparse hlink hexec

theorem atofDecimal_test_numeral (tail : List Char) :
    atofDecimal (['1', '0', '0', '0', '0', '.', '0'] ++ ',' :: tail) = f32OfNat 10000 := by
  simp [atofDecimal, atoiDigits, List.dropWhile, List.takeWhile]

/-- The repository's test: `cranp_test_script_basic`, whose first numeral is `10000.0`, on
an arena of `1 << 20` bytes in 4 chunks, so that the request of
`16 + 16 * 10001 + 6 * 10000 = 220032` bytes is within the chunk size 262144. -/
theorem test_script_basic_runs :
    ∃ ma mp ml g0 m1 m2,
      cranp_vm_buffer_create zeroMem 4096 1048576 4 = .ok (4096, ma) ∧
      cranp_test_parse_script atofDecimal ma 2097152 cranp_test_script_basic = .ok mp ∧
      TwoOpProgramAt mp 2097152 cranp_op_id_circle cranp_op_id_translate ∧
      cranp_init_script (cranp_init exampleFuncs) mp 2097152 = .ok ml ∧
      circleAllocSize natFloats (load ml (2097152 + 48) 4) = 16 + 16 * (10000 + 1) + 6 * 10000 ∧
      cranp_op_circle natFloats 10000 ml 4096 0 (2097152 + 36) 0 (2097152 + 48)
        = some (.ok m1) ∧
      cranp_vm_get_chunk m1 4096 0 = .ok g0 ∧
      translateAllocSize natFloats (load_vec m1 g0) = 16 + 16 * (10000 + 1) + 6 * 10000 ∧
      cranp_op_translate natFloats (fun _ _ => 0) m1 4096 1 (2097152 + 40) 1 (2097152 + 60)
        = .ok m2 ∧
      16 + 16 * (10000 + 1) + 6 * 10000 ≤ (cranp_vm_get_allocator ml 4096).allocChunkSize ∧
      cranp_test_run atofDecimal natFloats (fun _ _ => 0) exampleFuncs 10000 0 zeroMem
        4096 1048576 4 2097152 cranp_test_script_basic = some (.ok m2) := by
  rw [script_basic_is_twoLineScript]
  exact parse_link_execute_ok atofDecimal natFloats natFloats_exact (fun _ _ => 0)
    exampleFuncs (by decide) (by decide) 10000 0 zeroMem 4096 1048576 4 2097152 10000
    _ _ _ _ _ _ (by decide) (by decide) (by decide) (by decide) (by decide) (by decide)
    atofDecimal_test_numeral (by decide) (by decide) (by decide) (by decide) (by decide)
    (by decide) (by decide) (by decide) (by decide)

/-! ## A segment count that does not fit the 16-bit triangle counter -/

/-- With `2 ^ 16` triangles or more the 16-bit counter never reaches the triangle count:
the triangle loop does not end, whatever the fuel. -/
theorem circleTriangles_stuck (n : Nat) (hn : 2 ^ 16 ≤ n) :
    ∀ (fuel k : Nat) (m : Mem) (wh : Nat), k < 2 ^ 16 →
      circleTriangles n fuel k m wh = none := by
  intro fuel
  induction fuel with
  | zero =>
    intro k m wh hk
    rw [circleTriangles, if_pos (by omega)]
  | succ fuel ih =>
    intro k m wh hk
    rw [circleTriangles, if_pos (by omega)]
    exact ih _ _ _ (Nat.mod_lt _ (by norm_num))

/-- A run of `cranp_op_circle` for an integral segment count from `2 ^ 16` on: the
assertions pass and the chunk holds the request, but the operation does not return. -/
theorem circle_stuck (fm : FloatModel) (hx : fm.Exact)
    (fuel : Nat) (m : Mem) (vm slotId inputs params n chunk : Nat)
    (hn16 : 2 ^ 16 ≤ n) (hn24 : n + 1 ≤ 2 ^ 24)
    (hseg : load m params 4 = f32OfNat n)
    (hsize : 16 + 16 * (n + 1) + 6 * n ≤ (cranp_vm_get_allocator m vm).allocChunkSize)
    (hchunk : cranp_vm_get_chunk m vm slotId = .ok chunk) :
    cranp_op_circle fm fuel m vm slotId inputs 0 params = none := by
  have hge : fm.ge (f32OfNat n) (f32OfNat 3) = true := by
    rw [hx.ge_exact n 3 (by omega) (by norm_num)]
    exact decide_eq_true (by omega)
  have hreq : circleAllocSize fm (f32OfNat n) = 16 + 16 * (n + 1) + 6 * n := by
    unfold circleAllocSize sizeof_cranm_vec_t sizeof_cranp_triangle_t
    rw [hx.toUInt32_exact n (by omega)]
    omega
  have halloc : cranp_vm_alloc_chunk m vm slotId (16 + 16 * (n + 1) + 6 * n)
      = .ok (chunk, m) := alloc_chunk_of_get m vm slotId _ chunk hsize hchunk
  unfold cranp_op_circle
  simp only [if_true, hseg, hge, hreq, halloc, hx.toUInt32_exact n (by omega)]
  cases circleVertices fm (f32OfNat n) (load m (cranp_advance params 4) 4)
      (fm.div (fm.mul (f32OfNat 2) fm.cranm_pi) (f32OfNat n)) fuel 0
      (store_vec (store_vec m chunk (fm.add (f32OfNat n) (f32OfNat 1)) (f32OfNat n) 0 0)
        (cranp_advance chunk sizeof_cranm_vec_t) 0 0 0 0)
      (cranp_advance (cranp_advance chunk sizeof_cranm_vec_t) sizeof_cranm_vec_t) with
  | none => rfl
  | some r =>
    obtain ⟨mv, wh⟩ := r
    simp only
    rw [circleTriangles_stuck n hn16 fuel 0 mv wh (by norm_num)]

theorem opsMachine_call_circle_stuck (fm : FloatModel) (lane4 : Nat → Nat → Nat)
    (f : OpFuncs) (fuel : Nat) (m : Mem) (vm slotId inputs inputCount params : Nat)
    (h : cranp_op_circle fm fuel m vm slotId inputs inputCount params = none) :
    (opsMachine fm lane4 f fuel).call
      (Invocation.mk f.cranp_op_circle vm slotId inputs inputCount params) (some m)
      = .ok none := by
  unfold opsMachine
  simp only
  rw [if_pos trivial, h]

/-- The interpreter on the two-operation program when the first operation leaves a
state in which every call returns at once: it returns that state. -/
theorem execute_twoOpProgram_stuck {σ : Type} (M : Machine σ) (fuel : Nat) (s s1 : σ)
    (vm script circle translate : Nat) (hfit : script + 76 < 2 ^ 64)
    (hp : TwoOpProgramAt (M.mem s) script circle translate)
    (hcall1 : M.call (Invocation.mk circle vm 0 (script + 36) 0 (script + 48)) s = .ok s1)
    (hstuck : ∀ inv, M.call inv s1 = .ok s1) :
    cranp_vm_execute_script M fuel s vm script = some (.ok s1) := by
  obtain ⟨h1, h2, _, h4, _, h6, h7, _, _, _, _⟩ := hp
  have adv : ∀ k j, k + j ≤ 76 → cranp_advance (script + k) j = script + (k + j) := by
    intro k j hkj
    rw [advance_of_lt _ _ (by omega), Nat.add_assoc]
  have adv0 : ∀ j, j ≤ 76 → cranp_advance script j = script + j := by
    intro j hj
    rw [advance_of_lt _ _ (by omega)]
  have a1 : cranp_advance script 4 = script + 4 := adv0 _ (by decide)
  have a2 : cranp_advance (script + 4) (2 * 8) = script + 20 := adv 4 16 (by decide)
  have a3 : cranp_advance script (4 + 2 * 8) = script + 20 := adv0 20 (by decide)
  have a4 : cranp_advance script (4 + 2 * 8 + 2 * 4) = script + 28 := adv0 28 (by decide)
  have a5 : cranp_advance (script + 28) 4 = script + 32 := adv 28 4 (by decide)
  have a6 : cranp_advance script (4 + 2 * 8 + 2 * 4 + 16) = script + 44 := adv0 44 (by decide)
  have b1 : cranp_advance (script + 32) 4 = script + 36 := adv 32 4 (by decide)
  have b2 : cranp_advance (script + 44) 4 = script + 48 := adv 44 4 (by decide)
  have b3 : cranp_advance (script + 4) 8 = script + 12 := adv 4 8 (by decide)
  have c3 : cranp_advance (script + 12) 8 = script + 20 := adv 12 8 (by decide)
  have hpro : ∃ c, execPrologue M vm 2
      { ops := script + 4, slotIds := script + 20, inputs := script + 32,
        params := script + 44 } s = .ok (c, s1) ∧ c.ops = script + 20 := by
    rw [execPrologue]
    simp only [h7, h2, h4, b1, b2, hcall1, sizeof_cranp_opf_t, sizeof_uint32_t, b3]
    rw [execPrologue]
    simp only [hstuck, sizeof_cranp_opf_t, c3]
    rw [execPrologue]
    exact ⟨_, rfl, rfl⟩
  obtain ⟨c, hc, hops⟩ := hpro
  unfold cranp_vm_execute_script
  simp only [h1, sizeof_uint32_t, sizeof_cranp_opf_t, a1, a2, a3, a4, h6, a5, a6,
    show 2 % 4 = 2 from rfl, hc]
  cases fuel <;> simp [execLoop, hops]

theorem test_run_stuck_of_stages (atof : List Char → Nat) (fm : FloatModel)
    (lane4 : Nat → Nat → Nat) (f : OpFuncs) (fuel loopFuel : Nat) (m ma mp ml : Mem)
    (buffer memorySize chunkCount scriptBuffer size : Nat) (text : List Char)
    (h1 : cranp_vm_buffer_size memorySize chunkCount = .ok size)
    (h2 : cranp_vm_buffer_create m buffer memorySize chunkCount = .ok (buffer, ma))
    (h3 : cranp_test_parse_script atof ma scriptBuffer text = .ok mp)
    (h4 : cranp_init_script (cranp_init f) mp scriptBuffer = .ok ml)
    (h5 : cranp_vm_execute_script (opsMachine fm lane4 f fuel) loopFuel (some ml) buffer
      scriptBuffer = some (.ok none)) :
    cranp_test_run atof fm lane4 f fuel loopFuel m buffer memorySize chunkCount scriptBuffer
      text = none := by
  unfold cranp_test_run
  rw [h1]
  simp only
  rw [h2]
  simp only
  rw [h3]
  simp only
  rw [h4]
  simp only
  rw [h5]

theorem atofDecimal_wide_numeral (tail : List Char) :
    atofDecimal (['6', '5', '5', '3', '6', '.', '0'] ++ ',' :: tail) = f32OfNat 65536 := by
  simp [atofDecimal, atoiDigits, List.dropWhile, List.takeWhile]

theorem wideCircleScript_is_twoLineScript :
    wideCircleScript
      = twoLineScript ['6', '5', '5', '3', '6', '.', '0'] ['1', '0', '.', '0']
          ['1', '0', '.', '0'] ['1', '0', '.', '0'] ['1', '0', '.', '0']
          ['0', '.', '0', 'f'] := by
  decide

/-- C14 (the code at the failing inputs): the test script with `n = 65536`, on an arena
of 2883648 bytes in 2 chunks.  `n` is integral and at least 3, `memorySize` is a multiple
of 16 and the chunk size 1441824 is `22 * n + 32`; no assertion trips, yet the run does
not return, whatever the fuel: the 16-bit triangle counter of circle never reaches the
32-bit count 65536, so circle does not return and translate is never called.  And for
`n = 2 ^ 28` the request of circle, which is stored in a `uint32_t`, is 1610612768 bytes
and not `16 + 16 * (n + 1) + 6 * n`. -/
theorem wide_circle_run_never_returns :
    natFloats.toUInt32 (f32OfNat 65536) = 65536 ∧
    3 ≤ 65536 ∧ 2 ≤ 2 ∧ 2883648 % 16 = 0 ∧ 22 * 65536 + 32 ≤ 2883648 / 2 ∧
    (∀ fuel loopFuel,
      cranp_test_run atofDecimal natFloats (fun _ _ => 0) exampleFuncs fuel loopFuel zeroMem
        4096 2883648 2 8388608 wideCircleScript = none) ∧
    natFloats.toUInt32 (f32OfNat 268435456) = 268435456 ∧
    circleAllocSize natFloats (f32OfNat 268435456) = 1610612768 ∧
    1610612768 < 16 + 16 * (268435456 + 1) + 6 * 268435456 := by
  refine ⟨by decide, by decide, by decide, by decide, by decide, ?_, by decide, by decide,
    by decide⟩
  intro fuel loopFuel
  obtain ⟨size, ma, mp, ml, hsz, hcreate, hparse, _, hlink, hprogl, hsegl, hal⟩ :=
    parse_link_stages atofDecimal exampleFuncs (by decide) zeroMem 4096 2883648 2 8388608
      (f32OfNat 65536) ['6', '5', '5', '3', '6', '.', '0'] ['1', '0', '.', '0']
      ['1', '0', '.', '0'] ['1', '0', '.', '0'] ['1', '0', '.', '0'] ['0', '.', '0', 'f']
      (by decide) (by decide) (by decide) (by decide) (by decide) (by decide)
      atofDecimal_wide_numeral (by decide) (by decide) (by decide) (by decide) (by decide)
      (by decide) (by decide) (by decide)
  rw [← wideCircleScript_is_twoLineScript] at hparse
  have hget := get_chunk_of_fits (cranp_vm_get_allocator ml 4096) 0
    (by rw [hal]; decide) (by rw [hal]; decide)
  have hstuck := circle_stuck natFloats natFloats_exact fuel ml 4096 0 (8388608 + 36)
    (8388608 + 48) 65536 _ (by decide) (by decide) hsegl (le_of_eq (by rw [hal])) hget
  have hcall := opsMachine_call_circle_stuck natFloats (fun _ _ => 0) exampleFuncs fuel ml
    4096 0 (8388608 + 36) 0 (8388608 + 48) hstuck
  have hexec := execute_twoOpProgram_stuck (opsMachine natFloats (fun _ _ => 0) exampleFuncs
    fuel) loopFuel (some ml) none 4096 8388608 _ _ (by decide)
    (by rw [opsMachine_mem]; exact hprogl) hcall (fun _ => rfl)
  exact test_run_stuck_of_stages atofDecimal natFloats (fun _ _ => 0) exampleFuncs fuel
    loopFuel zeroMem ma mp ml 4096 2883648 2 8388608 size _ hsz hcreate hparse hlink hexec

end Cranp
